import Mathlib

/-!
# Product filters of IfcOpenShell (`IfcGeomFilter.h`, `filters.h`)

A shallow embedding of the product filters used by `IfcGeom::Iterator` and of the
filter set-up code of IfcConvert, followed by theorems about them.

Conventions of the embedding:

* `std::string` is `List Char` (abbreviated `Str`);
* `std::set<T>` is a strictly ascending list, `std::map<K, V>` a list of pairs
  strictly ascending in the key;
* a C++ function that can throw returns `Option`/`Except`;
* the `while` loop of `filter::traverse_match` is driven by a fuel argument,
  because the decomposition graph is reached through pointers and may be cyclic.
-/

namespace IfcGeom

/-- Strings of the program (`std::string`). -/
abbrev Str := List Char

/-! ## `struct filter` -/

/-- The base class `IfcGeom::filter`. -/
structure filter where
  /-- Should the product be included (true) or excluded (false).  The member `include`
  of the source; the bare word is reserved in Lean. -/
  include_ : Bool := false
  /-- If traversal requested, traverse to the parents to see if they satisfy the criteria. -/
  traverse : Bool := false
  /-- Optional description for the filtering criteria of this filter. -/
  description : Str := []
deriving DecidableEq, Repr

/-- The loop of `filter::traverse_match`.  `parent p` stands for
`dynamic_cast<IfcProduct*>(Kernel::get_decomposing_entity(p))`, with `none` for the
null pointer.  One unit of fuel is spent on each evaluation of the loop condition;
`none` means that the fuel ran out before the loop ended. -/
def traverse_match {P : Type} (parent : P → Option P) (pred : P → Bool) :
    Nat → P → Option Bool
  | 0, _ => none
  | fuel + 1, current =>
    match parent current with
    | none => some false
    | some p => if pred p then some true else traverse_match parent pred fuel p

/-- The method `filter::match(prod, pred)`. -/
def filter_match {P : Type} (f : filter) (parent : P → Option P) (fuel : Nat)
    (prod : P) (pred : P → Bool) : Option Bool :=
  let is_match := pred prod
  if !is_match && f.traverse then
    (traverse_match parent pred fuel prod).map (fun m => m == f.include_)
  else
    some (is_match == f.include_)

/-- The relation `Ancestor parent e a`: `a` is reached from `e` by one or more parent
steps, that is, `a` is an ancestor in the decomposition chain of `e`. -/
inductive Ancestor {P : Type} (parent : P → Option P) : P → P → Prop
  | direct {e a : P} : parent e = some a → Ancestor parent e a
  | step {e p a : P} : parent e = some p → Ancestor parent p a → Ancestor parent e a

/-- The predicate `ChainEnds parent n e`: the decomposition chain of `e` is finite and
has exactly `n` ancestors. -/
def ChainEnds {P : Type} (parent : P → Option P) : Nat → P → Prop
  | 0, e => parent e = none
  | n + 1, e => ∃ p, parent e = some p ∧ ChainEnds parent n p

/-! ## Model of the external library: `boost::replace_all` and Boost.Regex -/

/-- Worker of `replace_all`: scans the input from the left; `skip` counts the characters
of the current occurrence of `search` that are still to be dropped. -/
def replace_all_aux (search format : Str) : Nat → Str → Str
  | _, [] => []
  | skip + 1, _ :: cs => replace_all_aux search format skip cs
  | 0, c :: cs =>
    if search.isPrefixOf (c :: cs) && !search.isEmpty then
      format ++ replace_all_aux search format (search.length - 1) cs
    else
      c :: replace_all_aux search format 0 cs

/-- The call `boost::replace_all(input, search, format)` of Boost.StringAlgo: every
non-overlapping occurrence of `search`, found from the left, is replaced by `format`;
replaced text is not rescanned.  The program only searches for one-character strings. -/
def replace_all (input search format : Str) : Str :=
  replace_all_aux search format 0 input

/-- An atom of a regular expression: a literal character or `.`, which under the default
match flags of Boost.Regex matches any single character. -/
inductive regex_atom where
  | literal (c : Char)
  | any_char
deriving DecidableEq, Repr

/-- One state of a compiled expression: an atom repeated at least `min` and at most
`max` times (`none`: no upper bound); `quantified` tells that a repeat was written
after the atom. -/
structure regex_item where
  atom : regex_atom
  min : Nat := 1
  max : Option Nat := some 1
  quantified : Bool := false
deriving DecidableEq, Repr

/-- Where the parser of regular expressions stands. -/
inductive parse_mode where
  /-- Between atoms. -/
  | normal
  /-- A backslash has just been read. -/
  | escape
  /-- After `{` and the digits read so far of the lower bound. -/
  | brace_min (digits : Str)
  /-- After `{min,` and the digits read so far of the upper bound. -/
  | brace_max (lower : Str) (digits : Str)
deriving DecidableEq, Repr

/-- State of the parser: the items read so far, most recent first, and the mode. -/
structure parse_state where
  items : List regex_item := []
  mode : parse_mode := parse_mode.normal
deriving DecidableEq, Repr

/-- The characters with a special meaning in the default (Perl) syntax of Boost.Regex:
`.[{}()\*+?|^$`. -/
def regex_syntax_chars : Str := ".[\x7b\x7d()\\*+?|^$".toList

/-- Value of a string of decimal digits. -/
def digits_value (ds : Str) : Nat :=
  ds.foldl (fun n c => 10 * n + (c.toNat - 48)) 0

/-- Applies a repeat to the most recent item.  With nothing to repeat, or after another
repeat, Boost.Regex raises `regex_error` (`error_badrepeat`), here `none`. -/
def apply_repeat (lo : Nat) (hi : Option Nat) : List regex_item → Option parse_state
  | [] => none
  | it :: rest =>
    if it.quantified then none
    else some { items := { atom := it.atom, min := lo, max := hi, quantified := true } :: rest }

/-- Appends literal characters to the items (most recent first). -/
def push_literals (cs : Str) (items : List regex_item) : List regex_item :=
  (cs.map (fun c => ({ atom := regex_atom.literal c } : regex_item))).reverse ++ items

/-- One character read between atoms. -/
def normal_step (items : List regex_item) (c : Char) : Option parse_state :=
  if c = '\\' then some { items := items, mode := parse_mode.escape }
  else if c = '.' then some { items := { atom := regex_atom.any_char } :: items }
  else if c = '*' then apply_repeat 0 none items
  else if c = '{' then
    match items with
    | [] => some { items := items, mode := parse_mode.brace_min [] }
    | it :: _ =>
      if it.quantified then none
      else some { items := items, mode := parse_mode.brace_min [] }
  else if c = '}' then some { items := push_literals [c] items }
  else if c ∈ regex_syntax_chars then none
  else some { items := push_literals [c] items }

/-- One character of the expression text.  `none`: Boost.Regex raises `regex_error`, or
the text leaves the part of the syntax that `wildcard_string_to_regex` can produce
(sets, groups, alternation, anchors, `+`, `?`, escapes of letters and digits, blanks
inside `{}`), which is not modelled. -/
def regex_step (st : parse_state) (c : Char) : Option parse_state :=
  match st.mode with
  | parse_mode.normal => normal_step st.items c
  | parse_mode.escape =>
    if c ∈ regex_syntax_chars ∨ c = ']' ∨ c = '/' then
      some { items := push_literals [c] st.items }
    else none
  | parse_mode.brace_min ds =>
    if c.isDigit then some { items := st.items, mode := parse_mode.brace_min (ds ++ [c]) }
    else if c.isWhitespace then none
    else if ds = [] then normal_step (push_literals ['{'] st.items) c
    else if c = ',' then some { items := st.items, mode := parse_mode.brace_max ds [] }
    else if c = '}' then apply_repeat (digits_value ds) (some (digits_value ds)) st.items
    else normal_step (push_literals ('{' :: ds) st.items) c
  | parse_mode.brace_max lo ds =>
    if c.isDigit then some { items := st.items, mode := parse_mode.brace_max lo (ds ++ [c]) }
    else if c.isWhitespace then none
    else if c = '}' then
      if ds = [] then apply_repeat (digits_value lo) none st.items
      else if digits_value ds < digits_value lo then none
      else apply_repeat (digits_value lo) (some (digits_value ds)) st.items
    else normal_step (push_literals ('{' :: lo ++ ',' :: ds) st.items) c

/-- Reads the whole expression text, one character at a time. -/
def regex_steps : parse_state → Str → Option parse_state
  | st, [] => some st
  | st, c :: cs =>
    match regex_step st c with
    | none => none
    | some st2 => regex_steps st2 cs

/-- End of the expression text: an unfinished `{...` is a run of literal characters, a
trailing backslash is an error. -/
def regex_finish (st : parse_state) : Option (List regex_item) :=
  match st.mode with
  | parse_mode.normal => some st.items.reverse
  | parse_mode.escape => none
  | parse_mode.brace_min ds => some (push_literals ('{' :: ds) st.items).reverse
  | parse_mode.brace_max lo ds => some (push_literals ('{' :: lo ++ ',' :: ds) st.items).reverse

/-- A compiled `boost::regex`: the expression text (`basic_regex::str()`, by which
`std::set<boost::regex>` orders its elements) and the items it compiles to. -/
structure regex where
  str : Str
  items : List regex_item
deriving DecidableEq, Repr

/-- The constructor `boost::regex(str)` with default flags, for the part of the Perl
syntax that `wildcard_string_to_regex` can produce: literal characters, escaped special
characters, `.`, `*` after an atom, and the bounded repeats `{n}`, `{n,}`, `{n,m}` (a `{`
that does not start a well-formed bound is a literal, as in Perl).  `none`: the
constructor throws `regex_error`, or the text is outside this part of the syntax. -/
def regex.compile (str : Str) : Option regex :=
  match regex_steps {} str with
  | none => none
  | some st =>
    match regex_finish st with
    | none => none
    | some items => some { str := str, items := items }

/-- Does the atom accept this character? -/
def regex_atom.accepts : regex_atom → Char → Bool
  | regex_atom.literal c, d => c == d
  | regex_atom.any_char, _ => true

/-- Matches between `lo` and `hi` characters accepted by `a`, then hands the rest of the
input to `k`. -/
def match_repeat (a : regex_atom) (k : Str → Bool) : Nat → Option Nat → Str → Bool
  | lo, _, [] => lo == 0 && k []
  | lo, hi, c :: cs =>
    (lo == 0 && k (c :: cs)) ||
    (hi != some 0 && a.accepts c && match_repeat a k (lo - 1) (hi.map (· - 1)) cs)

/-- Do the items match exactly the whole input? -/
def match_items : List regex_item → Str → Bool
  | [], s => s.isEmpty
  | it :: rest, s => match_repeat it.atom (match_items rest) it.min it.max s

/-- The call `boost::regex_match(str, r)`: true when the expression matches all of `str`. -/
def regex_match (str : Str) (r : regex) : Bool :=
  match_items r.items str

/-! ## `std::set` and `std::map` -/

/-- The call `s.insert(x)` on a `std::set` ordered by `lt`: the element is put at its
place in ascending order, and nothing changes when an equivalent element is there. -/
def set_insert {α : Type} (lt : α → α → Bool) (x : α) : List α → List α
  | [] => [x]
  | y :: ys =>
    if lt x y then x :: y :: ys
    else if lt y x then y :: set_insert lt x ys
    else y :: ys

/-- Order of `std::string`: lexicographic, character by character. -/
def str_lt (a b : Str) : Bool := decide (a < b)

/-- Order of `boost::regex` objects (`basic_regex::compare`): by expression text. -/
def regex_lt (a b : regex) : Bool := str_lt a.str b.str

/-- Order of the values of `IfcSchema::Type::Enum`. -/
def enum_lt (a b : Nat) : Bool := decide (a < b)

/-- The call `m.insert(std::make_pair(k, v))` on a `std::map` with string keys: returns
the new map and whether the pair was inserted; an existing entry is left as it is. -/
def map_insert {β : Type} (k : Str) (v : β) : List (Str × β) → List (Str × β) × Bool
  | [] => ([(k, v)], true)
  | (k2, v2) :: rest =>
    if str_lt k k2 then ((k, v) :: (k2, v2) :: rest, true)
    else if str_lt k2 k then
      let r := map_insert k v rest
      ((k2, v2) :: r.1, r.2)
    else ((k2, v2) :: rest, false)

/-- Lookup of a key in a `std::map` with string keys. -/
def map_find {β : Type} (k : Str) : List (Str × β) → Option β
  | [] => none
  | (k2, v2) :: rest => if k2 = k then some v2 else map_find k rest

/-! ## `struct wildcard_filter` -/

/-- The class `IfcGeom::wildcard_filter`: a `filter` with a set of compiled patterns. -/
structure wildcard_filter extends filter where
  values : List regex := []
deriving DecidableEq, Repr

/-- The string `special_chars` of `wildcard_string_to_regex`. -/
def special_chars : Str := "\\^.$|()[]+/".toList

/-- The function `wildcard_filter::wildcard_string_to_regex`.  `none`: the constructor
of `boost::regex` throws. -/
def wildcard_string_to_regex (str : Str) : Option regex :=
  -- Escape all non-"*?" regex special chars
  let str := special_chars.foldl (fun s c => replace_all s [c] ('\\' :: [c])) str
  -- Convert "*?" to their regex equivalents
  let str := replace_all str ['?'] ['.']
  let str := replace_all str ['*'] ['.', '*']
  regex.compile str

/-- The loop of `wildcard_filter::populate` over the patterns, in ascending order. -/
def populate_values : List Str → List regex → Option (List regex)
  | [], values => some values
  | pattern :: rest, values =>
    match wildcard_string_to_regex pattern with
    | none => none
    | some r => populate_values rest (set_insert regex_lt r values)

/-- The method `wildcard_filter::populate`.  `none`: a `regex_error` leaves the method. -/
def wildcard_filter.populate (f : wildcard_filter) (patterns : List Str) :
    Option wildcard_filter :=
  match populate_values patterns [] with
  | none => none
  | some vs => some { f with values := vs }

/-- The function `wildcard_filter::match_values`. -/
def match_values : List regex → Str → Bool
  | [], _ => false
  | r :: rest, str => if regex_match str r then true else match_values rest str

/-- The method `wildcard_filter::match(const std::string&)`. -/
def wildcard_filter.match_str (f : wildcard_filter) (str : Str) : Bool :=
  match_values f.values str

/-! ## The schema, the products and the geometry kernel (external to these files) -/

/-- The type `IfcUtil::ArgumentType`, as far as the filters look at it. -/
inductive ArgumentType where
  | Argument_STRING
  | Argument_OTHER
deriving DecidableEq, Repr

/-- The functions of `IfcSchema::Type` that the filters call.  The values of
`Type::Enum` other than `UNDEFINED` are numbered by `Nat`; `none` stands for a thrown
`IfcParse::IfcException`. -/
structure Schema where
  /-- The function `Type::FromString`, which wants the name in capitals. -/
  FromString : Str → Option Nat
  /-- The function `Type::GetAttributeIndex(type, name)`. -/
  GetAttributeIndex : Nat → Str → Option Nat
  /-- The function `Type::GetAttributeType(type, index)`. -/
  GetAttributeType : Nat → Nat → Option ArgumentType
  /-- The relation `is_a sub sup`: instances of `sub` answer true to `is(sup)`. -/
  is_a : Nat → Nat → Bool

/-- An attribute value of an entity instance (`Argument`). -/
inductive Argument where
  /-- The null value: `isNull()` holds. -/
  | null
  /-- A value that converts to `std::string`. -/
  | string (s : Str)
  /-- A value of another kind; its conversion to `std::string` throws. -/
  | other
deriving DecidableEq, Repr

/-- An instance of `IfcSchema::IfcProduct`, as far as the filters look at it. -/
structure IfcProduct where
  /-- Identity of the instance. -/
  id : Nat
  /-- The value of `prod->type()`. -/
  type : Nat
  /-- The values of `prod->entity->getArgument(i)`; beyond the end of the list the call
  throws. -/
  arguments : List Argument
deriving DecidableEq, Repr

/-- The functions of `IfcGeom::Kernel` that the filters call. -/
structure Kernel where
  /-- The value of `dynamic_cast<IfcProduct*>(Kernel::get_decomposing_entity(prod))`;
  `none` is the null pointer. -/
  get_decomposing_entity : IfcProduct → Option IfcProduct
  /-- The value of `Kernel::get_layers(prod)`: the layer assignments of the product by
  layer name. -/
  get_layers : IfcProduct → List (Str × Nat)

/-! ## `struct string_arg_filter` -/

/-- The class `IfcGeom::string_arg_filter`.  `type = none` is `Type::UNDEFINED`. -/
structure string_arg_filter extends wildcard_filter where
  /-- Set to UNDEFINED in order to try matching the arg_name with every type. -/
  type : Option Nat := none
  /-- If type is defined, using index to access the attribute as an optimization. -/
  arg_index : Nat := 0
  arg_name : Str := []
deriving DecidableEq, Repr

/-- Worker of `split_compress`: `cur` is the token being read, `in_delims` tells that
the previous character was a delimiter. -/
def split_compress_aux (is_delim : Char → Bool) : Str → Bool → Str → List Str
  | cur, _, [] => [cur]
  | cur, in_delims, c :: cs =>
    if is_delim c then
      if in_delims then split_compress_aux is_delim cur true cs
      else cur :: split_compress_aux is_delim [] true cs
    else split_compress_aux is_delim (cur ++ [c]) false cs

/-- The call `boost::split(result, input, is_delim, boost::token_compress_on)`: the
input is cut at every run of delimiters; there is always at least one token, and a
delimiter at either end gives an empty token there. -/
def split_compress (is_delim : Char → Bool) (input : Str) : List Str :=
  split_compress_aux is_delim [] false input

/-- The call `boost::to_upper_copy(s)`. -/
def to_upper_copy (s : Str) : Str := s.map Char.toUpper

/-- The call `boost::all(s, boost::is_alpha())`. -/
def all_alpha (s : Str) : Bool := s.all Char.isAlpha

/-- The errors of the constructor of `string_arg_filter`. -/
inductive arg_filter_error where
  /-- The error "Invalid input string": the text is neither `IfcType.AttributeName` nor
  `AttributeName`. -/
  | invalid_input_string
  /-- The schema does not know the type, or the type does not have the attribute. -/
  | schema_lookup
  /-- The error "Only attributes that are handled as a string supported for now." -/
  | not_a_string
deriving DecidableEq, Repr

/-- The constructor `string_arg_filter(const std::string&)`. -/
def string_arg_filter.create (S : Schema) (str : Str) :
    Except arg_filter_error string_arg_filter :=
  let values := split_compress (fun c => c = '.') str
  if values.isEmpty || values.length > 2 || !all_alpha (values.getD 0 []) ||
      (values.length == 2 && !all_alpha (values.getD 1 [])) then
    Except.error arg_filter_error.invalid_input_string
  else if values.length == 2 then
    match S.FromString (to_upper_copy (values.getD 0 [])) with
    | none => Except.error arg_filter_error.schema_lookup
    | some type =>
      let arg_name := values.getD 1 []
      match S.GetAttributeIndex type arg_name with
      | none => Except.error arg_filter_error.schema_lookup
      | some index =>
        let arg_index := index % 256
        match S.GetAttributeType type arg_index with
        | none => Except.error arg_filter_error.schema_lookup
        | some arg_type =>
          if arg_type ≠ ArgumentType.Argument_STRING then
            Except.error arg_filter_error.not_a_string
          else
            Except.ok { type := some type, arg_index := arg_index, arg_name := arg_name }
  else
    Except.ok { type := none, arg_name := values.getD 0 [] }

/-- The index `idx` that `string_arg_filter::value` computes: the stored `arg_index`
when the filter has a type, else the index of `arg_name` on the type of the product.
`none`: `GetAttributeIndex` throws. -/
def string_arg_filter.index (S : Schema) (f : string_arg_filter) (prod : IfcProduct) :
    Option Nat :=
  match f.type with
  | some _ => some f.arg_index
  | none => S.GetAttributeIndex prod.type f.arg_name

/-- The method `string_arg_filter::value`.  Every exception of the lookup is caught
and gives the empty string. -/
def string_arg_filter.value (S : Schema) (f : string_arg_filter) (prod : IfcProduct) : Str :=
  match f.index S prod with
  | none => []
  | some idx =>
    match prod.arguments.get? idx with
    | none => []
    | some Argument.null => []
    | some (Argument.string s) => s
    | some Argument.other => []

/-- Attribute resolution fails for this product: the index lookup throws, there is no
argument at the index, or the argument is null or not a string. -/
def string_arg_filter.resolution_fails (S : Schema) (f : string_arg_filter)
    (prod : IfcProduct) : Bool :=
  match f.index S prod with
  | none => true
  | some idx =>
    match prod.arguments.get? idx with
    | some (Argument.string _) => false
    | _ => true

/-- The method `string_arg_filter::match`. -/
def string_arg_filter.match_prod (S : Schema) (f : string_arg_filter) (prod : IfcProduct) :
    Bool :=
  f.towildcard_filter.match_str (f.value S prod)

/-- The call operator of `string_arg_filter`. -/
def string_arg_filter.call (S : Schema) (K : Kernel) (f : string_arg_filter) (fuel : Nat)
    (prod : IfcProduct) : Option Bool :=
  filter_match f.tofilter K.get_decomposing_entity fuel prod (f.match_prod S)

/-! ## `struct layer_filter` -/

/-- The class `IfcGeom::layer_filter`. -/
structure layer_filter extends wildcard_filter
deriving DecidableEq, Repr

/-- The functor `layer_filter::wildcards_match`, applied to an entry of the layer map. -/
def wildcards_match (patterns : List regex) (layer_map_value : Str × Nat) : Bool :=
  match_values patterns layer_map_value.1

/-- The method `layer_filter::match`: `std::find_if` over the layers of the product. -/
def layer_filter.match_prod (K : Kernel) (f : layer_filter) (prod : IfcProduct) : Bool :=
  let layers := K.get_layers prod
  (layers.find? (wildcards_match f.values)).isSome

/-- The call operator of `layer_filter`. -/
def layer_filter.call (K : Kernel) (f : layer_filter) (fuel : Nat) (prod : IfcProduct) :
    Option Bool :=
  filter_match f.tofilter K.get_decomposing_entity fuel prod (f.match_prod K)

/-! ## `struct entity_filter` -/

/-- The class `IfcGeom::entity_filter`. -/
structure entity_filter extends filter where
  values : List Nat := []
deriving DecidableEq, Repr

/-- The loop of `entity_filter::populate`: the values inserted so far and, when
`FromString` threw, the name that "does not name a valid IFC entity". -/
def populate_types (S : Schema) : List Str → List Nat → List Nat × Option Str
  | [], values => (values, none)
  | type :: rest, values =>
    match S.FromString (to_upper_copy type) with
    | none => (values, some type)
    | some ty => populate_types S rest (set_insert enum_lt ty values)

/-- The method `entity_filter::populate`: the filter afterwards and, when the method
threw, the offending name. -/
def entity_filter.populate (S : Schema) (f : entity_filter) (types : List Str) :
    entity_filter × Option Str :=
  let r := populate_types S types []
  ({ f with values := r.1 }, r.2)

/-- The method `entity_filter::match`. -/
def entity_filter.match_prod (S : Schema) (f : entity_filter) (prod : IfcProduct) : Bool :=
  f.values.any (fun type => S.is_a prod.type type)

/-- The call operator of `entity_filter`. -/
def entity_filter.call (S : Schema) (K : Kernel) (f : entity_filter) (fuel : Nat)
    (prod : IfcProduct) : Option Bool :=
  filter_match f.tofilter K.get_decomposing_entity fuel prod (f.match_prod S)

/-! ## `filters.h`: the filter directives of IfcConvert -/

/-- The enumeration `geom_filter::filter_type`. -/
inductive filter_type where
  | UNUSED
  | ENTITY_TYPE
  | LAYER_NAME
  | ENTITY_ARG
deriving DecidableEq, Repr

/-- The class `geom_filter`: one filter directive of the command line or filter file. -/
structure geom_filter where
  type : filter_type := filter_type.UNUSED
  include_ : Bool := false
  traverse : Bool := false
  arg : Str := []
  values : List Str := []
deriving DecidableEq, Repr

/-- An element of the result of `setup_filters`: a `boost::ref` to one of the filter
objects the caller handed in. -/
inductive filter_ref where
  /-- Reference to the entry of `arg_filters` with this key. -/
  | arg_filter (key : Str)
  /-- Reference to `layer_filter`. -/
  | layer_filter
  /-- Reference to `entity_filter`. -/
  | entity_filter
deriving DecidableEq, Repr

/-- The filter objects that `setup_filters` receives by reference and updates. -/
structure filter_objects where
  entity_filter : entity_filter := {}
  layer_filter : layer_filter := {}
  /-- The map `arg_filter_map_t`, ascending in the key. -/
  arg_filters : List (Str × string_arg_filter) := []
deriving DecidableEq, Repr

/-- How the loop over the directives in `setup_filters` ends. -/
inductive loop_result where
  /-- A handler ran `return std::vector<IfcGeom::filter_t>()`. -/
  | failed (objects : filter_objects)
  /-- All directives were processed. -/
  | done (filter_funcs : List filter_ref) (objects : filter_objects)
deriving DecidableEq, Repr

/-- The loop `foreach(const geom_filter& f, filters)` of `setup_filters`.  `none`: an
exception that no handler of the function catches (`regex_error`) leaves it. -/
def setup_filters_loop (S : Schema) :
    List geom_filter → List filter_ref → filter_objects → Option loop_result
  | [], filter_funcs, o => some (loop_result.done filter_funcs o)
  | f :: rest, filter_funcs, o =>
    match f.type with
    | filter_type.ENTITY_TYPE =>
      let ef : entity_filter :=
        { o.entity_filter with include_ := f.include_, traverse := f.traverse }
      match ef.populate S f.values with
      | (ef2, some _) => some (loop_result.failed { o with entity_filter := ef2 })
      | (ef2, none) => setup_filters_loop S rest filter_funcs { o with entity_filter := ef2 }
    | filter_type.LAYER_NAME =>
      let lf : layer_filter :=
        { o.layer_filter with include_ := f.include_, traverse := f.traverse }
      match lf.towildcard_filter.populate f.values with
      | none => none
      | some w =>
        setup_filters_loop S rest filter_funcs
          { o with layer_filter := { lf with values := w.values } }
    | filter_type.ENTITY_ARG =>
      match string_arg_filter.create S f.arg with
      | Except.error _ => some (loop_result.failed o)
      | Except.ok arg_filter =>
        let arg_filter : string_arg_filter :=
          { arg_filter with include_ := f.include_, traverse := f.traverse }
        match arg_filter.towildcard_filter.populate f.values with
        | none => none
        | some w =>
          let arg_filter : string_arg_filter := { arg_filter with values := w.values }
          let inserted := map_insert f.arg arg_filter o.arg_filters
          if inserted.2 then
            -- new arg filter entry
            setup_filters_loop S rest (filter_funcs ++ [filter_ref.arg_filter f.arg])
              { o with arg_filters := inserted.1 }
          else
            setup_filters_loop S rest filter_funcs { o with arg_filters := inserted.1 }
    | filter_type.UNUSED => setup_filters_loop S rest filter_funcs o

/-- The function `setup_filters`: the returned vector and the filter objects as the
call leaves them.  `none`: an exception leaves the function. -/
def setup_filters (S : Schema) (filters : List geom_filter) (output_extension : Str)
    (o : filter_objects) : Option (List filter_ref × filter_objects) :=
  match setup_filters_loop S filters [] o with
  | none => none
  | some (loop_result.failed o1) => some ([], o1)
  | some (loop_result.done filter_funcs o1) =>
    -- If no entity names are specified these are the defaults to skip from output
    let r : entity_filter × Option Str :=
      if o1.entity_filter.values.isEmpty then
        let entities := set_insert str_lt "IfcSpace".toList []
        if output_extension = ".svg".toList then
          ({ o1.entity_filter with include_ := true } : entity_filter).populate S entities
        else
          o1.entity_filter.populate S (set_insert str_lt "IfcOpeningElement".toList entities)
      else (o1.entity_filter, none)
    match r with
    | (ef, some _) => some ([], { o1 with entity_filter := ef })
    | (ef, none) =>
      let o2 : filter_objects := { o1 with entity_filter := ef }
      let filter_funcs :=
        if !o2.layer_filter.values.isEmpty then filter_funcs ++ [filter_ref.layer_filter]
        else filter_funcs
      let filter_funcs :=
        if !o2.entity_filter.values.isEmpty then filter_funcs ++ [filter_ref.entity_filter]
        else filter_funcs
      some (filter_funcs, o2)

/-! ## Glob patterns, as the specification describes them -/

/-- A glob: `?` stands for exactly one arbitrary character, `*` for zero or more arbitrary
characters, every other character for itself, and the whole candidate must be used up. -/
inductive GlobMatches : Str → Str → Prop
  | nil : GlobMatches [] []
  | one {g s : Str} (c : Char) : GlobMatches g s → GlobMatches ('?' :: g) (c :: s)
  | many {g s : Str} (t : Str) : GlobMatches g s → GlobMatches ('*' :: g) (t ++ s)
  | char {g s : Str} (x : Char) : x ≠ '?' → x ≠ '*' → GlobMatches g s →
      GlobMatches (x :: g) (x :: s)

/-- The item that the text for one glob character compiles to. -/
def glob_item (c : Char) : regex_item :=
  if c = '?' then { atom := regex_atom.any_char }
  else if c = '*' then { atom := regex_atom.any_char, min := 0, max := none, quantified := true }
  else { atom := regex_atom.literal c }

/-- What `wildcard_string_to_regex` turns one character of the glob into. -/
def glob_char_regex (c : Char) : Str :=
  if c = '?' then ['.']
  else if c = '*' then ['.', '*']
  else if c ∈ special_chars then ['\\', c]
  else [c]

/-! ## Notions used to state the properties of `setup_filters` -/

/-- The directive makes `setup_filters` report a validation error: an entity directive
with a name that `FromString` does not know, or an attribute directive for which the
constructor of `string_arg_filter` throws. -/
def validation_error (S : Schema) (f : geom_filter) : Bool :=
  match f.type with
  | filter_type.ENTITY_TYPE => f.values.any (fun t => (S.FromString (to_upper_copy t)).isNone)
  | filter_type.ENTITY_ARG =>
    match string_arg_filter.create S f.arg with
    | Except.error _ => true
    | Except.ok _ => false
  | _ => false

/-- Every pattern of a layer or attribute directive compiles to a `boost::regex`. -/
def patterns_compile (f : geom_filter) : Bool :=
  match f.type with
  | filter_type.LAYER_NAME => f.values.all (fun p => (wildcard_string_to_regex p).isSome)
  | filter_type.ENTITY_ARG => f.values.all (fun p => (wildcard_string_to_regex p).isSome)
  | _ => true

/-- The qualifiers of the attribute directives, in the order of the directives. -/
def arg_directives (filters : List geom_filter) : List Str :=
  (filters.filter (fun f => f.type = filter_type.ENTITY_ARG)).map (fun f => f.arg)

/-- What the loop of `setup_filters` guarantees, by the way it ends. -/
def loop_post (S : Schema) (filters : List geom_filter) (funcs : List filter_ref)
    (o : filter_objects) : Option loop_result → Prop
  | none => ∃ f ∈ filters, patterns_compile f = false
  | some (loop_result.failed _) => ∃ f ∈ filters, validation_error S f = true
  | some (loop_result.done funcs2 o2) =>
    (∀ f ∈ filters, validation_error S f = false) ∧
    (∃ keys : List Str, funcs2 = funcs ++ keys.map filter_ref.arg_filter ∧
      keys.Sublist (arg_directives filters)) ∧
    ((∀ f ∈ filters, f.type ≠ filter_type.ENTITY_TYPE) → o2.entity_filter = o.entity_filter)

/-! ## Fixtures for the examples -/

/-- A schema with four entity types, all subtypes of `IfcRoot`, whose attributes
`GlobalId` (index 0) and `Name` (index 2) are strings. -/
def example_schema : Schema where
  FromString := fun s =>
    if s = "IFCSPACE".toList then some 1
    else if s = "IFCOPENINGELEMENT".toList then some 2
    else if s = "IFCDOOR".toList then some 3
    else if s = "IFCWINDOW".toList then some 4
    else none
  GetAttributeIndex := fun _ a =>
    if a = "GlobalId".toList then some 0
    else if a = "OwnerHistory".toList then some 1
    else if a = "Name".toList then some 2
    else none
  GetAttributeType := fun _ i =>
    if i = 0 ∨ i = 2 then some ArgumentType.Argument_STRING
    else if i = 1 then some ArgumentType.Argument_OTHER
    else none
  is_a := fun a b => a == b

/-- A kernel in which no product has a decomposing parent or a layer. -/
def example_kernel : Kernel where
  get_decomposing_entity := fun _ => none
  get_layers := fun _ => []

/-- An `IfcDoor` with `GlobalId` "1ABCXYZ" and no name. -/
def example_door : IfcProduct :=
  { id := 1, type := 3,
    arguments := [Argument.string "1ABCXYZ".toList, Argument.other, Argument.null] }

/-- An `IfcWindow` with `GlobalId` "1ABCXYZ" and name "W1". -/
def example_window : IfcProduct :=
  { id := 2, type := 4,
    arguments := [Argument.string "1ABCXYZ".toList, Argument.other, Argument.string "W1".toList] }

/-- The directive `--exclude=arg IfcDoor.GlobalId 1ABC*`. -/
def exclude_door_globalid : geom_filter :=
  { type := filter_type.ENTITY_ARG, include_ := false, traverse := false,
    arg := "IfcDoor.GlobalId".toList, values := ["1ABC*".toList] }

/-- The directive `--include=arg Name *`. -/
def include_any_name : geom_filter :=
  { type := filter_type.ENTITY_ARG, include_ := true, traverse := false,
    arg := "Name".toList, values := ["*".toList] }

/-- The attribute filter that `setup_filters` builds for a single directive. -/
def built_arg_filter (S : Schema) (f : geom_filter) : Option string_arg_filter :=
  match setup_filters S [f] ".obj".toList {} with
  | none => none
  | some r => map_find f.arg r.2.arg_filters

/-- A chain of products numbered from the root: the parent of `n + 1` is `n`. -/
def chainParent : Nat → Option Nat
  | 0 => none
  | n + 1 => some n

/-- The directive `--include=arg a.b.c x`, whose qualifier has three components. -/
def bad_qualifier_directive : geom_filter :=
  { type := filter_type.ENTITY_ARG, include_ := true, traverse := false,
    arg := "a.b.c".toList, values := ["x".toList] }

/-- The directive `--include=layers L*`. -/
def include_layers : geom_filter :=
  { type := filter_type.LAYER_NAME, include_ := true, traverse := false,
    values := ["L*".toList] }

/-- The directive `--include=layers a{2,1}`, whose pattern is not a valid expression. -/
def bad_pattern_directive : geom_filter :=
  { type := filter_type.LAYER_NAME, include_ := true, traverse := false,
    values := ["a\x7b2,1\x7d".toList] }

/-- What `setup_filters` returns for a layer directive followed by an attribute
directive, for the output extension ".obj" and fresh filter objects. -/
def example_setup : List filter_ref × filter_objects :=
  (setup_filters example_schema [include_layers, include_any_name] ".obj".toList {}).getD
    ([], {})

/-! ## `filters.h`: parsing of filter directives -/

/-- The call `s.insert(first, last)` on a `std::set<std::string>`: every element of the
range is inserted. -/
def set_insert_range (range : List Str) (s : List Str) : List Str :=
  range.foldl (fun acc x => set_insert str_lt x acc) s

/-- The ways in which `parse_filter` ends without a directive. -/
inductive parse_failure where
  /-- The exception `po::validation_error(at_least_one_value_required)`. -/
  | at_least_one_value_required
  /-- The exception `po::validation_error(invalid_option_value)`. -/
  | invalid_option_value
  /-- No exception: the iterator `values.begin() + 1` is dereferenced although it is the
  end of the vector, which is undefined behaviour. -/
  | past_the_end
deriving DecidableEq, Repr

/-- Equality of results of type `Except` is decidable. -/
instance except_decidable_eq {ε α : Type} [DecidableEq ε] [DecidableEq α] :
    DecidableEq (Except ε α)
  | Except.ok a, Except.ok b =>
    if h : a = b then isTrue (by rw [h]) else isFalse (fun e => h (Except.ok.inj e))
  | Except.error a, Except.error b =>
    if h : a = b then isTrue (by rw [h]) else isFalse (fun e => h (Except.error.inj e))
  | Except.ok _, Except.error _ => isFalse (fun e => Except.noConfusion e)
  | Except.error _, Except.ok _ => isFalse (fun e => Except.noConfusion e)

/-- The function `parse_filter(filter, values)`; the result is the directive `filter` as
the call leaves it. -/
def parse_filter (filter : geom_filter) (values : List Str) :
    Except parse_failure geom_filter :=
  if values.length = 0 then
    Except.error parse_failure.at_least_one_value_required
  else
    let type := values.headD []
    if type = "entities".toList then
      let filter := { filter with type := filter_type.ENTITY_TYPE }
      Except.ok { filter with values := set_insert_range (values.drop 1) filter.values }
    else if type = "layers".toList then
      let filter := { filter with type := filter_type.LAYER_NAME }
      Except.ok { filter with values := set_insert_range (values.drop 1) filter.values }
    else if type = "arg".toList then
      let filter := { filter with type := filter_type.ENTITY_ARG }
      match values.get? 1 with
      | none => Except.error parse_failure.past_the_end
      | some arg =>
        let filter := { filter with arg := arg }
        Except.ok { filter with values := set_insert_range (values.drop 2) filter.values }
    else
      Except.error parse_failure.invalid_option_value

/-- The function `append_filter(type, values, filter)`: whether the directive was
merged, and the accumulator `filter` as the call leaves it.  The parameter `type` only
feeds the error message. -/
def append_filter (_type : Str) (values : List Str) (filter : geom_filter) :
    Except parse_failure (Bool × geom_filter) :=
  match parse_filter {} values with
  | Except.error e => Except.error e
  | Except.ok temp =>
    -- Merge values only if type and arg match.
    if (filter.type ≠ filter_type.UNUSED ∧ filter.type ≠ temp.type) ∨
        (¬ filter.arg.isEmpty ∧ filter.arg ≠ temp.arg) then
      Except.ok (false, filter)
    else
      Except.ok (true,
        { filter with
          type := temp.type,
          values := set_insert_range temp.values filter.values,
          arg := temp.arg })

/-- The four accumulators that `read_filters_from_file` receives by reference, with
the flags that the constructors of their classes set. -/
structure filter_accumulators where
  include_filter : geom_filter := { include_ := true, traverse := false }
  include_traverse_filter : geom_filter := { include_ := true, traverse := true }
  exclude_filter : geom_filter := { include_ := false, traverse := false }
  exclude_traverse_filter : geom_filter := { include_ := false, traverse := true }
deriving DecidableEq, Repr

/-- The classification `std::isspace` in the classic locale, used by `boost::trim`. -/
def is_space (c : Char) : Bool :=
  c = ' ' || (9 ≤ c.toNat && c.toNat ≤ 13)

/-- The call `boost::trim(s)`. -/
def trim (s : Str) : Str :=
  ((s.dropWhile is_space).reverse.dropWhile is_space).reverse

/-- The predicate `boost::is_any_of("\t ")`. -/
def is_tab_or_blank (c : Char) : Bool :=
  c = '\t' || c = ' '

/-- The start of the loop body of `read_filters_from_file`: the line is trimmed and
split at blanks and tabs, the first token loses its leading dashes and is cut at its
first `=`.  The result is the filtering type and the value tokens; `none` for a line
that is skipped. -/
def split_line (line : Str) : Option (Str × List Str) :=
  let line := trim line
  if line.isEmpty then none
  else
    let values := split_compress is_tab_or_blank line
    if values.isEmpty then none
    else
      let type := values.headD []
      let values := values.drop 1
      -- Support both "--include=arg GlobalId ..." and "include arg GlobalId ..."
      -- and tolerate extraneous whitespace.
      let type := type.dropWhile (fun c => c = '-')
      let equal_pos := type.indexOf '='
      if equal_pos < type.length then
        let value := type.drop (equal_pos + 1)
        some (type.take equal_pos, value :: values)
      else
        some (type, values)

/-- The accumulators, named after their classes. -/
inductive accumulator_id where
  | inclusion
  | inclusion_traverse
  | exclusion
  | exclusion_traverse
deriving DecidableEq, Repr

/-- The accumulator that the chain of comparisons of the filtering type selects;
`none` is the final `else` ("Invalid filtering type"). -/
def select_accumulator (type : Str) : Option accumulator_id :=
  if type = "include".toList then some accumulator_id.inclusion
  else if type = "include+".toList then some accumulator_id.inclusion_traverse
  else if type = "exclude".toList then some accumulator_id.exclusion
  else if type = "exclude+".toList then some accumulator_id.exclusion_traverse
  else none

/-- Reads an accumulator. -/
def filter_accumulators.get (acc : filter_accumulators) : accumulator_id → geom_filter
  | accumulator_id.inclusion => acc.include_filter
  | accumulator_id.inclusion_traverse => acc.include_traverse_filter
  | accumulator_id.exclusion => acc.exclude_filter
  | accumulator_id.exclusion_traverse => acc.exclude_traverse_filter

/-- Writes an accumulator. -/
def filter_accumulators.set (acc : filter_accumulators) (i : accumulator_id)
    (f : geom_filter) : filter_accumulators :=
  match i with
  | accumulator_id.inclusion => { acc with include_filter := f }
  | accumulator_id.inclusion_traverse => { acc with include_traverse_filter := f }
  | accumulator_id.exclusion => { acc with exclude_filter := f }
  | accumulator_id.exclusion_traverse => { acc with exclude_traverse_filter := f }

/-- How the body of the loop of `read_filters_from_file` ends for one line. -/
inductive line_result where
  /-- The loop goes on with this count and these accumulators. -/
  | next (num_filters : Nat) (acc : filter_accumulators)
  /-- The function returns 0 ("Invalid filtering type" or "Unable to parse filter"). -/
  | return_zero
  /-- The line makes `parse_filter` read past the end of its vector. -/
  | undefined
deriving DecidableEq, Repr

/-- The body of the loop of `read_filters_from_file` for one line. -/
def read_line (line : Str) (num_filters : Nat) (acc : filter_accumulators) : line_result :=
  match split_line line with
  | none => line_result.next num_filters acc
  | some (type, values) =>
    match select_accumulator type with
    | none => line_result.return_zero
    | some i =>
      match append_filter type values (acc.get i) with
      | Except.error parse_failure.past_the_end => line_result.undefined
      | Except.error _ => line_result.return_zero
      | Except.ok (true, f) => line_result.next (num_filters + 1) (acc.set i f)
      | Except.ok (false, f) => line_result.next num_filters (acc.set i f)

/-- The loop of `read_filters_from_file` over the lines of the file: the returned
count and the accumulators as the call leaves them.  `none`: undefined behaviour. -/
def read_lines : List Str → Nat → filter_accumulators → Option (Nat × filter_accumulators)
  | [], num_filters, acc => some (num_filters, acc)
  | line :: rest, num_filters, acc =>
    match read_line line num_filters acc with
    | line_result.next n acc2 => read_lines rest n acc2
    | line_result.return_zero => some (0, acc)
    | line_result.undefined => none

/-- The function `read_filters_from_file`.  The file is given by its lines, as
`std::getline` delivers them; `none` stands for a file that cannot be opened. -/
def read_filters_from_file (file : Option (List Str)) (acc : filter_accumulators) :
    Option (Nat × filter_accumulators) :=
  match file with
  | none => some (0, acc)
  | some lines => read_lines lines 0 acc

/-! ## Notions used to state the properties of the directive parser -/

/-- The directive of the line is parsed, and its merge into the accumulator selected by
its keyword is rejected ("Multiple filters specified with different criteria"). -/
def merge_rejected (line : Str) (acc : filter_accumulators) : Bool :=
  match split_line line with
  | none => false
  | some (type, values) =>
    match select_accumulator type with
    | none => false
    | some i =>
      match append_filter type values (acc.get i) with
      | Except.ok (false, _) => true
      | _ => false

/-- The directive of the line is parsed and merged into the accumulator selected by its
keyword. -/
def merge_succeeds (line : Str) (acc : filter_accumulators) : Bool :=
  match split_line line with
  | none => false
  | some (type, values) =>
    match select_accumulator type with
    | none => false
    | some i =>
      match append_filter type values (acc.get i) with
      | Except.ok (true, _) => true
      | _ => false

/-- The line is skipped, or it has one of the four keywords and `parse_filter` accepts
its value tokens. -/
def line_valid (line : Str) : Bool :=
  match split_line line with
  | none => true
  | some (type, values) =>
    (select_accumulator type).isSome &&
      (match parse_filter {} values with
        | Except.ok _ => true
        | Except.error _ => false)

/-- The line is not skipped, and either its keyword is none of the four or
`parse_filter` throws on its value tokens. -/
def line_fails (line : Str) : Bool :=
  match split_line line with
  | none => false
  | some (type, values) =>
    (select_accumulator type).isNone ||
      (match parse_filter {} values with
        | Except.error parse_failure.at_least_one_value_required => true
        | Except.error parse_failure.invalid_option_value => true
        | _ => false)

/-- The accumulators after the line, when the loop goes on. -/
def accumulators_after (line : Str) (acc : filter_accumulators) : filter_accumulators :=
  match read_line line 0 acc with
  | line_result.next _ acc2 => acc2
  | _ => acc

/-- The number of lines whose merge succeeds, each line meeting the accumulators that
the lines before it have left. -/
def merged_lines : List Str → filter_accumulators → Nat
  | [], _ => 0
  | line :: rest, acc =>
    (if merge_succeeds line acc then 1 else 0) + merged_lines rest (accumulators_after line acc)

/-- A token of a line: not empty and free of white space. -/
def is_token (t : Str) : Bool :=
  !t.isEmpty && t.all (fun c => !is_space c)

/-- A run of blanks and tabs, possibly empty. -/
def is_padding (s : Str) : Bool :=
  s.all is_tab_or_blank

/-- A separator between two tokens: a non-empty run of blanks and tabs. -/
def is_separator (s : Str) : Bool :=
  !s.isEmpty && s.all is_tab_or_blank

/-- The text of a line: a first token and further tokens, each after its separator. -/
def join_tokens (first : Str) (rest : List (Str × Str)) : Str :=
  first ++ rest.flatMap (fun p => p.1 ++ p.2)

/-- A text that starts and ends with a character that is not white space. -/
def solid (s : Str) : Prop :=
  (∃ c r, s = c :: r ∧ is_space c = false) ∧ (∃ d r, s.reverse = d :: r ∧ is_space d = false)

/-- The line `--k=v1 v2 ... vn`, with padding around it. -/
def flag_line (lead k v1 : Str) (tail : List (Str × Str)) (trail : Str) : Str :=
  lead ++ join_tokens ("--".toList ++ k ++ "=".toList ++ v1) tail ++ trail

/-- The line `k v1 v2 ... vn`, with padding around it. -/
def bare_line (lead k sep v1 : Str) (tail : List (Str × Str)) (trail : Str) : Str :=
  lead ++ join_tokens k ((sep, v1) :: tail) ++ trail

/-- The accumulators after the line `include layers North*`. -/
def north_accumulators : filter_accumulators :=
  { include_filter :=
      { type := filter_type.LAYER_NAME, include_ := true, traverse := false,
        values := ["North*".toList] } }

/-- A filter file: three directives and a fourth line with an unknown keyword. -/
def example_file : List Str :=
  ["include layers North*".toList, "--include=layers South*".toList,
    "exclude+ arg Name A*".toList, "bogus x".toList]

/-- The directive `--include=arg IfcDoor.Name D*`. -/
def include_door_name : geom_filter :=
  { type := filter_type.ENTITY_ARG, include_ := true, traverse := false,
    arg := "IfcDoor.Name".toList, values := ["D*".toList] }

/-- The directive `--exclude=arg IfcWindow.Name W*`. -/
def exclude_window_name : geom_filter :=
  { type := filter_type.ENTITY_ARG, include_ := false, traverse := false,
    arg := "IfcWindow.Name".toList, values := ["W*".toList] }

/-- What `setup_filters` returns for two attribute directives with different qualifiers,
for the output extension ".obj" and fresh filter objects. -/
def two_qualifiers_setup : List filter_ref × filter_objects :=
  (setup_filters example_schema [include_door_name, exclude_window_name] ".obj".toList
    {}).getD ([], {})

/-- What the first run of `setup_filters` returns for the single directive
`--exclude=arg IfcDoor.GlobalId 1ABC*`, the output extension ".obj" and fresh filter
objects. -/
def first_run : List filter_ref × filter_objects :=
  (setup_filters example_schema [exclude_door_globalid] ".obj".toList {}).getD ([], {})

/-- What the second run returns, on the filter objects as the first run left them. -/
def second_run : List filter_ref × filter_objects :=
  (setup_filters example_schema [exclude_door_globalid] ".obj".toList first_run.2).getD
    ([], {})

/-! ## Notions used to state the properties of the attribute filters -/

/-- The well-formedness of a `std::map`: the keys are strictly ascending. -/
def map_sorted {β : Type} (m : List (Str × β)) : Prop :=
  (m.map Prod.fst).Sorted (· < ·)

/-- The attribute filter that the loop of `setup_filters` builds for an attribute
directive before it offers it to the map: constructed from the qualifier, given the
flags of the directive and populated with its patterns. -/
def make_arg_filter (S : Schema) (f : geom_filter) : Option string_arg_filter :=
  match string_arg_filter.create S f.arg with
  | Except.error _ => none
  | Except.ok arg_filter =>
    match populate_values f.values [] with
    | none => none
    | some vs =>
      some { arg_filter with include_ := f.include_, traverse := f.traverse, values := vs }

/-- The first attribute directive with the given qualifier. -/
def first_arg_directive (q : Str) (filters : List geom_filter) : Option geom_filter :=
  filters.find? (fun f => f.type = filter_type.ENTITY_ARG && f.arg = q)

/-- The key of a reference to an attribute filter. -/
def filter_ref.key : filter_ref → Option Str
  | filter_ref.arg_filter key => some key
  | _ => none

/-- The qualifiers of the attribute filters that a list of references holds. -/
def attribute_keys (refs : List filter_ref) : List Str :=
  refs.filterMap filter_ref.key

/-- What an entity directive does to the entity filter in the loop of `setup_filters`;
other directives leave it alone. -/
def entity_step (S : Schema) (e : entity_filter) (f : geom_filter) : entity_filter :=
  if f.type = filter_type.ENTITY_TYPE then
    (entity_filter.populate S { e with include_ := f.include_, traverse := f.traverse }
      f.values).1
  else e

/-- What a layer directive whose patterns compile does to the layer filter in the loop
of `setup_filters`; other directives leave it alone. -/
def layer_step (l : layer_filter) (f : geom_filter) : layer_filter :=
  if f.type = filter_type.LAYER_NAME then
    match populate_values f.values [] with
    | some vs => { l with include_ := f.include_, traverse := f.traverse, values := vs }
    | none => l
  else l

/-- The block of `setup_filters` that injects the default entity names: the entity
filter afterwards and, when `populate` threw, the offending name. -/
def default_entity_filter (S : Schema) (output_extension : Str) (e : entity_filter) :
    entity_filter × Option Str :=
  if e.values.isEmpty then
    let entities := set_insert str_lt "IfcSpace".toList []
    if output_extension = ".svg".toList then
      ({ e with include_ := true } : entity_filter).populate S entities
    else
      e.populate S (set_insert str_lt "IfcOpeningElement".toList entities)
  else (e, none)

/-- The references that `setup_filters` appends after its loop. -/
def final_refs (o : filter_objects) : List filter_ref :=
  (if o.layer_filter.values.isEmpty then [] else [filter_ref.layer_filter]) ++
    (if o.entity_filter.values.isEmpty then [] else [filter_ref.entity_filter])

/-- The map entry that the loop of `setup_filters` leaves for a qualifier: the entry that
was there before, else the filter built from the first directive with that qualifier. -/
def entry_after (S : Schema) (filters : List geom_filter) (m : List (Str × string_arg_filter))
    (q : Str) : Option string_arg_filter :=
  match map_find q m with
  | some v => some v
  | none => (first_arg_directive q filters).bind (make_arg_filter S)

/-- The entity filter after the loop of `setup_filters` over the directives. -/
def entity_fold (S : Schema) (filters : List geom_filter) (e : entity_filter) :
    entity_filter :=
  filters.foldl (entity_step S) e

/-- The layer filter after the loop of `setup_filters` over the directives. -/
def layer_fold (filters : List geom_filter) (l : layer_filter) : layer_filter :=
  filters.foldl layer_step l

/-- The loop of `setup_filters` passes the directive: no validation error and no
pattern that fails to compile. -/
def directive_ok (S : Schema) (f : geom_filter) : Bool :=
  match f.type with
  | filter_type.ENTITY_TYPE => !f.values.any (fun t => (S.FromString (to_upper_copy t)).isNone)
  | filter_type.LAYER_NAME => (populate_values f.values []).isSome
  | filter_type.ENTITY_ARG => (make_arg_filter S f).isSome
  | filter_type.UNUSED => true

/-- The call of a predicate of the returned vector: the reference is resolved in the
filter objects it points into.  `none`: the traversal ran out of fuel, or the reference
dangles. -/
def filter_ref.call (S : Schema) (K : Kernel) (o : filter_objects) (fuel : Nat)
    (prod : IfcProduct) : filter_ref → Option Bool
  | filter_ref.arg_filter key =>
    match map_find key o.arg_filters with
    | some f => f.call S K fuel prod
    | none => none
  | filter_ref.layer_filter => o.layer_filter.call K fuel prod
  | filter_ref.entity_filter => o.entity_filter.call S K fuel prod

/-- Modelled from the spec: "downstream callers combine them with logical AND: an entity
is accepted by the filter set iff every predicate in the list accepts it". -/
def accepted_by (S : Schema) (K : Kernel) (o : filter_objects) (fuel : Nat)
    (prod : IfcProduct) : List filter_ref → Option Bool
  | [] => some true
  | r :: rest =>
    match r.call S K o fuel prod, accepted_by S K o fuel prod rest with
    | some a, some b => some (a && b)
    | _, _ => none
/-! ## Fixtures for the default entity filter and for repeated qualifiers -/

/-- An `IfcSpace`. -/
def example_space : IfcProduct :=
  { id := 3, type := 1,
    arguments := [Argument.string "2SPACE".toList, Argument.other, Argument.null] }

/-- The directive that `--include=entities`, without a type name, is parsed to: an entity
directive with `include` set and an empty set of names. -/
def include_no_entities : geom_filter :=
  { type := filter_type.ENTITY_TYPE, include_ := true, traverse := false, values := [] }

/-- What `setup_filters` returns for the directive `include_no_entities`, the output
extension ".obj" and fresh filter objects. -/
def no_entities_setup : List filter_ref × filter_objects :=
  (setup_filters example_schema [include_no_entities] ".obj".toList {}).getD ([], {})

/-- The directive `--include=arg Name A*`. -/
def include_name_a : geom_filter :=
  { type := filter_type.ENTITY_ARG, include_ := true, traverse := false,
    arg := "Name".toList, values := ["A*".toList] }

/-- The directive `--exclude+=arg Name B*`. -/
def exclude_name_b : geom_filter :=
  { type := filter_type.ENTITY_ARG, include_ := false, traverse := true,
    arg := "Name".toList, values := ["B*".toList] }

/-- What `setup_filters` returns for the directives `include_name_a` and
`exclude_name_b`, which carry the same qualifier, for the output extension ".obj" and
fresh filter objects. -/
def same_qualifier_setup : List filter_ref × filter_objects :=
  (setup_filters example_schema [include_name_a, exclude_name_b] ".obj".toList {}).getD
    ([], {})

/-- The loop of `setup_filters` goes on with further directives, unless it has already
left the function. -/
def loop_continue (S : Schema) (more : List geom_filter) :
    Option loop_result → Option loop_result
  | some (loop_result.done funcs o) => setup_filters_loop S more funcs o
  | some (loop_result.failed o) => some (loop_result.failed o)
  | none => none

/-! ## Theorems -/

theorem Ancestor_of_parent_none {P : Type} {parent : P → Option P} {e a : P}
    (h : parent e = none) : ¬ Ancestor parent e a := by
  intro ha
  cases ha with
  | direct h1 => rw [h] at h1; cases h1
  | step h1 _ => rw [h] at h1; cases h1

theorem Ancestor_cases {P : Type} {parent : P → Option P} {e p a : P}
    (h : parent e = some p) : Ancestor parent e a ↔ (a = p ∨ Ancestor parent p a) := by
  constructor
  · intro ha
    cases ha with
    | direct h1 => rw [h] at h1; left; exact (Option.some.inj h1).symm
    | step h1 h2 =>
      rw [h] at h1
      cases Option.some.inj h1
      right; exact h2
  · rintro (rfl | h2)
    · exact Ancestor.direct h
    · exact Ancestor.step h h2

theorem traverse_match_of_chain {P : Type} (parent : P → Option P) (pred : P → Bool) :
    ∀ (n : Nat) (e : P), ChainEnds parent n e → ∀ fuel, n < fuel →
      ∃ r, traverse_match parent pred fuel e = some r ∧
        (r = true ↔ ∃ a, Ancestor parent e a ∧ pred a = true) := by
  intro n
  induction n with
  | zero =>
    intro e hc fuel hf
    obtain ⟨k, rfl⟩ : ∃ k, fuel = k + 1 := ⟨fuel - 1, by omega⟩
    have hc0 : parent e = none := hc
    refine ⟨false, ?_, ?_⟩
    · simp [traverse_match, hc0]
    · constructor
      · intro h; cases h
      · rintro ⟨a, ha, _⟩
        exact absurd ha (Ancestor_of_parent_none hc0)
  | succ n ih =>
    intro e hc fuel hf
    obtain ⟨k, rfl⟩ : ∃ k, fuel = k + 1 := ⟨fuel - 1, by omega⟩
    obtain ⟨p, hp, hcp⟩ := hc
    by_cases hpp : pred p = true
    · refine ⟨true, ?_, ?_⟩
      · simp [traverse_match, hp, hpp]
      · simp only [true_iff]
        exact ⟨p, Ancestor.direct hp, hpp⟩
    · obtain ⟨r, hr, hiff⟩ := ih p hcp k (by omega)
      refine ⟨r, ?_, ?_⟩
      · simp [traverse_match, hp, hpp, hr]
      · rw [hiff]
        constructor
        · rintro ⟨a, ha, hpa⟩
          exact ⟨a, Ancestor.step hp ha, hpa⟩
        · rintro ⟨a, ha, hpa⟩
          rcases (Ancestor_cases hp).1 ha with rfl | h2
          · exact absurd hpa hpp
          · exact ⟨a, h2, hpa⟩

/-- Claim C1: for a filter with `traverse = true` and an entity `e` whose decomposition
chain is finite (`n` ancestors), `filter::match` run with enough fuel returns, and the
result is true exactly when `include` equals "`pred` holds for `e` or for some ancestor
of `e`"; in particular, with `include = false` the entity is accepted exactly when
neither it nor any ancestor satisfies `pred`. -/
theorem filter_match_traverse {P : Type} (f : filter) (parent : P → Option P)
    (pred : P → Bool) (e : P) (n fuel : Nat)
    (htrav : f.traverse = true) (hfin : ChainEnds parent n e) (hfuel : n < fuel) :
    ∃ r, filter_match f parent fuel e pred = some r ∧
      (r = true ↔ (f.include_ = true ↔
        (pred e = true ∨ ∃ a, Ancestor parent e a ∧ pred a = true))) ∧
      (f.include_ = false →
        (r = true ↔ (pred e = false ∧ ∀ a, Ancestor parent e a → pred a = false))) := by
  obtain ⟨m, hm, hiff⟩ := traverse_match_of_chain parent pred n e hfin fuel hfuel
  have key : ∃ r, filter_match f parent fuel e pred = some r ∧
      (r = true ↔ (f.include_ = true ↔
        (pred e = true ∨ ∃ a, Ancestor parent e a ∧ pred a = true))) := by
    by_cases hpe : pred e = true
    · refine ⟨f.include_, ?_, ?_⟩
      · simp [filter_match, hpe]
      · simp [hpe]
    · refine ⟨m == f.include_, ?_, ?_⟩
      · simp [filter_match, hpe, htrav, hm]
      · rw [← hiff]
        simp only [hpe, false_or]
        cases m <;> cases f.include_ <;> simp
  obtain ⟨r, hr, hr2⟩ := key
  refine ⟨r, hr, hr2, ?_⟩
  intro hinc
  rw [hr2, hinc]
  simp only [Bool.false_eq_true, false_iff, not_or, not_exists, not_and, Bool.not_eq_true]

/-- Witness of `filter_match_traverse`: an excluding, traversing filter on the third
product of a chain, whose root satisfies the predicate. -/
theorem filter_match_traverse_witness :
    (ChainEnds chainParent 2 2 ∧ 2 < 3) ∧
    ∃ r, filter_match { include_ := false, traverse := true } chainParent 3 2
        (fun k => k == 0) = some r ∧
      (r = true ↔ ((false = true) ↔
        ((2 == 0) = true ∨ ∃ a, Ancestor chainParent 2 a ∧ (a == 0) = true))) ∧
      ((false = false) →
        (r = true ↔
          ((2 == 0) = false ∧ ∀ a, Ancestor chainParent 2 a → (a == 0) = false))) :=
  ⟨⟨⟨1, rfl, 0, rfl, rfl⟩, by decide⟩,
    filter_match_traverse { include_ := false, traverse := true } chainParent
      (fun k => k == 0) 2 2 3 rfl ⟨1, rfl, 0, rfl, rfl⟩ (by decide)⟩

/-- Claim C2: for a filter with `traverse = false`, `filter::match` returns
`pred e == include` for every amount of fuel, whatever the parent relation is and
whatever `pred` says about other products; with `include = true` the entity is accepted
exactly when `pred e` holds. -/
theorem filter_match_no_traverse {P : Type} (f : filter) (parent : P → Option P)
    (pred : P → Bool) (e : P) (fuel : Nat) (htrav : f.traverse = false) :
    filter_match f parent fuel e pred = some (pred e == f.include_) ∧
    (∀ (parent2 : P → Option P) (pred2 : P → Bool) (fuel2 : Nat), pred2 e = pred e →
      filter_match f parent2 fuel2 e pred2 = filter_match f parent fuel e pred) ∧
    (f.include_ = true → (filter_match f parent fuel e pred = some true ↔ pred e = true)) := by
  have h1 : ∀ (par : P → Option P) (q : P → Bool) (k : Nat),
      filter_match f par k e q = some (q e == f.include_) := by
    intro par q k
    simp [filter_match, htrav]
  refine ⟨h1 _ _ _, ?_, ?_⟩
  · intro parent2 pred2 fuel2 h
    rw [h1, h1, h]
  · intro hinc
    rw [h1, hinc]
    cases pred e <;> simp

/-- Witness of `filter_match_no_traverse`: an including filter without traversal on a
product whose parent satisfies the predicate while the product does not. -/
theorem filter_match_no_traverse_witness :
    (({ include_ := true, traverse := false } : filter).traverse = false) ∧
    filter_match { include_ := true, traverse := false } chainParent 0 1 (fun k => k == 0)
      = some ((1 == 0) == true) ∧
    (∀ (parent2 : Nat → Option Nat) (pred2 : Nat → Bool) (fuel2 : Nat),
      pred2 1 = ((fun k => k == 0) 1 : Bool) →
      filter_match { include_ := true, traverse := false } parent2 fuel2 1 pred2 =
        filter_match { include_ := true, traverse := false } chainParent 0 1
          (fun k => k == 0)) ∧
    (({ include_ := true, traverse := false } : filter).include_ = true →
      (filter_match { include_ := true, traverse := false } chainParent 0 1 (fun k => k == 0)
        = some true ↔ ((fun k => k == 0) 1 : Bool) = true)) :=
  ⟨rfl, filter_match_no_traverse { include_ := true, traverse := false } chainParent
    (fun k => k == 0) 1 0 rfl⟩

theorem replace_all_aux_single (x : Char) (fmt : Str) (s : Str) :
    replace_all_aux [x] fmt 0 s = s.flatMap (fun c => if c = x then fmt else [c]) := by
  induction s with
  | nil => simp [replace_all_aux]
  | cons c cs ih =>
    by_cases h : c = x
    · subst h
      simp [replace_all_aux, List.isPrefixOf, ih]
    · have h2 : ¬ x = c := fun e => h e.symm
      simp [replace_all_aux, List.isPrefixOf, ih, h, h2]

theorem replace_all_single (x : Char) (fmt : Str) (s : Str) :
    replace_all s [x] fmt = s.flatMap (fun c => if c = x then fmt else [c]) :=
  replace_all_aux_single x fmt s

theorem replace_all_flatMap {α : Type} (l : List α) (F : α → Str) (x : Char) (fmt : Str) :
    replace_all (l.flatMap F) [x] fmt = l.flatMap (fun c => replace_all (F c) [x] fmt) := by
  simp only [replace_all_single, List.flatMap_assoc]

theorem replace_all_singleton_ne (c x : Char) (fmt : Str) (h : c ≠ x) :
    replace_all [c] [x] fmt = [c] := by
  simp [replace_all_single, h]

theorem special_chars_eq :
    special_chars = ['\\', '^', '.', '$', '|', '(', ')', '[', ']', '+', '/'] := by decide

/-- The three rewriting steps of `wildcard_string_to_regex`, on a one-character string. -/
theorem glob_char_pipeline (c : Char) :
    replace_all (replace_all
      (['\\', '^', '.', '$', '|', '(', ')', '[', ']', '+', '/'].foldl
        (fun s c => replace_all s [c] ('\\' :: [c])) [c]) ['?'] ['.']) ['*'] ['.', '*']
      = glob_char_regex c := by
  by_cases h1 : c = '\\'
  · subst h1; decide
  by_cases h2 : c = '^'
  · subst h2; decide
  by_cases h3 : c = '.'
  · subst h3; decide
  by_cases h4 : c = '$'
  · subst h4; decide
  by_cases h5 : c = '|'
  · subst h5; decide
  by_cases h6 : c = '('
  · subst h6; decide
  by_cases h7 : c = ')'
  · subst h7; decide
  by_cases h8 : c = '['
  · subst h8; decide
  by_cases h9 : c = ']'
  · subst h9; decide
  by_cases h10 : c = '+'
  · subst h10; decide
  by_cases h11 : c = '/'
  · subst h11; decide
  by_cases h12 : c = '?'
  · subst h12; decide
  by_cases h13 : c = '*'
  · subst h13; decide
  simp only [List.foldl]
  rw [replace_all_singleton_ne c _ _ h1, replace_all_singleton_ne c _ _ h2,
    replace_all_singleton_ne c _ _ h3, replace_all_singleton_ne c _ _ h4,
    replace_all_singleton_ne c _ _ h5, replace_all_singleton_ne c _ _ h6,
    replace_all_singleton_ne c _ _ h7, replace_all_singleton_ne c _ _ h8,
    replace_all_singleton_ne c _ _ h9, replace_all_singleton_ne c _ _ h10,
    replace_all_singleton_ne c _ _ h11, replace_all_singleton_ne c _ _ h12,
    replace_all_singleton_ne c _ _ h13]
  simp [glob_char_regex, special_chars_eq, h1, h2, h3, h4, h5, h6, h7, h8, h9, h10, h11, h12, h13]

theorem wildcard_string_to_regex_eq (g : Str) :
    wildcard_string_to_regex g = regex.compile (g.flatMap glob_char_regex) := by
  have hg : g = g.flatMap (fun c => [c]) := by simp
  have hstr : replace_all (replace_all
      (special_chars.foldl (fun s c => replace_all s [c] ('\\' :: [c])) g) ['?'] ['.'])
      ['*'] ['.', '*'] = g.flatMap glob_char_regex := by
    rw [special_chars_eq]
    conv_lhs => rw [hg]
    simp only [List.foldl, replace_all_flatMap]
    congr 1
    funext c
    have := glob_char_pipeline c
    simp only [List.foldl] at this
    exact this
  unfold wildcard_string_to_regex
  simp only [hstr]

theorem regex_steps_append (st : parse_state) (a b : Str) :
    regex_steps st (a ++ b) = (regex_steps st a).bind (fun st2 => regex_steps st2 b) := by
  induction a generalizing st with
  | nil => simp [regex_steps]
  | cons c cs ih =>
    simp only [List.cons_append, regex_steps]
    cases h : regex_step st c with
    | none => simp
    | some st2 => simp [ih]

theorem regex_steps_glob_char (acc : List regex_item) (c : Char)
    (hc : c = '*' ∨ c = '?' ∨ c ∉ regex_syntax_chars) :
    regex_steps { items := acc } (glob_char_regex c) = some { items := glob_item c :: acc } := by
  by_cases h12 : c = '?'
  · subst h12; simp [glob_char_regex, glob_item, regex_steps, regex_step, normal_step]
  by_cases h13 : c = '*'
  · subst h13
    simp [glob_char_regex, glob_item, regex_steps, regex_step, normal_step, apply_repeat]
  have hs : c ∉ regex_syntax_chars := by
    rcases hc with h | h | h
    · exact absurd h h13
    · exact absurd h h12
    · exact h
  have hs2 := hs
  simp only [regex_syntax_chars, String.toList, List.mem_cons, List.mem_singleton, not_or,
    List.not_mem_nil, or_false] at hs2
  obtain ⟨a1, a2, a3, a4, a5, a6, a7, a8, a9, a10, a11, a12, a13⟩ := hs2
  by_cases h9 : c = ']'
  · subst h9
    simp [glob_char_regex, glob_item, regex_steps, regex_step, normal_step, special_chars_eq,
      push_literals]
  by_cases h11 : c = '/'
  · subst h11
    simp [glob_char_regex, glob_item, regex_steps, regex_step, normal_step, special_chars_eq,
      push_literals]
  simp [glob_char_regex, glob_item, regex_steps, regex_step, normal_step, special_chars_eq,
      push_literals, *]

theorem regex_steps_glob (g : Str)
    (hg : ∀ c ∈ g, c = '*' ∨ c = '?' ∨ c ∉ regex_syntax_chars) :
    ∀ acc : List regex_item, regex_steps { items := acc } (g.flatMap glob_char_regex) =
      some { items := (g.map glob_item).reverse ++ acc } := by
  induction g with
  | nil => intro acc; simp [regex_steps]
  | cons c cs ih =>
    intro acc
    have hc := hg c (List.mem_cons_self _ _)
    have hcs : ∀ d ∈ cs, d = '*' ∨ d = '?' ∨ d ∉ regex_syntax_chars :=
      fun d hd => hg d (List.mem_cons_of_mem _ hd)
    rw [List.flatMap_cons, regex_steps_append, regex_steps_glob_char acc c hc]
    simp [ih hcs]

theorem compile_glob (g : Str)
    (hg : ∀ c ∈ g, c = '*' ∨ c = '?' ∨ c ∉ regex_syntax_chars) :
    wildcard_string_to_regex g =
      some { str := g.flatMap glob_char_regex, items := g.map glob_item } := by
  rw [wildcard_string_to_regex_eq]
  unfold regex.compile
  have h := regex_steps_glob g hg []
  have h2 : ({} : parse_state) = { items := [] } := rfl
  rw [h2, h]
  simp [regex_finish]

theorem match_repeat_once (a : regex_atom) (k : Str → Bool) (s : Str) :
    match_repeat a k 1 (some 1) s = true ↔
      ∃ c cs, s = c :: cs ∧ a.accepts c = true ∧ k cs = true := by
  cases s with
  | nil => simp [match_repeat]
  | cons c cs =>
    have h0 : match_repeat a k 0 (some 0) cs = k cs := by
      cases cs <;> simp [match_repeat]
    simp only [match_repeat, h0]
    constructor
    · intro h
      simp at h
      exact ⟨c, cs, rfl, h.1, h0 ▸ h.2⟩
    · rintro ⟨d, ds, hd, h1, h2⟩
      cases hd
      simp [h1, h2, h0]

theorem match_repeat_any_star (k : Str → Bool) (s : Str) :
    match_repeat regex_atom.any_char k 0 none s = true ↔
      ∃ t u, s = t ++ u ∧ k u = true := by
  induction s with
  | nil =>
    simp only [match_repeat]
    constructor
    · intro h
      exact ⟨[], [], rfl, by simpa using h⟩
    · rintro ⟨t, u, htu, hu⟩
      have hu2 : u = [] := (List.append_eq_nil.1 htu.symm).2
      subst hu2
      simpa using hu
  | cons c cs ih =>
    simp only [match_repeat, regex_atom.accepts, Option.map_none', Nat.zero_sub]
    simp only [beq_self_eq_true, Bool.true_and, bne_iff_ne, ne_eq, Bool.or_eq_true,
      Bool.and_eq_true, decide_eq_true_eq]
    simp only [ih]
    constructor
    · rintro (h | ⟨_, t, u, rfl, hu⟩)
      · exact ⟨[], c :: cs, rfl, h⟩
      · exact ⟨c :: t, u, rfl, hu⟩
    · rintro ⟨t, u, htu, hu⟩
      cases t with
      | nil =>
        left
        simp only [List.nil_append] at htu
        rw [htu]; exact hu
      | cons d t =>
        right
        simp only [List.cons_append, List.cons.injEq] at htu
        exact ⟨by simp, t, u, htu.2, hu⟩

theorem match_items_glob (g : Str) :
    ∀ s : Str, match_items (g.map glob_item) s = true ↔ GlobMatches g s := by
  induction g with
  | nil =>
    intro s
    simp only [List.map_nil, match_items, List.isEmpty_iff]
    constructor
    · rintro rfl; exact GlobMatches.nil
    · intro h; cases h; rfl
  | cons x g ih =>
    intro s
    simp only [List.map_cons, match_items]
    by_cases hq : x = '?'
    · subst hq
      have e : glob_item '?' = { atom := regex_atom.any_char } := by simp [glob_item]
      rw [e, match_repeat_once]
      constructor
      · rintro ⟨c, cs, rfl, _, hk⟩
        exact GlobMatches.one c ((ih cs).1 hk)
      · intro h
        cases h with
        | one c h1 => exact ⟨c, _, rfl, rfl, (ih _).2 h1⟩
        | char _ hne _ _ => exact absurd rfl hne
    by_cases hs : x = '*'
    · subst hs
      have e : glob_item '*' =
          { atom := regex_atom.any_char, min := 0, max := none, quantified := true } := by
        simp [glob_item]
      rw [e, match_repeat_any_star]
      constructor
      · rintro ⟨t, u, rfl, hk⟩
        exact GlobMatches.many t ((ih u).1 hk)
      · intro h
        cases h with
        | many t h1 => exact ⟨t, _, rfl, (ih _).2 h1⟩
        | char _ _ hne _ => exact absurd rfl hne
    · have e : glob_item x = { atom := regex_atom.literal x } := by simp [glob_item, hq, hs]
      rw [e, match_repeat_once]
      constructor
      · rintro ⟨c, cs, rfl, hacc, hk⟩
        have hxc : x = c := by simpa [regex_atom.accepts] using hacc
        subst hxc
        exact GlobMatches.char x hq hs ((ih cs).1 hk)
      · intro h
        cases h with
        | one c h1 => exact absurd rfl hq
        | many t h1 => exact absurd rfl hs
        | char _ _ _ h1 => exact ⟨x, _, rfl, by simp [regex_atom.accepts], (ih _).2 h1⟩

/-- Claim C3: for a glob made only of `*`, `?` and characters that are not special in
the regular-expression syntax, `wildcard_string_to_regex` yields a matcher, and
`regex_match` accepts a candidate exactly when the whole candidate matches the glob,
`?` standing for one arbitrary character and `*` for zero or more. -/
theorem wildcard_string_to_regex_glob (g s : Str)
    (hg : ∀ c ∈ g, c = '*' ∨ c = '?' ∨ c ∉ regex_syntax_chars) :
    ∃ r, wildcard_string_to_regex g = some r ∧
      (regex_match s r = true ↔ GlobMatches g s) := by
  refine ⟨_, compile_glob g hg, ?_⟩
  simp only [regex_match]
  exact match_items_glob g s

/-- Witness of `wildcard_string_to_regex_glob` for the glob `Ifc*Wall` and the candidate
`IfcCurtainWall`. -/
theorem wildcard_string_to_regex_glob_witness :
    (∀ c ∈ "Ifc*Wall".toList, c = '*' ∨ c = '?' ∨ c ∉ regex_syntax_chars) ∧
    ∃ r, wildcard_string_to_regex "Ifc*Wall".toList = some r ∧
      (regex_match "IfcCurtainWall".toList r = true ↔
        GlobMatches "Ifc*Wall".toList "IfcCurtainWall".toList) :=
  ⟨by decide, wildcard_string_to_regex_glob _ _ (by decide)⟩

/-- The examples of the specification: `Ifc*Wall` matches `IfcWall` and `IfcCurtainWall`
but neither `IfcWallX` nor `Wall`; `Ifc?oor` matches `IfcDoor` but not `IfcDooor`. -/
theorem glob_examples :
    (wildcard_string_to_regex "Ifc*Wall".toList).map
        (fun r => ["IfcWall", "IfcCurtainWall", "IfcWallX", "Wall"].map
          (fun s => regex_match s.toList r)) = some [true, true, false, false] ∧
    (wildcard_string_to_regex "Ifc?oor".toList).map
        (fun r => ["IfcDoor", "IfcDooor"].map (fun s => regex_match s.toList r))
      = some [true, false] := by
  decide

/-- Claim C4, evaluated at a failing input: the braces of the glob `a{2}` are not in
`special_chars`, so they reach the expression text unescaped and form a bounded repeat;
the matcher rejects the string `a{2}` itself and accepts `aa`. -/
theorem wildcard_string_to_regex_brace :
    (wildcard_string_to_regex "a\x7b2\x7d".toList).map (fun r => r.str)
      = some "a\x7b2\x7d".toList ∧
    (wildcard_string_to_regex "a\x7b2\x7d".toList).map (regex_match "a\x7b2\x7d".toList)
      = some false ∧
    (wildcard_string_to_regex "a\x7b2\x7d".toList).map (regex_match "aa".toList)
      = some true := by
  decide

theorem match_values_iff (vs : List regex) (s : Str) :
    match_values vs s = true ↔ ∃ p ∈ vs, regex_match s p = true := by
  induction vs with
  | nil => simp [match_values]
  | cons r rs ih =>
    by_cases h : regex_match s r = true
    · simp [match_values, h]
    · simp [match_values, h, ih]

/-- Claim C5: `layer_filter::match` is true exactly when some layer name of the product
is matched as a whole by some compiled pattern of the filter; it is false for a product
without layers and for an empty pattern set, and it does not depend on the order of the
layers or of the patterns. -/
theorem layer_filter_match_iff (K : Kernel) (f : layer_filter) (e : IfcProduct) :
    (f.match_prod K e = true ↔
      ∃ n ∈ (K.get_layers e).map Prod.fst, ∃ p ∈ f.values, regex_match n p = true) ∧
    (K.get_layers e = [] → f.match_prod K e = false) ∧
    (f.values = [] → f.match_prod K e = false) ∧
    (∀ (K2 : Kernel) (f2 : layer_filter), (K2.get_layers e).Perm (K.get_layers e) →
      f2.values.Perm f.values → f2.match_prod K2 e = f.match_prod K e) := by
  have key : ∀ (K : Kernel) (f : layer_filter), (f.match_prod K e = true ↔
      ∃ n ∈ (K.get_layers e).map Prod.fst, ∃ p ∈ f.values, regex_match n p = true) := by
    intro K f
    simp only [layer_filter.match_prod, List.find?_isSome, wildcards_match, match_values_iff,
      List.mem_map]
    constructor
    · rintro ⟨x, hx, p, hp, hm⟩
      exact ⟨x.1, ⟨x, hx, rfl⟩, p, hp, hm⟩
    · rintro ⟨n, ⟨x, hx, rfl⟩, p, hp, hm⟩
      exact ⟨x, hx, p, hp, hm⟩
  refine ⟨key K f, ?_, ?_, ?_⟩
  · intro h
    simp [layer_filter.match_prod, h]
  · intro h
    rw [Bool.eq_false_iff]
    intro hm
    obtain ⟨n, _, p, hp, _⟩ := (key K f).1 hm
    rw [h] at hp
    cases hp
  · intro K2 f2 hl hv
    rw [Bool.eq_iff_iff, key K2 f2, key K f]
    constructor
    · rintro ⟨n, hn, p, hp, hm⟩
      exact ⟨n, (hl.map Prod.fst).mem_iff.1 hn, p, hv.mem_iff.1 hp, hm⟩
    · rintro ⟨n, hn, p, hp, hm⟩
      exact ⟨n, (hl.map Prod.fst).mem_iff.2 hn, p, hv.mem_iff.2 hp, hm⟩

/-- Claim C6, evaluated at a failing input: the filter built for the directive
`exclude arg IfcDoor.GlobalId 1ABC*` has the type `IfcDoor` and the index 0, yet for an
`IfcWindow` whose `GlobalId` is `1ABCXYZ` the method `value` returns that string, `match`
is true and the window is rejected, exactly like the door with the same `GlobalId`. -/
theorem qualified_filter_ignores_type :
    (built_arg_filter example_schema exclude_door_globalid).map
        (fun f => (f.type, f.arg_index, f.include_, f.traverse))
      = some (some 3, 0, false, false) ∧
    example_window.type = 4 ∧
    (built_arg_filter example_schema exclude_door_globalid).map
        (fun f => f.value example_schema example_window) = some "1ABCXYZ".toList ∧
    (built_arg_filter example_schema exclude_door_globalid).map
        (fun f => f.match_prod example_schema example_window) = some true ∧
    (built_arg_filter example_schema exclude_door_globalid).map
        (fun f => f.call example_schema example_kernel 1 example_window) = some (some false) ∧
    (built_arg_filter example_schema exclude_door_globalid).map
        (fun f => f.call example_schema example_kernel 1 example_door) = some (some false) := by
  decide

/-- Counterexample to claim C7: for the unqualified filter on `Name` with the pattern `*`
and a door whose `Name` is null, resolution fails and `value` is the empty string, but
`match` is true, because `*` matches the empty string. -/
theorem match_on_failed_resolution :
    (built_arg_filter example_schema include_any_name).map
        (fun f => f.resolution_fails example_schema example_door) = some true ∧
    (built_arg_filter example_schema include_any_name).map
        (fun f => f.value example_schema example_door) = some [] ∧
    (built_arg_filter example_schema include_any_name).map
        (fun f => f.match_prod example_schema example_door) = some true := by
  decide

/-- Claim C7, amended: when the lookup made by `value` fails (the index lookup throws,
there is no argument at the index, or the argument is null or not a string), `value`
is the empty string, and `match` is what the pattern set says about the empty string:
true exactly when some pattern matches the empty string. -/
theorem value_of_failed_resolution (S : Schema) (f : string_arg_filter) (prod : IfcProduct)
    (hfail : f.resolution_fails S prod = true) :
    f.value S prod = [] ∧
    f.match_prod S prod = match_values f.values [] ∧
    (f.match_prod S prod = true ↔ ∃ p ∈ f.values, regex_match [] p = true) := by
  have hv : f.value S prod = [] := by
    unfold string_arg_filter.resolution_fails at hfail
    unfold string_arg_filter.value
    cases hi : f.index S prod with
    | none => rfl
    | some idx =>
      rw [hi] at hfail
      simp only at hfail ⊢
      cases ha : prod.arguments.get? idx with
      | none => rfl
      | some a =>
        rw [ha] at hfail
        cases a with
        | null => rfl
        | string s => exact absurd hfail (by simp)
        | other => rfl
  have hm : f.match_prod S prod = match_values f.values [] := by
    simp [string_arg_filter.match_prod, wildcard_filter.match_str, hv]
  exact ⟨hv, hm, by rw [hm, match_values_iff]⟩

/-- Witness of `value_of_failed_resolution`: the unqualified filter on `Name` without
patterns, and a door whose `Name` is null. -/
theorem value_of_failed_resolution_witness :
    ({ arg_name := "Name".toList } : string_arg_filter).resolution_fails
        example_schema example_door = true ∧
    ({ arg_name := "Name".toList } : string_arg_filter).value example_schema example_door = [] ∧
    ({ arg_name := "Name".toList } : string_arg_filter).match_prod example_schema example_door
      = match_values ({ arg_name := "Name".toList } : string_arg_filter).values [] ∧
    (({ arg_name := "Name".toList } : string_arg_filter).match_prod example_schema example_door
        = true ↔
      ∃ p ∈ ({ arg_name := "Name".toList } : string_arg_filter).values,
        regex_match [] p = true) :=
  ⟨by decide, value_of_failed_resolution example_schema _ example_door (by decide)⟩

theorem set_insert_ne_nil {α : Type} (lt : α → α → Bool) (x : α) (l : List α) :
    set_insert lt x l ≠ [] := by
  cases l with
  | nil => simp [set_insert]
  | cons y ys =>
    simp only [set_insert]
    split_ifs <;> simp

theorem populate_types_none_iff (S : Schema) (ts : List Str) :
    ∀ vs, (populate_types S ts vs).2 = none ↔
      ts.any (fun t => (S.FromString (to_upper_copy t)).isNone) = false := by
  induction ts with
  | nil => intro vs; simp [populate_types]
  | cons t rest ih =>
    intro vs
    cases h : S.FromString (to_upper_copy t) with
    | none => simp [populate_types, h]
    | some ty => simp [populate_types, h, ih]

theorem populate_types_values_ne_nil (S : Schema) (ts : List Str) :
    ∀ vs, (populate_types S ts vs).2 = none → (ts ≠ [] ∨ vs ≠ []) →
      (populate_types S ts vs).1 ≠ [] := by
  induction ts with
  | nil => intro vs _ h; simpa [populate_types] using h
  | cons t rest ih =>
    intro vs h _
    cases ht : S.FromString (to_upper_copy t) with
    | none => simp [populate_types, ht] at h
    | some ty =>
      simp only [populate_types, ht] at h ⊢
      exact ih _ h (Or.inr (set_insert_ne_nil _ _ _))

theorem populate_values_isSome (ps : List Str)
    (h : ps.all (fun p => (wildcard_string_to_regex p).isSome) = true) :
    ∀ vs, ∃ r, populate_values ps vs = some r := by
  induction ps with
  | nil => intro vs; exact ⟨vs, rfl⟩
  | cons p rest ih =>
    intro vs
    simp only [List.all_cons, Bool.and_eq_true] at h
    obtain ⟨r, hr⟩ := Option.isSome_iff_exists.1 h.1
    simp only [populate_values, hr]
    exact ih h.2 _

theorem populate_values_none (ps : List Str) :
    ∀ vs, populate_values ps vs = none →
      ps.all (fun p => (wildcard_string_to_regex p).isSome) = false := by
  intro vs h
  by_contra hc
  rw [Bool.not_eq_false] at hc
  obtain ⟨r, hr⟩ := populate_values_isSome ps hc vs
  rw [hr] at h
  cases h

theorem loop_post_cons (S : Schema) (f : geom_filter) (rest : List geom_filter)
    (funcs funcs1 : List filter_ref) (o o1 : filter_objects) (res : Option loop_result)
    (hv : validation_error S f = false)
    (hfuncs : funcs1 = funcs ∨
      (f.type = filter_type.ENTITY_ARG ∧ funcs1 = funcs ++ [filter_ref.arg_filter f.arg]))
    (hent : f.type ≠ filter_type.ENTITY_TYPE → o1.entity_filter = o.entity_filter)
    (h : loop_post S rest funcs1 o1 res) : loop_post S (f :: rest) funcs o res := by
  cases res with
  | none =>
    obtain ⟨g, hg, hp⟩ := h
    exact ⟨g, List.mem_cons_of_mem _ hg, hp⟩
  | some r =>
    cases r with
    | failed o2 =>
      obtain ⟨g, hg, hp⟩ := h
      exact ⟨g, List.mem_cons_of_mem _ hg, hp⟩
    | done funcs2 o2 =>
      obtain ⟨h1, ⟨keys, hk1, hk2⟩, h3⟩ := h
      refine ⟨?_, ?_, ?_⟩
      · intro g hg
        rcases List.mem_cons.1 hg with rfl | hg
        · exact hv
        · exact h1 g hg
      · rcases hfuncs with rfl | ⟨ht, rfl⟩
        · refine ⟨keys, hk1, ?_⟩
          unfold arg_directives
          by_cases hft : f.type = filter_type.ENTITY_ARG
          · simp only [List.filter_cons, hft, decide_True, if_true, List.map_cons]
            exact List.Sublist.cons _ hk2
          · simp only [List.filter_cons, hft, decide_False]
            exact hk2
        · refine ⟨f.arg :: keys, by simp [hk1], ?_⟩
          unfold arg_directives
          simp only [List.filter_cons, ht, decide_True, if_true, List.map_cons]
          exact List.Sublist.cons₂ _ hk2
      · intro hall
        have hf := hall f (List.mem_cons_self _ _)
        rw [h3 (fun g hg => hall g (List.mem_cons_of_mem _ hg)), hent hf]

theorem setup_filters_loop_post (S : Schema) (filters : List geom_filter) :
    ∀ funcs o, loop_post S filters funcs o (setup_filters_loop S filters funcs o) := by
  induction filters with
  | nil =>
    intro funcs o
    show loop_post S [] funcs o (some (loop_result.done funcs o))
    exact ⟨by simp, ⟨[], by simp, by simp [arg_directives]⟩, fun _ => rfl⟩
  | cons f rest ih =>
    intro funcs o
    cases ht : f.type with
    | UNUSED =>
      simp only [setup_filters_loop, ht]
      exact loop_post_cons S f rest funcs funcs o o _ (by simp [validation_error, ht])
        (Or.inl rfl) (fun _ => rfl) (ih funcs o)
    | ENTITY_TYPE =>
      simp only [setup_filters_loop, ht]
      cases hp : (populate_types S f.values []).2 with
      | some name =>
        have hany : f.values.any (fun t => (S.FromString (to_upper_copy t)).isNone) = true := by
          by_contra hc
          rw [Bool.not_eq_true] at hc
          rw [(populate_types_none_iff S f.values []).2 hc] at hp
          cases hp
        simp only [entity_filter.populate, hp, loop_post]
        exact ⟨f, List.mem_cons_self _ _, by simp only [validation_error, ht, hany]⟩
      | none =>
        have hany := (populate_types_none_iff S f.values []).1 hp
        simp only [entity_filter.populate, hp]
        exact loop_post_cons S f rest funcs funcs o _ _ (by simp only [validation_error, ht, hany])
          (Or.inl rfl) (fun h => absurd ht h) (ih _ _)
    | LAYER_NAME =>
      simp only [setup_filters_loop, ht]
      cases hp : populate_values f.values [] with
      | none =>
        simp only [wildcard_filter.populate, hp, loop_post]
        exact ⟨f, List.mem_cons_self _ _,
          by simp only [patterns_compile, ht, populate_values_none _ _ hp]⟩
      | some vs =>
        simp only [wildcard_filter.populate, hp]
        exact loop_post_cons S f rest funcs funcs o _ _ (by simp [validation_error, ht])
          (Or.inl rfl) (fun _ => rfl) (ih _ _)
    | ENTITY_ARG =>
      simp only [setup_filters_loop, ht]
      cases hc : string_arg_filter.create S f.arg with
      | error e =>
        simp only [loop_post]
        exact ⟨f, List.mem_cons_self _ _, by simp only [validation_error, ht, hc]⟩
      | ok af =>
        have hv : validation_error S f = false := by simp only [validation_error, ht, hc]
        simp only []
        cases hp : populate_values f.values [] with
        | none =>
          simp only [wildcard_filter.populate, hp, loop_post]
          exact ⟨f, List.mem_cons_self _ _,
            by simp only [patterns_compile, ht, populate_values_none _ _ hp]⟩
        | some vs =>
          simp only [wildcard_filter.populate, hp]
          split_ifs with hins
          · exact loop_post_cons S f rest funcs _ o _ _ hv (Or.inr ⟨ht, rfl⟩) (fun _ => rfl)
              (ih _ _)
          · exact loop_post_cons S f rest funcs funcs o _ _ hv (Or.inl rfl) (fun _ => rfl)
              (ih _ _)

theorem to_upper_IfcSpace : to_upper_copy "IfcSpace".toList = "IFCSPACE".toList := by decide

theorem to_upper_IfcOpeningElement :
    to_upper_copy "IfcOpeningElement".toList = "IFCOPENINGELEMENT".toList := by decide

theorem default_entities_svg : set_insert str_lt "IfcSpace".toList [] = ["IfcSpace".toList] := by
  decide

theorem default_entities_other :
    set_insert str_lt "IfcOpeningElement".toList (set_insert str_lt "IfcSpace".toList []) =
      ["IfcOpeningElement".toList, "IfcSpace".toList] := by
  decide

theorem mem_set_insert_enum (t x : Nat) (l : List Nat) :
    t ∈ set_insert enum_lt x l ↔ t = x ∨ t ∈ l := by
  induction l with
  | nil => simp [set_insert]
  | cons y ys ih =>
    simp only [set_insert, enum_lt, decide_eq_true_eq]
    split_ifs with h1 h2
    · simp
    · simp only [List.mem_cons, ih]
      tauto
    · have hxy : x = y := by omega
      subst hxy
      simp

/-- The part of `setup_filters` after the loop, when the loop processed all directives. -/
theorem setup_filters_of_done (S : Schema) (filters : List geom_filter) (ext : Str)
    (o o1 : filter_objects) (funcs : List filter_ref)
    (hloop : setup_filters_loop S filters [] o = some (loop_result.done funcs o1)) :
    (∃ o2, setup_filters S filters ext o = some ([], o2) ∧
      o1.entity_filter.values = [] ∧
      (S.FromString "IFCSPACE".toList = none ∨
        S.FromString "IFCOPENINGELEMENT".toList = none)) ∨
    (∃ ef : entity_filter, setup_filters S filters ext o =
        some (funcs ++ (if o1.layer_filter.values.isEmpty then [] else [filter_ref.layer_filter])
          ++ [filter_ref.entity_filter], { o1 with entity_filter := ef }) ∧
      ef.values ≠ [] ∧
      (o1.entity_filter.values ≠ [] → ef = o1.entity_filter) ∧
      (o1.entity_filter.values = [] → ef.traverse = o1.entity_filter.traverse ∧
        (ext = ".svg".toList → ef.include_ = true ∧
          ∀ t, t ∈ ef.values ↔ S.FromString "IFCSPACE".toList = some t) ∧
        (ext ≠ ".svg".toList → ef.include_ = o1.entity_filter.include_ ∧
          ∀ t, t ∈ ef.values ↔ (S.FromString "IFCSPACE".toList = some t ∨
            S.FromString "IFCOPENINGELEMENT".toList = some t)))) := by
  unfold setup_filters
  simp only [hloop]
  by_cases hempty : o1.entity_filter.values = []
  · by_cases hext : ext = ".svg".toList
    · cases hsp : S.FromString "IFCSPACE".toList with
      | none =>
        left
        refine ⟨{ o1 with entity_filter :=
          { o1.entity_filter with include_ := true, values := [] } }, ?_, hempty, Or.inl rfl⟩
        simp only [hempty, List.isEmpty_nil, if_true, hext, default_entities_svg,
          entity_filter.populate, populate_types, to_upper_IfcSpace, hsp]
      | some sp =>
        right
        refine ⟨{ o1.entity_filter with include_ := true, values := set_insert enum_lt sp [] },
          ?_, ?_, ?_, ?_⟩
        · simp only [hempty, List.isEmpty_nil, if_true, hext, default_entities_svg,
            entity_filter.populate, populate_types, to_upper_IfcSpace, hsp]
          by_cases hl : o1.layer_filter.values = [] <;> simp [hl, set_insert]
        · simp [set_insert]
        · intro h; exact absurd hempty h
        · intro _
          refine ⟨rfl, fun _ => ⟨rfl, fun t => ?_⟩, fun h => absurd hext h⟩
          simp [set_insert, eq_comm]
    · cases hop : S.FromString "IFCOPENINGELEMENT".toList with
      | none =>
        left
        refine ⟨{ o1 with entity_filter := { o1.entity_filter with values := [] } }, ?_,
          hempty, Or.inr rfl⟩
        simp only [hempty, List.isEmpty_nil, if_true, hext, if_false, default_entities_other,
          entity_filter.populate, populate_types, to_upper_IfcOpeningElement, hop]
      | some op =>
        cases hsp : S.FromString "IFCSPACE".toList with
        | none =>
          left
          refine ⟨{ o1 with entity_filter :=
            { o1.entity_filter with values := set_insert enum_lt op [] } }, ?_,
            hempty, Or.inl rfl⟩
          simp only [hempty, List.isEmpty_nil, if_true, hext, if_false, default_entities_other,
            entity_filter.populate, populate_types, to_upper_IfcOpeningElement, hop,
            to_upper_IfcSpace, hsp]
        | some sp =>
          right
          refine ⟨{ o1.entity_filter with
            values := set_insert enum_lt sp (set_insert enum_lt op []) }, ?_, ?_, ?_, ?_⟩
          · simp only [hempty, List.isEmpty_nil, if_true, hext, if_false,
              default_entities_other, entity_filter.populate, populate_types,
              to_upper_IfcOpeningElement, hop, to_upper_IfcSpace, hsp]
            by_cases hl : o1.layer_filter.values = [] <;> simp [hl, set_insert_ne_nil]
          · exact set_insert_ne_nil _ _ _
          · intro h; exact absurd hempty h
          · intro _
            refine ⟨rfl, fun h => absurd h hext, fun _ => ⟨rfl, fun t => ?_⟩⟩
            simp only [mem_set_insert_enum, List.not_mem_nil, or_false, Option.some.injEq]
            constructor
            · rintro (h | h)
              · exact Or.inl h.symm
              · exact Or.inr h.symm
            · rintro (h | h)
              · exact Or.inl h.symm
              · exact Or.inr h.symm
  · right
    have hne : o1.entity_filter.values.isEmpty = false := by
      cases hv : o1.entity_filter.values with
      | nil => exact absurd hv hempty
      | cons _ _ => rfl
    refine ⟨o1.entity_filter, ?_, hempty, fun _ => rfl, fun h => absurd h hempty⟩
    simp only [hne]
    by_cases hl : o1.layer_filter.values = [] <;> simp [hl, hempty]

/-- Counterexample to claim C8: a directive list without entity directive, whose
attribute directive has the qualifier `a.b.c`; `setup_filters` returns the empty list,
which holds no type predicate. -/
theorem setup_filters_no_type_predicate :
    bad_qualifier_directive.type ≠ filter_type.ENTITY_TYPE ∧
    (setup_filters example_schema [bad_qualifier_directive] ".obj".toList {}).map
      (fun r => r.1) = some [] := by
  decide

/-- Claim C8, amended: under a schema that knows `IfcSpace` and `IfcOpeningElement`, for
a directive list without entity directive, without validation error and whose patterns
all compile, `setup_filters` on fresh filter objects returns a list with exactly one
reference to the entity filter, and this filter does not traverse and has `include = true`
over exactly `IfcSpace` for the extension `.svg`, `include = false` over exactly
`IfcSpace` and `IfcOpeningElement` for every other extension. -/
theorem setup_filters_default (S : Schema) (filters : List geom_filter) (ext : Str)
    (sp op : Nat)
    (hsp : S.FromString "IFCSPACE".toList = some sp)
    (hop : S.FromString "IFCOPENINGELEMENT".toList = some op)
    (hnotype : ∀ f ∈ filters, f.type ≠ filter_type.ENTITY_TYPE)
    (hvalid : ∀ f ∈ filters, validation_error S f = false)
    (hpat : ∀ f ∈ filters, patterns_compile f = true) :
    ∃ refs o, setup_filters S filters ext {} = some (refs, o) ∧
      refs.count filter_ref.entity_filter = 1 ∧
      o.entity_filter.traverse = false ∧
      (ext = ".svg".toList →
        o.entity_filter.include_ = true ∧ ∀ t, t ∈ o.entity_filter.values ↔ t = sp) ∧
      (ext ≠ ".svg".toList →
        o.entity_filter.include_ = false ∧
        ∀ t, t ∈ o.entity_filter.values ↔ (t = sp ∨ t = op)) := by
  have hpost := setup_filters_loop_post S filters [] {}
  cases hres : setup_filters_loop S filters [] {} with
  | none =>
    rw [hres] at hpost
    obtain ⟨f, hf, hc⟩ := hpost
    rw [hpat f hf] at hc
    cases hc
  | some r =>
    cases r with
    | failed o1 =>
      rw [hres] at hpost
      obtain ⟨f, hf, hc⟩ := hpost
      rw [hvalid f hf] at hc
      cases hc
    | done funcs o1 =>
      rw [hres] at hpost
      obtain ⟨_, ⟨keys, hkeys, _⟩, hent⟩ := hpost
      have hef : o1.entity_filter = {} := hent hnotype
      have hvals : o1.entity_filter.values = [] := by rw [hef]
      rcases setup_filters_of_done S filters ext {} o1 funcs hres with
        ⟨_, _, _, hbad⟩ | ⟨ef, hset, _, _, hdef⟩
      · rcases hbad with h | h
        · rw [hsp] at h; cases h
        · rw [hop] at h; cases h
      · obtain ⟨htrav, hsvg, hother⟩ := hdef hvals
        refine ⟨_, _, hset, ?_, ?_, ?_, ?_⟩
        · rw [hkeys]
          simp only [List.nil_append, List.count_append, List.count_singleton_self]
          have h1 : List.count filter_ref.entity_filter (keys.map filter_ref.arg_filter) = 0 := by
            rw [List.count_eq_zero]
            intro hmem
            obtain ⟨k, _, hk⟩ := List.mem_map.1 hmem
            cases hk
          have h2 : List.count filter_ref.entity_filter
              (if o1.layer_filter.values.isEmpty then [] else [filter_ref.layer_filter]) = 0 := by
            split_ifs <;> simp
          rw [h1, h2]
        · show ef.traverse = false
          rw [htrav, hef]
        · intro hext
          obtain ⟨hi, hm⟩ := hsvg hext
          refine ⟨hi, fun t => ?_⟩
          show t ∈ ef.values ↔ t = sp
          rw [hm t, hsp]
          simp [eq_comm]
        · intro hext
          obtain ⟨hi, hm⟩ := hother hext
          refine ⟨?_, fun t => ?_⟩
          · show ef.include_ = false
            rw [hi, hef]
          · show t ∈ ef.values ↔ (t = sp ∨ t = op)
            rw [hm t, hsp, hop]
            simp [eq_comm]

/-- Witness of `setup_filters_default`: an attribute directive and a layer directive,
for the extension `.obj`. -/
theorem setup_filters_default_witness :
    (example_schema.FromString "IFCSPACE".toList = some 1 ∧
      example_schema.FromString "IFCOPENINGELEMENT".toList = some 2 ∧
      (∀ f ∈ [include_any_name, include_layers], f.type ≠ filter_type.ENTITY_TYPE) ∧
      (∀ f ∈ [include_any_name, include_layers], validation_error example_schema f = false) ∧
      (∀ f ∈ [include_any_name, include_layers], patterns_compile f = true)) ∧
    ∃ refs o, setup_filters example_schema [include_any_name, include_layers] ".obj".toList {}
        = some (refs, o) ∧
      refs.count filter_ref.entity_filter = 1 ∧
      o.entity_filter.traverse = false ∧
      (".obj".toList = ".svg".toList →
        o.entity_filter.include_ = true ∧ ∀ t, t ∈ o.entity_filter.values ↔ t = 1) ∧
      (".obj".toList ≠ ".svg".toList →
        o.entity_filter.include_ = false ∧
        ∀ t, t ∈ o.entity_filter.values ↔ (t = 1 ∨ t = 2)) :=
  ⟨⟨by decide, by decide, by decide, by decide, by decide⟩,
    setup_filters_default example_schema [include_any_name, include_layers] ".obj".toList 1 2
      (by decide) (by decide) (by decide) (by decide) (by decide)⟩

/-- Counterexample to claim C9: for a layer directive followed by an attribute directive
the returned list starts with the attribute filter, which so comes before the layer
filter and before the entity filter. -/
theorem setup_filters_attribute_first :
    (setup_filters example_schema [include_layers, include_any_name] ".obj".toList {}).map
      (fun r => r.1) =
      some [filter_ref.arg_filter "Name".toList, filter_ref.layer_filter,
        filter_ref.entity_filter] := by
  decide

/-- Claim C9, amended: whenever `setup_filters` returns a non-empty list, the list
consists of the references to attribute filters, in the order of their directives, then
the layer filter if it has patterns, then the entity filter as last element. -/
theorem setup_filters_order (S : Schema) (filters : List geom_filter) (ext : Str)
    (o o2 : filter_objects) (refs : List filter_ref)
    (h : setup_filters S filters ext o = some (refs, o2)) (hne : refs ≠ []) :
    ∃ keys : List Str,
      refs = keys.map filter_ref.arg_filter ++
        (if o2.layer_filter.values.isEmpty then [] else [filter_ref.layer_filter]) ++
        [filter_ref.entity_filter] ∧
      keys.Sublist (arg_directives filters) := by
  have hpost := setup_filters_loop_post S filters [] o
  cases hres : setup_filters_loop S filters [] o with
  | none =>
    simp [setup_filters, hres] at h
  | some r =>
    cases r with
    | failed o1 =>
      simp only [setup_filters, hres, Option.some.injEq, Prod.mk.injEq] at h
      exact absurd h.1.symm hne
    | done funcs o1 =>
      rw [hres] at hpost
      obtain ⟨_, ⟨keys, hkeys, hsub⟩, _⟩ := hpost
      rcases setup_filters_of_done S filters ext o o1 funcs hres with
        ⟨o3, hset, _⟩ | ⟨ef, hset, _⟩
      · rw [hset] at h
        simp only [Option.some.injEq, Prod.mk.injEq] at h
        exact absurd h.1.symm hne
      · rw [hset] at h
        simp only [Option.some.injEq, Prod.mk.injEq] at h
        obtain ⟨h1, h2⟩ := h
        refine ⟨keys, ?_, hsub⟩
        rw [← h1, ← h2, hkeys]
        simp

/-- Witness of `setup_filters_order`: a layer directive followed by an attribute
directive. -/
theorem setup_filters_order_witness :
    (setup_filters example_schema [include_layers, include_any_name] ".obj".toList {} =
        some (example_setup.1, example_setup.2) ∧ example_setup.1 ≠ []) ∧
    ∃ keys : List Str,
      example_setup.1 = keys.map filter_ref.arg_filter ++
        (if example_setup.2.layer_filter.values.isEmpty then []
          else [filter_ref.layer_filter]) ++
        [filter_ref.entity_filter] ∧
      keys.Sublist (arg_directives [include_layers, include_any_name]) :=
  ⟨⟨by decide, by decide⟩,
    setup_filters_order example_schema [include_layers, include_any_name] ".obj".toList {}
      example_setup.2 example_setup.1 (by decide) (by decide)⟩

/-- Claim C10 fails at this input: the layer directive with the pattern `a{2,1}`
raises no validation error and the schema knows `IfcSpace` and `IfcOpeningElement`, so
that the claim promises a list with the entity predicate.  But `wildcard_string_to_regex`
leaves the braces of the glob unescaped, the expression text is a bounded repeat with
its bounds in the wrong order, the constructor of `boost::regex` throws, no handler of
`setup_filters` catches it, and no list, empty or not, is returned.  With the braces
escaped the text is a valid expression. -/
theorem setup_filters_regex_error :
    validation_error example_schema bad_pattern_directive = false ∧
    example_schema.FromString "IFCSPACE".toList = some 1 ∧
    example_schema.FromString "IFCOPENINGELEMENT".toList = some 2 ∧
    wildcard_string_to_regex "a\x7b2,1\x7d".toList = none ∧
    setup_filters example_schema [bad_pattern_directive] ".obj".toList {} = none ∧
    regex.compile "a\x7b2,1\x7d".toList = none ∧
    (regex.compile "a\\\x7b2,1\\\x7d".toList).isSome = true := by
  decide

/-- Where the patterns of all directives compile, under a schema that knows `IfcSpace` and
`IfcOpeningElement`, for every extension and all filter objects, `setup_filters` returns;
the returned list is empty exactly when some directive raises a validation error, and a
non-empty list contains the entity filter. -/
theorem setup_filters_empty_iff (S : Schema) (filters : List geom_filter) (ext : Str)
    (o : filter_objects) (sp op : Nat)
    (hsp : S.FromString "IFCSPACE".toList = some sp)
    (hop : S.FromString "IFCOPENINGELEMENT".toList = some op)
    (hpat : ∀ f ∈ filters, patterns_compile f = true) :
    ∃ refs o2, setup_filters S filters ext o = some (refs, o2) ∧
      (refs = [] ↔ ∃ f ∈ filters, validation_error S f = true) ∧
      (refs ≠ [] → filter_ref.entity_filter ∈ refs) := by
  have hpost := setup_filters_loop_post S filters [] o
  cases hres : setup_filters_loop S filters [] o with
  | none =>
    rw [hres] at hpost
    obtain ⟨f, hf, hc⟩ := hpost
    rw [hpat f hf] at hc
    cases hc
  | some r =>
    cases r with
    | failed o1 =>
      rw [hres] at hpost
      refine ⟨[], o1, by simp [setup_filters, hres], ?_, fun h => absurd rfl h⟩
      exact ⟨fun _ => hpost, fun _ => rfl⟩
    | done funcs o1 =>
      rw [hres] at hpost
      obtain ⟨hnoerr, _, _⟩ := hpost
      rcases setup_filters_of_done S filters ext o o1 funcs hres with
        ⟨_, _, _, hbad⟩ | ⟨ef, hset, _⟩
      · rcases hbad with h | h
        · rw [hsp] at h; cases h
        · rw [hop] at h; cases h
      · refine ⟨_, _, hset, ?_, fun _ => by simp⟩
        constructor
        · intro h
          simp at h
        · rintro ⟨f, hf, hc⟩
          rw [hnoerr f hf] at hc
          cases hc

/-- Witness of `setup_filters_empty_iff`: a layer directive followed by an attribute
directive with a malformed qualifier. -/
theorem setup_filters_empty_iff_witness :
    (example_schema.FromString "IFCSPACE".toList = some 1 ∧
      example_schema.FromString "IFCOPENINGELEMENT".toList = some 2 ∧
      ∀ f ∈ [include_layers, bad_qualifier_directive], patterns_compile f = true) ∧
    ∃ refs o2, setup_filters example_schema [include_layers, bad_qualifier_directive]
        ".svg".toList {} = some (refs, o2) ∧
      (refs = [] ↔ ∃ f ∈ [include_layers, bad_qualifier_directive],
        validation_error example_schema f = true) ∧
      (refs ≠ [] → filter_ref.entity_filter ∈ refs) :=
  ⟨⟨by decide, by decide, by decide⟩,
    setup_filters_empty_iff example_schema [include_layers, bad_qualifier_directive]
      ".svg".toList {} 1 2 (by decide) (by decide) (by decide)⟩

/-! ### Merging directives: `append_filter` -/

theorem str_lt_trichotomy {a b : Str} (h1 : str_lt a b = false) (h2 : str_lt b a = false) :
    a = b := by
  simp only [str_lt, decide_eq_false_iff_not] at h1 h2
  exact le_antisymm (not_lt.1 h2) (not_lt.1 h1)

theorem mem_set_insert_str (p x : Str) (l : List Str) :
    p ∈ set_insert str_lt x l ↔ p = x ∨ p ∈ l := by
  induction l with
  | nil => simp [set_insert]
  | cons y ys ih =>
    simp only [set_insert]
    by_cases h1 : str_lt x y = true
    · rw [if_pos h1]
      simp
    · by_cases h2 : str_lt y x = true
      · rw [if_neg h1, if_pos h2]
        simp only [List.mem_cons, ih]
        tauto
      · rw [if_neg h1, if_neg h2]
        have hxy : x = y := str_lt_trichotomy (by simpa using h1) (by simpa using h2)
        subst hxy
        simp

theorem mem_set_insert_range (p : Str) (range : List Str) :
    ∀ s : List Str, p ∈ set_insert_range range s ↔ p ∈ s ∨ p ∈ range := by
  induction range with
  | nil => intro s; simp [set_insert_range]
  | cons x xs ih =>
    intro s
    have h := ih (set_insert str_lt x s)
    simp only [set_insert_range, List.foldl_cons] at h ⊢
    rw [h, mem_set_insert_str]
    simp only [List.mem_cons]
    tauto

theorem set_insert_sorted (x : Str) (l : List Str) (h : l.Sorted (· < ·)) :
    (set_insert str_lt x l).Sorted (· < ·) := by
  induction l with
  | nil => simp [set_insert]
  | cons y ys ih =>
    have hys : ys.Sorted (· < ·) := h.of_cons
    have hy : ∀ z ∈ ys, y < z := fun z hz => List.rel_of_sorted_cons h z hz
    simp only [set_insert]
    by_cases h1 : str_lt x y = true
    · have hxy : x < y := by simpa [str_lt] using h1
      rw [if_pos h1]
      refine List.sorted_cons.2 ⟨?_, h⟩
      intro z hz
      rcases List.mem_cons.1 hz with rfl | hz
      · exact hxy
      · exact lt_trans hxy (hy z hz)
    · by_cases h2 : str_lt y x = true
      · have hyx : y < x := by simpa [str_lt] using h2
        rw [if_neg h1, if_pos h2]
        refine List.sorted_cons.2 ⟨?_, ih hys⟩
        intro z hz
        rcases (mem_set_insert_str z x ys).1 hz with rfl | hz
        · exact hyx
        · exact hy z hz
      · rw [if_neg h1, if_neg h2]
        exact h

theorem set_insert_range_sorted (range : List Str) :
    ∀ s : List Str, s.Sorted (· < ·) → (set_insert_range range s).Sorted (· < ·) := by
  induction range with
  | nil => intro s h; simpa [set_insert_range] using h
  | cons x xs ih =>
    intro s h
    have := ih (set_insert str_lt x s) (set_insert_sorted x s h)
    simpa [set_insert_range] using this

/-- Claim C12: for every accumulator and every token list that `parse_filter` accepts,
`append_filter` returns, and it returns true exactly when the accumulator is unused or of
the kind of the new directive, and its qualifier is empty or the qualifier of the new
directive.  When it returns true, the patterns of the accumulator are the union of its
previous patterns and those of the new directive (still an ascending set), its kind and
qualifier are those of the new directive, and its include and traverse flags are
unchanged. -/
theorem append_filter_merge (type : Str) (values : List Str) (filter temp : geom_filter)
    (hparse : parse_filter {} values = Except.ok temp) :
    ∃ b f, append_filter type values filter = Except.ok (b, f) ∧
      (b = true ↔ ((filter.type = filter_type.UNUSED ∨ filter.type = temp.type) ∧
        (filter.arg = [] ∨ filter.arg = temp.arg))) ∧
      (b = true →
        f.type = temp.type ∧ f.arg = temp.arg ∧
        (∀ p, p ∈ f.values ↔ (p ∈ filter.values ∨ p ∈ temp.values)) ∧
        (filter.values.Sorted (· < ·) → f.values.Sorted (· < ·)) ∧
        f.include_ = filter.include_ ∧ f.traverse = filter.traverse) := by
  unfold append_filter
  simp only [hparse]
  by_cases hc : (filter.type ≠ filter_type.UNUSED ∧ filter.type ≠ temp.type) ∨
      (¬ filter.arg.isEmpty ∧ filter.arg ≠ temp.arg)
  · refine ⟨false, filter, by simp only [if_pos hc], ?_, fun h => by cases h⟩
    constructor
    · intro h; cases h
    · rintro ⟨h1, h2⟩
      exfalso
      rcases hc with ⟨a, b⟩ | ⟨a, b⟩
      · rcases h1 with h | h
        · exact a h
        · exact b h
      · rcases h2 with h | h
        · rw [h] at a; exact a rfl
        · exact b h
  · refine ⟨true, _, (if_neg hc).trans rfl, ?_, ?_⟩
    · simp only [true_iff]
      rw [not_or, not_and_or, not_and_or] at hc
      obtain ⟨h1, h2⟩ := hc
      constructor
      · rcases h1 with h | h
        · exact Or.inl (not_not.1 h)
        · exact Or.inr (not_not.1 h)
      · rcases h2 with h | h
        · left
          have := not_not.1 h
          exact List.isEmpty_iff.1 this
        · exact Or.inr (not_not.1 h)
    · intro _
      refine ⟨rfl, rfl, fun p => mem_set_insert_range p _ _, ?_, rfl, rfl⟩
      intro hs
      exact set_insert_range_sorted _ _ hs

/-- Witness of `append_filter_merge`: the layer directive with "South*" merged into the
accumulator of the layer directive with "North*" gives one layer directive with both
patterns. -/
theorem append_filter_merge_witness :
    parse_filter {} ["layers".toList, "South*".toList] =
      Except.ok { type := filter_type.LAYER_NAME, values := ["South*".toList] } ∧
    append_filter "include".toList ["layers".toList, "South*".toList]
        { type := filter_type.LAYER_NAME, include_ := true, values := ["North*".toList] } =
      Except.ok (true,
        { type := filter_type.LAYER_NAME, include_ := true,
          values := ["North*".toList, "South*".toList] }) ∧
    ∃ b f, append_filter "include".toList ["layers".toList, "South*".toList]
        { type := filter_type.LAYER_NAME, include_ := true, values := ["North*".toList] } =
        Except.ok (b, f) ∧
      (b = true ↔ (((filter_type.LAYER_NAME = filter_type.UNUSED ∨
          filter_type.LAYER_NAME = filter_type.LAYER_NAME) ∧
        (([] : Str) = [] ∨ ([] : Str) = []))) ) ∧
      (b = true →
        f.type = filter_type.LAYER_NAME ∧ f.arg = [] ∧
        (∀ p, p ∈ f.values ↔ (p ∈ ["North*".toList] ∨ p ∈ ["South*".toList])) ∧
        (["North*".toList].Sorted (· < ·) → f.values.Sorted (· < ·)) ∧
        f.include_ = true ∧ f.traverse = false) :=
  ⟨by decide, by decide,
    append_filter_merge "include".toList ["layers".toList, "South*".toList]
      { type := filter_type.LAYER_NAME, include_ := true, values := ["North*".toList] }
      { type := filter_type.LAYER_NAME, values := ["South*".toList] } (by decide)⟩

/-! ### The map of attribute filters -/

theorem map_find_cons {β : Type} (q k2 : Str) (v2 : β) (rest : List (Str × β)) :
    map_find q ((k2, v2) :: rest) = if k2 = q then some v2 else map_find q rest := rfl

theorem map_find_none_of_not_mem {β : Type} (k : Str) (m : List (Str × β))
    (h : k ∉ m.map Prod.fst) : map_find k m = none := by
  induction m with
  | nil => rfl
  | cons p rest ih =>
    obtain ⟨k2, v2⟩ := p
    simp only [List.map_cons, List.mem_cons, not_or] at h
    have hne : ¬ k2 = k := fun e => h.1 e.symm
    rw [map_find_cons, if_neg hne]
    exact ih h.2

theorem map_find_none_of_lt {β : Type} (k : Str) (m : List (Str × β))
    (h : ∀ key ∈ m.map Prod.fst, k < key) : map_find k m = none :=
  map_find_none_of_not_mem k m (fun hk => lt_irrefl k (h k hk))

theorem map_insert_not_inserted {β : Type} (k : Str) (v : β) (m : List (Str × β))
    (h : (map_insert k v m).2 = false) : (map_insert k v m).1 = m := by
  induction m with
  | nil => simp [map_insert] at h
  | cons p rest ih =>
    obtain ⟨k2, v2⟩ := p
    simp only [map_insert] at h ⊢
    by_cases h1 : str_lt k k2 = true
    · rw [if_pos h1] at h
      cases h
    · rw [if_neg h1] at h ⊢
      by_cases h2 : str_lt k2 k = true
      · rw [if_pos h2] at h ⊢
        simp only at h ⊢
        rw [ih h]
      · rw [if_neg h2]

theorem map_find_ite_front {β : Type} (q k : Str) (v : β) (m : List (Str × β)) :
    map_find q ((k, v) :: m) = if q = k then some v else map_find q m := by
  rw [map_find_cons]
  by_cases hq : q = k
  · rw [if_pos hq, if_pos hq.symm]
  · rw [if_neg hq, if_neg (fun e => hq e.symm)]

theorem map_insert_spec {β : Type} (k : Str) (v : β) (m : List (Str × β))
    (hs : map_sorted m) :
    ((map_insert k v m).2 = true ↔ map_find k m = none) ∧
    ((map_insert k v m).2 = true →
      ∀ q, map_find q (map_insert k v m).1 = if q = k then some v else map_find q m) ∧
    (∀ key ∈ (map_insert k v m).1.map Prod.fst, key = k ∨ key ∈ m.map Prod.fst) ∧
    map_sorted (map_insert k v m).1 := by
  induction m with
  | nil =>
    refine ⟨?_, ?_, ?_, ?_⟩
    · simp [map_insert, map_find]
    · intro _ q
      exact map_find_ite_front q k v []
    · intro key hkey
      left
      simpa [map_insert] using hkey
    · show ([k] : List Str).Sorted (· < ·)
      exact List.sorted_singleton k
  | cons p rest ih =>
    obtain ⟨k2, v2⟩ := p
    have hs' : (k2 :: rest.map Prod.fst).Sorted (· < ·) := hs
    obtain ⟨hlt, hrest⟩ := List.sorted_cons.1 hs'
    obtain ⟨ih1, ih2, ih3, ih4⟩ := ih hrest
    by_cases h1 : str_lt k k2 = true
    · have hk : k < k2 := by simpa [str_lt] using h1
      have hne : ¬ k2 = k := fun e => lt_irrefl k (e ▸ hk)
      have hnone : map_find k ((k2, v2) :: rest) = none := by
        rw [map_find_cons, if_neg hne]
        exact map_find_none_of_lt k rest (fun key hkey => lt_trans hk (hlt key hkey))
      have hins : map_insert k v ((k2, v2) :: rest) = ((k, v) :: (k2, v2) :: rest, true) := by
        simp only [map_insert, if_pos h1]
      rw [hins]
      refine ⟨by simp [hnone], ?_, ?_, ?_⟩
      · intro _ q
        exact map_find_ite_front q k v _
      · intro key hkey
        rcases List.mem_cons.1 hkey with h | h
        · exact Or.inl h
        · exact Or.inr h
      · show (k :: k2 :: rest.map Prod.fst).Sorted (· < ·)
        refine List.sorted_cons.2 ⟨?_, hs'⟩
        intro b hb
        rcases List.mem_cons.1 hb with rfl | hb
        · exact hk
        · exact lt_trans hk (hlt b hb)
    · by_cases h2 : str_lt k2 k = true
      · have hk : k2 < k := by simpa [str_lt] using h2
        have hne : ¬ k2 = k := fun e => lt_irrefl k (e ▸ hk)
        have hins : map_insert k v ((k2, v2) :: rest) =
            ((k2, v2) :: (map_insert k v rest).1, (map_insert k v rest).2) := by
          simp only [map_insert, if_neg h1, if_pos h2]
        rw [hins]
        refine ⟨?_, ?_, ?_, ?_⟩
        · rw [map_find_cons, if_neg hne]
          exact ih1
        · intro hi q
          rw [map_find_cons q k2 v2 (map_insert k v rest).1, ih2 hi q,
            map_find_cons q k2 v2 rest]
          by_cases hq : q = k
          · subst hq
            simp [hne]
          · simp [hq]
        · intro key hkey
          rcases List.mem_cons.1 hkey with h | h
          · exact Or.inr (List.mem_cons.2 (Or.inl h))
          · rcases ih3 key h with h3 | h3
            · exact Or.inl h3
            · exact Or.inr (List.mem_cons_of_mem _ h3)
        · show (k2 :: (map_insert k v rest).1.map Prod.fst).Sorted (· < ·)
          refine List.sorted_cons.2 ⟨?_, ih4⟩
          intro b hb
          rcases ih3 b hb with rfl | hb
          · exact hk
          · exact hlt b hb
      · have hkk : k = k2 := str_lt_trichotomy (by simpa using h1) (by simpa using h2)
        subst hkk
        have hins : map_insert k v ((k, v2) :: rest) = ((k, v2) :: rest, false) := by
          simp only [map_insert, if_neg h1]
        rw [hins]
        refine ⟨?_, ?_, fun key hkey => Or.inr hkey, hs⟩
        · rw [map_find_cons, if_pos rfl]
          simp
        · intro h
          simp at h

/-! ### The loop of `setup_filters`, directive by directive -/

theorem loop_cons_unused (S : Schema) (f : geom_filter) (rest : List geom_filter)
    (funcs : List filter_ref) (o : filter_objects) (ht : f.type = filter_type.UNUSED) :
    setup_filters_loop S (f :: rest) funcs o = setup_filters_loop S rest funcs o := by
  simp only [setup_filters_loop, ht]

theorem loop_cons_entity (S : Schema) (f : geom_filter) (rest : List geom_filter)
    (funcs : List filter_ref) (o : filter_objects) (ht : f.type = filter_type.ENTITY_TYPE) :
    setup_filters_loop S (f :: rest) funcs o =
      if f.values.any (fun t => (S.FromString (to_upper_copy t)).isNone) then
        some (loop_result.failed { o with entity_filter := entity_step S o.entity_filter f })
      else
        setup_filters_loop S rest funcs
          { o with entity_filter := entity_step S o.entity_filter f } := by
  simp only [setup_filters_loop, ht, entity_step, if_true, entity_filter.populate]
  cases hp : (populate_types S f.values []).2 with
  | some name =>
    have hany : f.values.any (fun t => (S.FromString (to_upper_copy t)).isNone) = true := by
      by_contra hc
      rw [Bool.not_eq_true] at hc
      rw [(populate_types_none_iff S f.values []).2 hc] at hp
      cases hp
    simp only [hany, if_true]
  | none =>
    have hany := (populate_types_none_iff S f.values []).1 hp
    simp only [hany, Bool.false_eq_true, if_false]

theorem loop_cons_layer (S : Schema) (f : geom_filter) (rest : List geom_filter)
    (funcs : List filter_ref) (o : filter_objects) (ht : f.type = filter_type.LAYER_NAME) :
    setup_filters_loop S (f :: rest) funcs o =
      match populate_values f.values [] with
      | none => none
      | some _ =>
        setup_filters_loop S rest funcs
          { o with layer_filter := layer_step o.layer_filter f } := by
  simp only [setup_filters_loop, ht, layer_step, if_true, wildcard_filter.populate]
  cases populate_values f.values [] <;> rfl

theorem loop_cons_arg (S : Schema) (f : geom_filter) (rest : List geom_filter)
    (funcs : List filter_ref) (o : filter_objects) (ht : f.type = filter_type.ENTITY_ARG) :
    setup_filters_loop S (f :: rest) funcs o =
      match string_arg_filter.create S f.arg with
      | Except.error _ => some (loop_result.failed o)
      | Except.ok _ =>
        match make_arg_filter S f with
        | none => none
        | some af =>
          setup_filters_loop S rest
            (if (map_insert f.arg af o.arg_filters).2 then
              funcs ++ [filter_ref.arg_filter f.arg] else funcs)
            { o with arg_filters := (map_insert f.arg af o.arg_filters).1 } := by
  simp only [setup_filters_loop, ht, make_arg_filter, wildcard_filter.populate]
  cases string_arg_filter.create S f.arg with
  | error e => rfl
  | ok af0 =>
    simp only
    cases populate_values f.values [] with
    | none => rfl
    | some vs =>
      simp only
      split_ifs <;> rfl

theorem arg_directives_cons_arg (f : geom_filter) (rest : List geom_filter)
    (ht : f.type = filter_type.ENTITY_ARG) :
    arg_directives (f :: rest) = f.arg :: arg_directives rest := by
  simp [arg_directives, ht]

theorem arg_directives_cons_other (f : geom_filter) (rest : List geom_filter)
    (ht : f.type ≠ filter_type.ENTITY_ARG) :
    arg_directives (f :: rest) = arg_directives rest := by
  simp [arg_directives, ht]

theorem first_arg_directive_cons_other (q : Str) (f : geom_filter) (rest : List geom_filter)
    (ht : f.type ≠ filter_type.ENTITY_ARG ∨ f.arg ≠ q) :
    first_arg_directive q (f :: rest) = first_arg_directive q rest := by
  unfold first_arg_directive
  rw [List.find?_cons_of_neg]
  rcases ht with h | h <;> simp [h]

theorem first_arg_directive_cons_self (f : geom_filter) (rest : List geom_filter)
    (ht : f.type = filter_type.ENTITY_ARG) :
    first_arg_directive f.arg (f :: rest) = some f := by
  unfold first_arg_directive
  rw [List.find?_cons_of_pos]
  simp [ht]

/-- What the loop of `setup_filters` does with the attribute directives. -/
theorem setup_filters_loop_args (S : Schema) (filters : List geom_filter) :
    ∀ (funcs : List filter_ref) (o : filter_objects) (funcs2 : List filter_ref)
      (o2 : filter_objects), map_sorted o.arg_filters →
      setup_filters_loop S filters funcs o = some (loop_result.done funcs2 o2) →
      map_sorted o2.arg_filters ∧
      (∀ f ∈ filters, f.type = filter_type.ENTITY_ARG → (make_arg_filter S f).isSome = true) ∧
      ∃ keys : List Str, funcs2 = funcs ++ keys.map filter_ref.arg_filter ∧ keys.Nodup ∧
        (∀ q, q ∈ keys ↔ (q ∈ arg_directives filters ∧ map_find q o.arg_filters = none)) ∧
        (∀ q, map_find q o2.arg_filters = entry_after S filters o.arg_filters q) ∧
        (keys = [] → o2.arg_filters = o.arg_filters) := by
  induction filters with
  | nil =>
    intro funcs o funcs2 o2 hs h
    simp only [setup_filters_loop, Option.some.injEq, loop_result.done.injEq] at h
    obtain ⟨rfl, rfl⟩ := h
    refine ⟨hs, by simp, [], by simp, List.nodup_nil, by simp [arg_directives], ?_, fun _ => rfl⟩
    intro q
    unfold entry_after
    cases map_find q o.arg_filters <;> simp [first_arg_directive]
  | cons f rest ih =>
    intro funcs o funcs2 o2 hs h
    cases ht : f.type with
    | UNUSED =>
      rw [loop_cons_unused S f rest funcs o ht] at h
      have hne : f.type ≠ filter_type.ENTITY_ARG := by simp [ht]
      obtain ⟨h1, h2, keys, h3, h4, h5, h6, h7⟩ := ih funcs o funcs2 o2 hs h
      refine ⟨h1, ?_, keys, h3, h4, ?_, ?_, h7⟩
      · intro g hg hga
        rcases List.mem_cons.1 hg with rfl | hg
        · exact absurd hga hne
        · exact h2 g hg hga
      · rw [arg_directives_cons_other f rest hne]; exact h5
      · intro q
        rw [h6 q]; unfold entry_after
        rw [first_arg_directive_cons_other q f rest (Or.inl hne)]
    | ENTITY_TYPE =>
      rw [loop_cons_entity S f rest funcs o ht] at h
      have hne : f.type ≠ filter_type.ENTITY_ARG := by simp [ht]
      rw [if_neg (by intro hany; rw [if_pos hany] at h; cases h)] at h
      have hih := fun hs2 => ih funcs _ funcs2 o2 hs2 h
      obtain ⟨h1, h2, keys, h3, h4, h5, h6, h7⟩ := hih hs
      refine ⟨h1, ?_, keys, h3, h4, ?_, ?_, h7⟩
      · intro g hg hga
        rcases List.mem_cons.1 hg with rfl | hg
        · exact absurd hga hne
        · exact h2 g hg hga
      · rw [arg_directives_cons_other f rest hne]; exact h5
      · intro q
        rw [h6 q]; unfold entry_after
        rw [first_arg_directive_cons_other q f rest (Or.inl hne)]
    | LAYER_NAME =>
      rw [loop_cons_layer S f rest funcs o ht] at h
      have hne : f.type ≠ filter_type.ENTITY_ARG := by simp [ht]
      cases hp : populate_values f.values [] with
      | none => rw [hp] at h; cases h
      | some vs =>
        rw [hp] at h
        simp only at h
        have hih := fun hs2 => ih funcs _ funcs2 o2 hs2 h
        obtain ⟨h1, h2, keys, h3, h4, h5, h6, h7⟩ := hih hs
        refine ⟨h1, ?_, keys, h3, h4, ?_, ?_, h7⟩
        · intro g hg hga
          rcases List.mem_cons.1 hg with rfl | hg
          · exact absurd hga hne
          · exact h2 g hg hga
        · rw [arg_directives_cons_other f rest hne]; exact h5
        · intro q
          rw [h6 q]; unfold entry_after
          rw [first_arg_directive_cons_other q f rest (Or.inl hne)]
    | ENTITY_ARG =>
      rw [loop_cons_arg S f rest funcs o ht] at h
      cases hc : string_arg_filter.create S f.arg with
      | error e => rw [hc] at h; cases h
      | ok af0 =>
        rw [hc] at h
        cases hm : make_arg_filter S f with
        | none => rw [hm] at h; cases h
        | some af =>
          rw [hm] at h
          simp only at h
          obtain ⟨hins, hfind, _, hsorted⟩ := map_insert_spec f.arg af o.arg_filters hs
          cases hb : (map_insert f.arg af o.arg_filters).2 with
          | true =>
            rw [hb] at h
            simp only [if_true] at h
            have hnone : map_find f.arg o.arg_filters = none := hins.1 hb
            have hfind2 := hfind hb
            obtain ⟨h1, h2, keys, h3, h4, h5, h6, _⟩ := ih _ _ funcs2 o2 hsorted h
            simp only at h5 h6
            refine ⟨h1, ?_, f.arg :: keys, ?_, ?_, ?_, ?_, fun hk => by cases hk⟩
            · intro g hg hga
              rcases List.mem_cons.1 hg with rfl | hg
              · rw [hm]; rfl
              · exact h2 g hg hga
            · rw [h3]; simp
            · refine List.nodup_cons.2 ⟨?_, h4⟩
              intro hk
              have := ((h5 f.arg).1 hk).2
              rw [hfind2 f.arg, if_pos rfl] at this
              cases this
            · intro q
              rw [arg_directives_cons_arg f rest ht, List.mem_cons, List.mem_cons, h5 q,
                hfind2 q]
              by_cases hq : q = f.arg
              · subst hq
                simp [hnone]
              · simp [hq]
            · intro q
              rw [h6 q]
              unfold entry_after
              rw [hfind2 q]
              by_cases hq : q = f.arg
              · subst hq
                rw [if_pos rfl, hnone, first_arg_directive_cons_self f rest ht]
                simp [hm]
              · rw [if_neg hq, first_arg_directive_cons_other q f rest
                  (Or.inr (fun hh => hq hh.symm))]
          | false =>
            rw [hb] at h
            simp only [Bool.false_eq_true, if_false] at h
            have hsome : map_find f.arg o.arg_filters ≠ none := by
              intro hn
              have := hins.2 hn
              rw [hb] at this
              cases this
            have hsame : (map_insert f.arg af o.arg_filters).1 = o.arg_filters :=
              map_insert_not_inserted f.arg af o.arg_filters hb
            rw [hsame] at h
            obtain ⟨h1, h2, keys, h3, h4, h5, h6, h7⟩ := ih _ _ funcs2 o2 hs h
            refine ⟨h1, ?_, keys, h3, h4, ?_, ?_, h7⟩
            · intro g hg hga
              rcases List.mem_cons.1 hg with rfl | hg
              · rw [hm]; rfl
              · exact h2 g hg hga
            · intro q
              rw [arg_directives_cons_arg f rest ht, List.mem_cons, h5 q]
              constructor
              · rintro ⟨ha, hb2⟩
                exact ⟨Or.inr ha, hb2⟩
              · rintro ⟨ha | ha, hb2⟩
                · subst ha
                  exact absurd hb2 hsome
                · exact ⟨ha, hb2⟩
            · intro q
              rw [h6 q]
              unfold entry_after
              cases hq : map_find q o.arg_filters with
              | some v => rfl
              | none =>
                have hne : f.arg ≠ q := by
                  intro hh
                  rw [← hh] at hq
                  exact hsome hq
                simp only
                rw [first_arg_directive_cons_other q f rest (Or.inr hne)]

/-! ### Running `setup_filters` again -/

theorem setup_filters_eq (S : Schema) (filters : List geom_filter) (ext : Str)
    (o : filter_objects) :
    setup_filters S filters ext o =
      match setup_filters_loop S filters [] o with
      | none => none
      | some (loop_result.failed o1) => some ([], o1)
      | some (loop_result.done funcs o1) =>
        match default_entity_filter S ext o1.entity_filter with
        | (ef, some _) => some ([], { o1 with entity_filter := ef })
        | (ef, none) =>
          some (funcs ++ final_refs { o1 with entity_filter := ef },
            { o1 with entity_filter := ef }) := by
  unfold setup_filters
  cases hl : setup_filters_loop S filters [] o with
  | none => rfl
  | some r =>
    cases r with
    | failed o1 => rfl
    | done funcs o1 =>
      simp only
      have hD : default_entity_filter S ext o1.entity_filter =
          (if o1.entity_filter.values.isEmpty then
            if ext = ".svg".toList then
              ({ o1.entity_filter with include_ := true } : entity_filter).populate S
                (set_insert str_lt "IfcSpace".toList [])
            else
              o1.entity_filter.populate S (set_insert str_lt "IfcOpeningElement".toList
                (set_insert str_lt "IfcSpace".toList []))
          else (o1.entity_filter, none)) := rfl
      rw [hD]
      generalize (if o1.entity_filter.values.isEmpty then
            if ext = ".svg".toList then
              ({ o1.entity_filter with include_ := true } : entity_filter).populate S
                (set_insert str_lt "IfcSpace".toList [])
            else
              o1.entity_filter.populate S (set_insert str_lt "IfcOpeningElement".toList
                (set_insert str_lt "IfcSpace".toList []))
          else (o1.entity_filter, none)) = r
      obtain ⟨ef, err⟩ := r
      cases err with
      | some name => rfl
      | none =>
        simp only [final_refs]
        cases o1.layer_filter.values.isEmpty <;> cases ef.values.isEmpty <;> simp

theorem default_entity_filter_of_values (S : Schema) (ext : Str) (e : entity_filter)
    (h : e.values ≠ []) : default_entity_filter S ext e = (e, none) := by
  unfold default_entity_filter
  rw [if_neg (by simpa using h)]

theorem default_entity_filter_description (S : Schema) (ext : Str) (e : entity_filter) :
    (default_entity_filter S ext e).1.description = e.description := by
  unfold default_entity_filter
  split_ifs <;> rfl

theorem default_entity_filter_values (S : Schema) (ext : Str) (e : entity_filter)
    (h : (default_entity_filter S ext e).2 = none) :
    (default_entity_filter S ext e).1.values ≠ [] := by
  unfold default_entity_filter at h ⊢
  by_cases he : e.values.isEmpty = true
  · rw [if_pos he] at h ⊢
    by_cases hx : ext = ".svg".toList
    · rw [if_pos hx] at h ⊢
      exact populate_types_values_ne_nil S _ [] h (Or.inl (by decide))
    · rw [if_neg hx] at h ⊢
      exact populate_types_values_ne_nil S _ [] h (Or.inl (by decide))
  · rw [if_neg he]
    simpa using he

theorem entity_step_description (S : Schema) (e : entity_filter) (f : geom_filter) :
    (entity_step S e f).description = e.description := by
  unfold entity_step
  split_ifs <;> rfl

theorem entity_step_congr (S : Schema) (e e2 : entity_filter) (f : geom_filter)
    (ht : f.type = filter_type.ENTITY_TYPE) (hd : e.description = e2.description) :
    entity_step S e f = entity_step S e2 f := by
  unfold entity_step
  rw [if_pos ht, if_pos ht]
  simp only [entity_filter.populate, hd]

theorem entity_fold_description (S : Schema) (filters : List geom_filter) :
    ∀ e, (entity_fold S filters e).description = e.description := by
  induction filters with
  | nil => intro e; rfl
  | cons f rest ih =>
    intro e
    show (entity_fold S rest (entity_step S e f)).description = e.description
    rw [ih, entity_step_description]

theorem entity_fold_congr (S : Schema) (filters : List geom_filter) :
    ∀ e e2, (∃ f ∈ filters, f.type = filter_type.ENTITY_TYPE) →
      e.description = e2.description → entity_fold S filters e = entity_fold S filters e2 := by
  induction filters with
  | nil => intro e e2 h; simp at h
  | cons f rest ih =>
    intro e e2 h hd
    show entity_fold S rest (entity_step S e f) = entity_fold S rest (entity_step S e2 f)
    by_cases ht : f.type = filter_type.ENTITY_TYPE
    · rw [entity_step_congr S e e2 f ht hd]
    · obtain ⟨g, hg, hgt⟩ := h
      rcases List.mem_cons.1 hg with rfl | hg
      · exact absurd hgt ht
      · apply ih _ _ ⟨g, hg, hgt⟩
        rw [entity_step_description, entity_step_description, hd]

theorem entity_fold_id (S : Schema) (filters : List geom_filter) :
    ∀ e, (∀ f ∈ filters, f.type ≠ filter_type.ENTITY_TYPE) → entity_fold S filters e = e := by
  induction filters with
  | nil => intro e _; rfl
  | cons f rest ih =>
    intro e h
    show entity_fold S rest (entity_step S e f) = e
    have hf := h f (List.mem_cons_self _ _)
    have : entity_step S e f = e := by unfold entity_step; rw [if_neg hf]
    rw [this]
    exact ih e (fun g hg => h g (List.mem_cons_of_mem _ hg))

theorem layer_step_description (l : layer_filter) (f : geom_filter) :
    (layer_step l f).description = l.description := by
  unfold layer_step
  split_ifs
  · cases populate_values f.values [] <;> rfl
  · rfl

theorem layer_step_congr (l l2 : layer_filter) (f : geom_filter)
    (ht : f.type = filter_type.LAYER_NAME) (hp : (populate_values f.values []).isSome = true)
    (hd : l.description = l2.description) :
    layer_step l f = layer_step l2 f := by
  unfold layer_step
  rw [if_pos ht, if_pos ht]
  cases h : populate_values f.values [] with
  | none => rw [h] at hp; cases hp
  | some vs => simp only [hd]

theorem layer_fold_description (filters : List geom_filter) :
    ∀ l, (layer_fold filters l).description = l.description := by
  induction filters with
  | nil => intro l; rfl
  | cons f rest ih =>
    intro l
    show (layer_fold rest (layer_step l f)).description = l.description
    rw [ih, layer_step_description]

theorem layer_fold_congr (S : Schema) (filters : List geom_filter) :
    ∀ l l2, (∀ f ∈ filters, directive_ok S f = true) →
      (∃ f ∈ filters, f.type = filter_type.LAYER_NAME) →
      l.description = l2.description → layer_fold filters l = layer_fold filters l2 := by
  induction filters with
  | nil => intro l l2 _ h; simp at h
  | cons f rest ih =>
    intro l l2 hok h hd
    show layer_fold rest (layer_step l f) = layer_fold rest (layer_step l2 f)
    by_cases ht : f.type = filter_type.LAYER_NAME
    · have hf := hok f (List.mem_cons_self _ _)
      simp only [directive_ok, ht] at hf
      rw [layer_step_congr l l2 f ht hf hd]
    · obtain ⟨g, hg, hgt⟩ := h
      rcases List.mem_cons.1 hg with rfl | hg
      · exact absurd hgt ht
      · apply ih _ _ (fun g hg => hok g (List.mem_cons_of_mem _ hg)) ⟨g, hg, hgt⟩
        rw [layer_step_description, layer_step_description, hd]

theorem layer_fold_id (filters : List geom_filter) :
    ∀ l, (∀ f ∈ filters, f.type ≠ filter_type.LAYER_NAME) → layer_fold filters l = l := by
  induction filters with
  | nil => intro l _; rfl
  | cons f rest ih =>
    intro l h
    show layer_fold rest (layer_step l f) = l
    have hf := h f (List.mem_cons_self _ _)
    have : layer_step l f = l := by unfold layer_step; rw [if_neg hf]
    rw [this]
    exact ih l (fun g hg => h g (List.mem_cons_of_mem _ hg))

/-- What the loop of `setup_filters` does with the entity and layer filters when it
processes every directive. -/
theorem setup_filters_loop_folds (S : Schema) (filters : List geom_filter) :
    ∀ (funcs : List filter_ref) (o : filter_objects) (funcs2 : List filter_ref)
      (o2 : filter_objects),
      setup_filters_loop S filters funcs o = some (loop_result.done funcs2 o2) →
      (∀ f ∈ filters, directive_ok S f = true) ∧
      o2.entity_filter = entity_fold S filters o.entity_filter ∧
      o2.layer_filter = layer_fold filters o.layer_filter := by
  induction filters with
  | nil =>
    intro funcs o funcs2 o2 h
    simp only [setup_filters_loop, Option.some.injEq, loop_result.done.injEq] at h
    obtain ⟨_, rfl⟩ := h
    exact ⟨by simp, rfl, rfl⟩
  | cons f rest ih =>
    intro funcs o funcs2 o2 h
    cases ht : f.type with
    | UNUSED =>
      rw [loop_cons_unused S f rest funcs o ht] at h
      obtain ⟨h1, h2, h3⟩ := ih funcs o funcs2 o2 h
      refine ⟨?_, ?_, ?_⟩
      · intro g hg
        rcases List.mem_cons.1 hg with rfl | hg
        · simp [directive_ok, ht]
        · exact h1 g hg
      · rw [h2]; show _ = entity_fold S rest (entity_step S o.entity_filter f)
        unfold entity_step; rw [if_neg (by simp [ht])]
      · rw [h3]; show _ = layer_fold rest (layer_step o.layer_filter f)
        unfold layer_step; rw [if_neg (by simp [ht])]
    | ENTITY_TYPE =>
      rw [loop_cons_entity S f rest funcs o ht] at h
      have hany : ¬ f.values.any (fun t => (S.FromString (to_upper_copy t)).isNone) = true := by
        intro hany; rw [if_pos hany] at h; cases h
      rw [if_neg hany] at h
      obtain ⟨h1, h2, h3⟩ := ih funcs _ funcs2 o2 h
      refine ⟨?_, ?_, ?_⟩
      · intro g hg
        rcases List.mem_cons.1 hg with rfl | hg
        · simpa [directive_ok, ht] using hany
        · exact h1 g hg
      · rw [h2]; rfl
      · rw [h3]; show _ = layer_fold rest (layer_step o.layer_filter f)
        unfold layer_step; rw [if_neg (by simp [ht])]
    | LAYER_NAME =>
      rw [loop_cons_layer S f rest funcs o ht] at h
      cases hp : populate_values f.values [] with
      | none => rw [hp] at h; cases h
      | some vs =>
        rw [hp] at h
        simp only at h
        obtain ⟨h1, h2, h3⟩ := ih funcs _ funcs2 o2 h
        refine ⟨?_, ?_, ?_⟩
        · intro g hg
          rcases List.mem_cons.1 hg with rfl | hg
          · simp [directive_ok, ht, hp]
          · exact h1 g hg
        · rw [h2]; show _ = entity_fold S rest (entity_step S o.entity_filter f)
          unfold entity_step; rw [if_neg (by simp [ht])]
        · rw [h3]; rfl
    | ENTITY_ARG =>
      rw [loop_cons_arg S f rest funcs o ht] at h
      cases hc : string_arg_filter.create S f.arg with
      | error e => rw [hc] at h; cases h
      | ok af0 =>
        rw [hc] at h
        cases hm : make_arg_filter S f with
        | none => rw [hm] at h; cases h
        | some af =>
          rw [hm] at h
          simp only at h
          obtain ⟨h1, h2, h3⟩ := ih _ _ funcs2 o2 h
          refine ⟨?_, ?_, ?_⟩
          · intro g hg
            rcases List.mem_cons.1 hg with rfl | hg
            · simp [directive_ok, ht, hm]
            · exact h1 g hg
          · rw [h2]; show _ = entity_fold S rest (entity_step S o.entity_filter f)
            unfold entity_step; rw [if_neg (by simp [ht])]
          · rw [h3]; show _ = layer_fold rest (layer_step o.layer_filter f)
            unfold layer_step; rw [if_neg (by simp [ht])]

/-- The loop of `setup_filters` over directives that all pass, started with a map that
already holds every qualifier: no reference is pushed and the map stays as it is. -/
theorem setup_filters_loop_rerun (S : Schema) (filters : List geom_filter) :
    ∀ (funcs : List filter_ref) (o : filter_objects),
      (∀ f ∈ filters, directive_ok S f = true) → map_sorted o.arg_filters →
      (∀ q ∈ arg_directives filters, map_find q o.arg_filters ≠ none) →
      setup_filters_loop S filters funcs o =
        some (loop_result.done funcs
          { entity_filter := entity_fold S filters o.entity_filter,
            layer_filter := layer_fold filters o.layer_filter,
            arg_filters := o.arg_filters }) := by
  induction filters with
  | nil => intro funcs o _ _ _; rfl
  | cons f rest ih =>
    intro funcs o hok hs hq
    have hok2 : ∀ g ∈ rest, directive_ok S g = true :=
      fun g hg => hok g (List.mem_cons_of_mem _ hg)
    have hf := hok f (List.mem_cons_self _ _)
    cases ht : f.type with
    | UNUSED =>
      have hne : f.type ≠ filter_type.ENTITY_ARG := by simp [ht]
      rw [arg_directives_cons_other f rest hne] at hq
      rw [loop_cons_unused S f rest funcs o ht, ih funcs o hok2 hs hq]
      show _ = some (loop_result.done funcs
        { entity_filter := entity_fold S rest (entity_step S o.entity_filter f),
          layer_filter := layer_fold rest (layer_step o.layer_filter f),
          arg_filters := o.arg_filters })
      unfold entity_step layer_step
      rw [if_neg (by simp [ht]), if_neg (by simp [ht])]
    | ENTITY_TYPE =>
      have hne : f.type ≠ filter_type.ENTITY_ARG := by simp [ht]
      rw [arg_directives_cons_other f rest hne] at hq
      simp only [directive_ok, ht, Bool.not_eq_true', ] at hf
      rw [loop_cons_entity S f rest funcs o ht, hf, if_neg (by simp),
        ih funcs { entity_filter := entity_step S o.entity_filter f,
                   layer_filter := o.layer_filter, arg_filters := o.arg_filters } hok2 hs hq]
      show _ = some (loop_result.done funcs
        { entity_filter := entity_fold S rest (entity_step S o.entity_filter f),
          layer_filter := layer_fold rest (layer_step o.layer_filter f),
          arg_filters := o.arg_filters })
      simp only
      unfold layer_step
      rw [if_neg (by simp [ht])]
    | LAYER_NAME =>
      have hne : f.type ≠ filter_type.ENTITY_ARG := by simp [ht]
      rw [arg_directives_cons_other f rest hne] at hq
      simp only [directive_ok, ht] at hf
      rw [loop_cons_layer S f rest funcs o ht]
      cases hp : populate_values f.values [] with
      | none => rw [hp] at hf; cases hf
      | some vs =>
        simp only
        rw [ih funcs { entity_filter := o.entity_filter,
                       layer_filter := layer_step o.layer_filter f,
                       arg_filters := o.arg_filters } hok2 hs hq]
        show _ = some (loop_result.done funcs
          { entity_filter := entity_fold S rest (entity_step S o.entity_filter f),
            layer_filter := layer_fold rest (layer_step o.layer_filter f),
            arg_filters := o.arg_filters })
        simp only
        unfold entity_step
        rw [if_neg (by simp [ht])]
    | ENTITY_ARG =>
      rw [arg_directives_cons_arg f rest ht] at hq
      simp only [directive_ok, ht] at hf
      rw [loop_cons_arg S f rest funcs o ht]
      cases hm : make_arg_filter S f with
      | none => rw [hm] at hf; cases hf
      | some af =>
        cases hc : string_arg_filter.create S f.arg with
        | error e => simp [make_arg_filter, hc] at hm
        | ok af0 =>
          simp only
          have hfalse : (map_insert f.arg af o.arg_filters).2 = false := by
            cases hb : (map_insert f.arg af o.arg_filters).2 with
            | false => rfl
            | true =>
              exact absurd ((map_insert_spec f.arg af o.arg_filters hs).1.1 hb)
                (hq f.arg (List.mem_cons_self _ _))
          rw [hfalse, map_insert_not_inserted f.arg af o.arg_filters hfalse]
          simp only [Bool.false_eq_true, if_false]
          rw [ih funcs o hok2 hs (fun q hq2 => hq q (List.mem_cons_of_mem _ hq2))]
          show _ = some (loop_result.done funcs
            { entity_filter := entity_fold S rest (entity_step S o.entity_filter f),
              layer_filter := layer_fold rest (layer_step o.layer_filter f),
              arg_filters := o.arg_filters })
          unfold entity_step layer_step
          rw [if_neg (by simp [ht]), if_neg (by simp [ht])]

/-! ### The compiled patterns of a filter -/

theorem regex_compile_str {s : Str} {r : regex} (h : regex.compile s = some r) : r.str = s := by
  unfold regex.compile at h
  cases hs : regex_steps {} s with
  | none => rw [hs] at h; cases h
  | some st =>
    rw [hs] at h
    simp only at h
    cases hf : regex_finish st with
    | none => rw [hf] at h; cases h
    | some items =>
      rw [hf] at h
      simp only [Option.some.injEq] at h
      rw [← h]

theorem wildcard_regex_compiled {p : Str} {r : regex}
    (h : wildcard_string_to_regex p = some r) : regex.compile r.str = some r := by
  unfold wildcard_string_to_regex at h
  rw [regex_compile_str h]
  exact h

theorem mem_set_insert_regex (x r : regex) (vs : List regex)
    (hvs : ∀ v ∈ vs, regex.compile v.str = some v) (hr : regex.compile r.str = some r) :
    x ∈ set_insert regex_lt r vs ↔ x = r ∨ x ∈ vs := by
  induction vs with
  | nil => simp [set_insert]
  | cons y ys ih =>
    have ih2 := ih (fun v hv => hvs v (List.mem_cons_of_mem _ hv))
    unfold set_insert
    by_cases h1 : regex_lt r y = true
    · rw [if_pos h1]
      simp only [List.mem_cons]
    · rw [if_neg h1]
      by_cases h2 : regex_lt y r = true
      · rw [if_pos h2]
        simp only [List.mem_cons, ih2]
        tauto
      · rw [if_neg h2]
        have hstr : r.str = y.str :=
          str_lt_trichotomy (Bool.not_eq_true _ ▸ h1) (Bool.not_eq_true _ ▸ h2)
        have hy := hvs y (List.mem_cons_self _ _)
        rw [hstr, hy] at hr
        simp only [Option.some.injEq] at hr
        subst hr
        simp only [List.mem_cons]
        tauto

/-- The loop of `wildcard_filter::populate` stores the compiled expression of every
pattern, and nothing else. -/
theorem populate_values_mem (ps : List Str) :
    ∀ (vs out : List regex), populate_values ps vs = some out →
      (∀ v ∈ vs, regex.compile v.str = some v) →
      (∀ r, r ∈ out ↔ (r ∈ vs ∨ ∃ p ∈ ps, wildcard_string_to_regex p = some r)) ∧
      (∀ p ∈ ps, (wildcard_string_to_regex p).isSome = true) := by
  induction ps with
  | nil =>
    intro vs out h _
    simp only [populate_values, Option.some.injEq] at h
    subst h
    simp
  | cons p rest ih =>
    intro vs out h hvs
    cases hp : wildcard_string_to_regex p with
    | none => simp [populate_values, hp] at h
    | some r0 =>
      simp only [populate_values, hp] at h
      have hr0 := wildcard_regex_compiled hp
      have hvs2 : ∀ v ∈ set_insert regex_lt r0 vs, regex.compile v.str = some v := by
        intro v hv
        rcases (mem_set_insert_regex v r0 vs hvs hr0).1 hv with rfl | hv
        · exact hr0
        · exact hvs v hv
      obtain ⟨h1, h2⟩ := ih _ out h hvs2
      constructor
      · intro r
        rw [h1 r, mem_set_insert_regex r r0 vs hvs hr0]
        constructor
        · rintro ((rfl | hr) | ⟨q, hq, hqr⟩)
          · exact Or.inr ⟨p, List.mem_cons_self _ _, hp⟩
          · exact Or.inl hr
          · exact Or.inr ⟨q, List.mem_cons_of_mem _ hq, hqr⟩
        · rintro (hr | ⟨q, hq, hqr⟩)
          · exact Or.inl (Or.inr hr)
          · rcases List.mem_cons.1 hq with rfl | hq
            · rw [hp] at hqr
              simp only [Option.some.injEq] at hqr
              exact Or.inl (Or.inl hqr.symm)
            · exact Or.inr ⟨q, hq, hqr⟩
      · intro q hq
        rcases List.mem_cons.1 hq with rfl | hq
        · rw [hp]; rfl
        · exact h2 q hq

/-- The attribute filter that the loop of `setup_filters` builds for an attribute
directive: the filter that the constructor makes of the qualifier, with the flags of the
directive and with the compiled expressions of exactly its patterns. -/
theorem make_arg_filter_content (S : Schema) (f : geom_filter) (af : string_arg_filter)
    (h : make_arg_filter S f = some af) :
    (∃ base, string_arg_filter.create S f.arg = Except.ok base ∧ af.type = base.type ∧
      af.arg_index = base.arg_index ∧ af.arg_name = base.arg_name) ∧
    af.include_ = f.include_ ∧ af.traverse = f.traverse ∧
    (∀ p ∈ f.values, (wildcard_string_to_regex p).isSome = true) ∧
    (∀ r, r ∈ af.values ↔ ∃ p ∈ f.values, wildcard_string_to_regex p = some r) ∧
    (∀ s, af.match_str s = true ↔
      ∃ p ∈ f.values, ∃ r, wildcard_string_to_regex p = some r ∧ regex_match s r = true) := by
  unfold make_arg_filter at h
  cases hc : string_arg_filter.create S f.arg with
  | error e => rw [hc] at h; cases h
  | ok af0 =>
    rw [hc] at h
    cases hp : populate_values f.values [] with
    | none => rw [hp] at h; cases h
    | some vs =>
      rw [hp] at h
      simp only [Option.some.injEq] at h
      subst h
      obtain ⟨h1, h2⟩ := populate_values_mem f.values [] vs hp (by simp)
      have hmem : ∀ r, r ∈ vs ↔ ∃ p ∈ f.values, wildcard_string_to_regex p = some r := by
        intro r
        rw [h1 r]
        simp
      refine ⟨⟨af0, rfl, rfl, rfl, rfl⟩, rfl, rfl, h2, hmem, ?_⟩
      intro s
      show match_values vs s = true ↔ _
      rw [match_values_iff]
      constructor
      · rintro ⟨r, hr, hm⟩
        obtain ⟨p, hp2, hpr⟩ := (hmem r).1 hr
        exact ⟨p, hp2, r, hpr, hm⟩
      · rintro ⟨p, hp2, r, hpr, hm⟩
        exact ⟨r, (hmem r).2 ⟨p, hp2, hpr⟩, hm⟩

/-! ### One attribute predicate for each qualifier -/

theorem first_arg_directive_spec (q : Str) (filters : List geom_filter) :
    q ∈ arg_directives filters →
      ∃ f, first_arg_directive q filters = some f ∧ f ∈ filters ∧
        f.type = filter_type.ENTITY_ARG ∧ f.arg = q := by
  induction filters with
  | nil => intro h; simp [arg_directives] at h
  | cons f rest ih =>
    intro h
    by_cases ht : f.type = filter_type.ENTITY_ARG
    · by_cases ha : f.arg = q
      · subst ha
        exact ⟨f, first_arg_directive_cons_self f rest ht, List.mem_cons_self _ _, ht, rfl⟩
      · rw [arg_directives_cons_arg f rest ht] at h
        rcases List.mem_cons.1 h with h | h
        · exact absurd h.symm ha
        · obtain ⟨g, h1, h2, h3, h4⟩ := ih h
          exact ⟨g, by rw [first_arg_directive_cons_other q f rest (Or.inr ha)]; exact h1,
            List.mem_cons_of_mem _ h2, h3, h4⟩
    · rw [arg_directives_cons_other f rest ht] at h
      obtain ⟨g, h1, h2, h3, h4⟩ := ih h
      exact ⟨g, by rw [first_arg_directive_cons_other q f rest (Or.inl ht)]; exact h1,
        List.mem_cons_of_mem _ h2, h3, h4⟩

theorem make_arg_filter_spec (S : Schema) (f : geom_filter) (af : string_arg_filter)
    (h : make_arg_filter S f = some af) :
    populate_values f.values [] = some af.values ∧ af.include_ = f.include_ ∧
      af.traverse = f.traverse := by
  unfold make_arg_filter at h
  cases hc : string_arg_filter.create S f.arg with
  | error e => rw [hc] at h; cases h
  | ok af0 =>
    rw [hc] at h
    cases hp : populate_values f.values [] with
    | none => rw [hp] at h; cases h
    | some vs =>
      rw [hp] at h
      simp only [Option.some.injEq] at h
      subst h
      exact ⟨rfl, rfl, rfl⟩

theorem attribute_keys_final_refs (o : filter_objects) : attribute_keys (final_refs o) = [] := by
  unfold final_refs attribute_keys
  split_ifs <;> simp [filter_ref.key]

theorem attribute_keys_append (keys : List Str) (refs : List filter_ref) :
    attribute_keys (keys.map filter_ref.arg_filter ++ refs) = keys ++ attribute_keys refs := by
  induction keys with
  | nil => rfl
  | cons k rest ih =>
    show attribute_keys (filter_ref.arg_filter k :: (rest.map filter_ref.arg_filter ++ refs)) = _
    unfold attribute_keys at ih ⊢
    rw [List.filterMap_cons_some (show filter_ref.key (filter_ref.arg_filter k) = some k from rfl),
      ih]
    rfl

/-- The shape of a successful call of `setup_filters`. -/
theorem setup_filters_success (S : Schema) (filters : List geom_filter) (ext : Str)
    (o o1 : filter_objects) (refs : List filter_ref)
    (h : setup_filters S filters ext o = some (refs, o1)) (hne : refs ≠ []) :
    ∃ funcs oL ef, setup_filters_loop S filters [] o = some (loop_result.done funcs oL) ∧
      default_entity_filter S ext oL.entity_filter = (ef, none) ∧
      o1 = { oL with entity_filter := ef } ∧ refs = funcs ++ final_refs o1 := by
  rw [setup_filters_eq] at h
  cases hl : setup_filters_loop S filters [] o with
  | none => rw [hl] at h; cases h
  | some r =>
    cases r with
    | failed o2 =>
      rw [hl] at h
      simp only [Option.some.injEq, Prod.mk.injEq] at h
      exact absurd h.1.symm hne
    | done funcs oL =>
      rw [hl] at h
      simp only at h
      cases hD : default_entity_filter S ext oL.entity_filter with
      | mk ef err =>
        rw [hD] at h
        cases err with
        | some name =>
          simp only [Option.some.injEq, Prod.mk.injEq] at h
          exact absurd h.1.symm hne
        | none =>
          simp only [Option.some.injEq, Prod.mk.injEq] at h
          obtain ⟨h1, h2⟩ := h
          exact ⟨funcs, oL, ef, rfl, hD, h2.symm, by rw [← h2]; exact h1.symm⟩

/-- Claim C11: when `setup_filters` is called with an empty attribute-filter map and
succeeds, the returned list holds exactly one attribute predicate for each distinct
qualifier among the attribute directives: the qualifiers of the attribute predicates are
pairwise different and are exactly the qualifiers of the attribute directives, and the
predicate of a qualifier is the filter built from an attribute directive with that very
qualifier (the first one).  That predicate is what the constructor makes of the
qualifier, it has the flags of the directive, and its pattern set holds the compiled
expression of every pattern of the directive and nothing else, so that it matches a
string exactly when the expression of one of these patterns does.  In particular the
predicate of a directive whose qualifier no other attribute directive carries is the
filter built from that directive alone. -/
theorem setup_filters_attribute_predicates (S : Schema) (filters : List geom_filter)
    (ext : Str) (o o2 : filter_objects) (refs : List filter_ref)
    (hempty : o.arg_filters = [])
    (h : setup_filters S filters ext o = some (refs, o2)) (hne : refs ≠ []) :
    (attribute_keys refs).Nodup ∧
    (∀ q, q ∈ attribute_keys refs ↔ q ∈ arg_directives filters) ∧
    (∀ q ∈ arg_directives filters, ∃ f af, first_arg_directive q filters = some f ∧
      f ∈ filters ∧ f.type = filter_type.ENTITY_ARG ∧ f.arg = q ∧
      map_find q o2.arg_filters = some af ∧ make_arg_filter S f = some af ∧
      populate_values f.values [] = some af.values) ∧
    (∀ f ∈ filters, f.type = filter_type.ENTITY_ARG →
      (∀ g ∈ filters, g.type = filter_type.ENTITY_ARG → g.arg = f.arg → g = f) →
      map_find f.arg o2.arg_filters = make_arg_filter S f) ∧
    (∀ q ∈ arg_directives filters, ∃ f af, first_arg_directive q filters = some f ∧
      map_find q o2.arg_filters = some af ∧
      filter_ref.arg_filter q ∈ refs ∧
      (∀ (K : Kernel) (fuel : Nat) (prod : IfcProduct),
        (filter_ref.arg_filter q).call S K o2 fuel prod = af.call S K fuel prod) ∧
      (∃ base, string_arg_filter.create S q = Except.ok base ∧ af.type = base.type ∧
        af.arg_index = base.arg_index ∧ af.arg_name = base.arg_name) ∧
      af.include_ = f.include_ ∧ af.traverse = f.traverse ∧
      (∀ p ∈ f.values, (wildcard_string_to_regex p).isSome = true) ∧
      (∀ r, r ∈ af.values ↔ ∃ p ∈ f.values, wildcard_string_to_regex p = some r) ∧
      (∀ s, af.match_str s = true ↔
        ∃ p ∈ f.values, ∃ r, wildcard_string_to_regex p = some r ∧
          regex_match s r = true)) := by
  obtain ⟨funcs, oL, ef, hl, _, ho, hrefs⟩ := setup_filters_success S filters ext o o2 refs h hne
  have hs : map_sorted o.arg_filters := by
    rw [hempty]; exact List.sorted_nil
  obtain ⟨_, hmake, keys, hfuncs, hnodup, hmem, hfind, _⟩ :=
    setup_filters_loop_args S filters [] o funcs oL hs hl
  have hkeys : attribute_keys refs = keys := by
    rw [hrefs, hfuncs, List.nil_append, attribute_keys_append, attribute_keys_final_refs,
      List.append_nil]
  have hargs : o2.arg_filters = oL.arg_filters := by rw [ho]
  have hentry : ∀ q ∈ arg_directives filters, ∃ f af, first_arg_directive q filters = some f ∧
      f ∈ filters ∧ f.type = filter_type.ENTITY_ARG ∧ f.arg = q ∧
      map_find q o2.arg_filters = some af ∧ make_arg_filter S f = some af ∧
      populate_values f.values [] = some af.values := by
    intro q hq
    obtain ⟨f, h1, h2, h3, h4⟩ := first_arg_directive_spec q filters hq
    have h5 := hmake f h2 h3
    cases hm : make_arg_filter S f with
    | none => rw [hm] at h5; cases h5
    | some af =>
      refine ⟨f, af, h1, h2, h3, h4, ?_, hm, (make_arg_filter_spec S f af hm).1⟩
      rw [hargs, hfind q]
      unfold entry_after
      rw [hempty]
      simp only [map_find, h1, Option.some_bind, hm]
  refine ⟨by rw [hkeys]; exact hnodup, ?_, hentry, ?_, ?_⟩
  · intro q
    rw [hkeys, hmem q, hempty]
    simp [map_find]
  · intro f hf ht huniq
    have hq : f.arg ∈ arg_directives filters := by
      unfold arg_directives
      exact List.mem_map.2 ⟨f, List.mem_filter.2 ⟨hf, by simp [ht]⟩, rfl⟩
    obtain ⟨g, af, _, h2, h3, h4, h5, h6, _⟩ := hentry f.arg hq
    rw [h5, ← huniq g h2 h3 h4, h6]
  · intro q hq
    obtain ⟨f, af, h1, _, _, h4, h5, h6, _⟩ := hentry q hq
    obtain ⟨hbase, hinc, htrav, hcomp, hvals, hmatch⟩ := make_arg_filter_content S f af h6
    rw [h4] at hbase
    refine ⟨f, af, h1, h5, ?_, ?_, hbase, hinc, htrav, hcomp, hvals, hmatch⟩
    · have hqk : q ∈ keys := by
        rw [hmem q, hempty]
        exact ⟨hq, by simp [map_find]⟩
      rw [hrefs, hfuncs, List.nil_append]
      exact List.mem_append_left _ (List.mem_map_of_mem _ hqk)
    · intro K fuel prod
      simp only [filter_ref.call, h5]

/-- Witness of `setup_filters_attribute_predicates`: the directives
`--include=arg IfcDoor.Name D*` and `--exclude=arg IfcWindow.Name W*` are not merged; the
predicate of the first holds the expression of `D*` alone, that of the second the
expression of `W*` alone. -/
theorem setup_filters_attribute_predicates_witness :
    ((({} : filter_objects).arg_filters = [] ∧
      setup_filters example_schema [include_door_name, exclude_window_name] ".obj".toList {} =
        some (two_qualifiers_setup.1, two_qualifiers_setup.2) ∧
      two_qualifiers_setup.1 ≠ []) ∧
     attribute_keys two_qualifiers_setup.1 = ["IfcDoor.Name".toList, "IfcWindow.Name".toList] ∧
     (map_find "IfcDoor.Name".toList two_qualifiers_setup.2.arg_filters).map
         (fun af => (af.include_, af.values)) =
       (wildcard_string_to_regex "D*".toList).map (fun r => (true, [r])) ∧
     (map_find "IfcWindow.Name".toList two_qualifiers_setup.2.arg_filters).map
         (fun af => (af.include_, af.values)) =
       (wildcard_string_to_regex "W*".toList).map (fun r => (false, [r])) ∧
     (wildcard_string_to_regex "D*".toList).map (fun r => regex_match "Door 1".toList r) =
       some true ∧
     (wildcard_string_to_regex "W*".toList).map (fun r => regex_match "Door 1".toList r) =
       some false) ∧
    ((attribute_keys two_qualifiers_setup.1).Nodup ∧
    (∀ q, q ∈ attribute_keys two_qualifiers_setup.1 ↔
      q ∈ arg_directives [include_door_name, exclude_window_name]) ∧
    (∀ q ∈ arg_directives [include_door_name, exclude_window_name],
      ∃ f af, first_arg_directive q [include_door_name, exclude_window_name] = some f ∧
      f ∈ [include_door_name, exclude_window_name] ∧ f.type = filter_type.ENTITY_ARG ∧
      f.arg = q ∧ map_find q two_qualifiers_setup.2.arg_filters = some af ∧
      make_arg_filter example_schema f = some af ∧
      populate_values f.values [] = some af.values) ∧
    (∀ f ∈ [include_door_name, exclude_window_name], f.type = filter_type.ENTITY_ARG →
      (∀ g ∈ [include_door_name, exclude_window_name], g.type = filter_type.ENTITY_ARG →
        g.arg = f.arg → g = f) →
      map_find f.arg two_qualifiers_setup.2.arg_filters = make_arg_filter example_schema f) ∧
    (∀ q ∈ arg_directives [include_door_name, exclude_window_name],
      ∃ f af, first_arg_directive q [include_door_name, exclude_window_name] = some f ∧
      map_find q two_qualifiers_setup.2.arg_filters = some af ∧
      filter_ref.arg_filter q ∈ two_qualifiers_setup.1 ∧
      (∀ (K : Kernel) (fuel : Nat) (prod : IfcProduct),
        (filter_ref.arg_filter q).call example_schema K two_qualifiers_setup.2 fuel prod =
          af.call example_schema K fuel prod) ∧
      (∃ base, string_arg_filter.create example_schema q = Except.ok base ∧
        af.type = base.type ∧ af.arg_index = base.arg_index ∧
        af.arg_name = base.arg_name) ∧
      af.include_ = f.include_ ∧ af.traverse = f.traverse ∧
      (∀ p ∈ f.values, (wildcard_string_to_regex p).isSome = true) ∧
      (∀ r, r ∈ af.values ↔ ∃ p ∈ f.values, wildcard_string_to_regex p = some r) ∧
      (∀ s, af.match_str s = true ↔
        ∃ p ∈ f.values, ∃ r, wildcard_string_to_regex p = some r ∧
          regex_match s r = true))) :=
  ⟨⟨⟨rfl, by decide, by decide⟩, by decide, by decide, by decide, by decide, by decide⟩,
    setup_filters_attribute_predicates example_schema [include_door_name, exclude_window_name]
      ".obj".toList {} two_qualifiers_setup.2 two_qualifiers_setup.1 rfl (by decide)
      (by decide)⟩

/-! ### Lines of a filter file -/

theorem accumulators_set_get (acc : filter_accumulators) (i : accumulator_id) :
    acc.set i (acc.get i) = acc := by
  cases i <;> rfl

theorem append_filter_rejected {type : Str} {values : List Str} {filter f : geom_filter}
    (h : append_filter type values filter = Except.ok (false, f)) : f = filter := by
  unfold append_filter at h
  cases hp : parse_filter {} values with
  | error e => rw [hp] at h; cases h
  | ok temp =>
    rw [hp] at h
    simp only at h
    split_ifs at h with hc
    · simp only [Except.ok.injEq, Prod.mk.injEq, true_and] at h
      exact h.symm
    · simp at h

theorem append_filter_of_parse_error {type : Str} {values : List Str} {filter : geom_filter}
    {e : parse_failure} (h : parse_filter {} values = Except.error e) :
    append_filter type values filter = Except.error e := by
  unfold append_filter
  rw [h]

theorem append_filter_of_parse_ok {type : Str} {values : List Str} (filter : geom_filter)
    {temp : geom_filter} (h : parse_filter {} values = Except.ok temp) :
    ∃ b f, append_filter type values filter = Except.ok (b, f) := by
  unfold append_filter
  rw [h]
  simp only
  split_ifs
  · exact ⟨_, _, rfl⟩
  · exact ⟨_, _, rfl⟩

theorem read_line_rejected {line : Str} {acc : filter_accumulators}
    (h : merge_rejected line acc = true) (n : Nat) :
    read_line line n acc = line_result.next n acc := by
  cases hs : split_line line with
  | none => simp [merge_rejected, hs] at h
  | some tv =>
    obtain ⟨type, values⟩ := tv
    cases hi : select_accumulator type with
    | none => simp [merge_rejected, hs, hi] at h
    | some i =>
      cases ha : append_filter type values (acc.get i) with
      | error e => simp [merge_rejected, hs, hi, ha] at h
      | ok bf =>
        obtain ⟨b, f⟩ := bf
        cases b with
        | true => simp [merge_rejected, hs, hi, ha] at h
        | false =>
          have hf := append_filter_rejected ha
          simp only [read_line, hs, hi, ha, hf, accumulators_set_get]

theorem read_line_valid {line : Str} (h : line_valid line = true) (n : Nat)
    (acc : filter_accumulators) :
    read_line line n acc =
      line_result.next (n + if merge_succeeds line acc then 1 else 0)
        (accumulators_after line acc) := by
  cases hs : split_line line with
  | none => simp [read_line, accumulators_after, merge_succeeds, hs]
  | some tv =>
    obtain ⟨type, values⟩ := tv
    cases hi : select_accumulator type with
    | none => simp [line_valid, hs, hi] at h
    | some i =>
      cases hp : parse_filter {} values with
      | error e => simp [line_valid, hs, hi, hp] at h
      | ok temp =>
        obtain ⟨b, f, ha⟩ := @append_filter_of_parse_ok type values (acc.get i) temp hp
        cases b <;> simp [read_line, accumulators_after, merge_succeeds, hs, hi, ha]

theorem read_line_fails {line : Str} (h : line_fails line = true) (n : Nat)
    (acc : filter_accumulators) : read_line line n acc = line_result.return_zero := by
  cases hs : split_line line with
  | none => simp [line_fails, hs] at h
  | some tv =>
    obtain ⟨type, values⟩ := tv
    cases hi : select_accumulator type with
    | none => simp [read_line, hs, hi]
    | some i =>
      cases hp : parse_filter {} values with
      | ok temp => simp [line_fails, hs, hi, hp] at h
      | error e =>
        have ha := @append_filter_of_parse_error type values (acc.get i) e hp
        cases e with
        | at_least_one_value_required => simp [read_line, hs, hi, ha]
        | invalid_option_value => simp [read_line, hs, hi, ha]
        | past_the_end => simp [line_fails, hs, hi, hp] at h

theorem read_lines_valid (pre : List Str) (hpre : ∀ l ∈ pre, line_valid l = true) :
    ∀ (n : Nat) (acc : filter_accumulators), ∃ acc2,
      read_lines pre n acc = some (n + merged_lines pre acc, acc2) ∧
      ∀ rest, read_lines (pre ++ rest) n acc = read_lines rest (n + merged_lines pre acc) acc2 := by
  induction pre with
  | nil => intro n acc; exact ⟨acc, rfl, fun _ => rfl⟩
  | cons l ls ih =>
    intro n acc
    have hl := hpre l (List.mem_cons_self _ _)
    have hls : ∀ x ∈ ls, line_valid x = true := fun x hx => hpre x (List.mem_cons_of_mem _ hx)
    obtain ⟨acc2, h1, h2⟩ := ih hls (n + if merge_succeeds l acc then 1 else 0)
      (accumulators_after l acc)
    refine ⟨acc2, ?_, ?_⟩
    · simp only [read_lines, read_line_valid hl, merged_lines, h1]
      rw [Nat.add_assoc]
    · intro rest
      have h3 := h2 rest
      rw [Nat.add_assoc] at h3
      simpa only [List.cons_append, read_lines, read_line_valid hl, merged_lines] using h3

/-- Claim C13: whenever `append_filter` returns false the accumulator is exactly what it
was before the call.  In `read_filters_from_file` a line whose merge is rejected leaves
the count and the accumulators as they were and the loop goes on with the lines after
it; the line does not count as merged, and the count returned for a file of valid lines
is the number of lines whose merge succeeded. -/
theorem rejected_merge_is_dropped (line : Str) (acc : filter_accumulators)
    (hrej : merge_rejected line acc = true) :
    (∀ (type : Str) (values : List Str) (filter f : geom_filter),
      append_filter type values filter = Except.ok (false, f) → f = filter) ∧
    (∀ (n : Nat) (rest : List Str),
      read_line line n acc = line_result.next n acc ∧
      read_lines (line :: rest) n acc = read_lines rest n acc) ∧
    merge_succeeds line acc = false ∧
    (∀ (lines : List Str) (acc0 : filter_accumulators),
      (∀ l ∈ lines, line_valid l = true) →
      ∃ acc2, read_filters_from_file (some lines) acc0 =
        some (merged_lines lines acc0, acc2)) := by
  refine ⟨fun _ _ _ _ h => append_filter_rejected h, ?_, ?_, ?_⟩
  · intro n rest
    refine ⟨read_line_rejected hrej n, ?_⟩
    simp only [read_lines, read_line_rejected hrej n]
  · cases hs : split_line line with
    | none => simp [merge_succeeds, hs]
    | some tv =>
      obtain ⟨type, values⟩ := tv
      cases hi : select_accumulator type with
      | none => simp [merge_succeeds, hs, hi]
      | some i =>
        cases ha : append_filter type values (acc.get i) with
        | error e => simp [merge_succeeds, hs, hi, ha]
        | ok bf =>
          obtain ⟨b, f⟩ := bf
          cases b with
          | true => simp [merge_rejected, hs, hi, ha] at hrej
          | false => simp [merge_succeeds, hs, hi, ha]
  · intro lines acc0 hv
    obtain ⟨acc2, h1, _⟩ := read_lines_valid lines hv 0 acc0
    exact ⟨acc2, by simpa [read_filters_from_file] using h1⟩

/-- Witness of `rejected_merge_is_dropped`: after `include layers North*`, the line
`include entities IfcWall` is rejected by the include accumulator. -/
theorem rejected_merge_is_dropped_witness :
    merge_rejected "include entities IfcWall".toList north_accumulators = true ∧
    (∀ (type : Str) (values : List Str) (filter f : geom_filter),
      append_filter type values filter = Except.ok (false, f) → f = filter) ∧
    (∀ (n : Nat) (rest : List Str),
      read_line "include entities IfcWall".toList n north_accumulators =
        line_result.next n north_accumulators ∧
      read_lines ("include entities IfcWall".toList :: rest) n north_accumulators =
        read_lines rest n north_accumulators) ∧
    merge_succeeds "include entities IfcWall".toList north_accumulators = false ∧
    (∀ (lines : List Str) (acc0 : filter_accumulators),
      (∀ l ∈ lines, line_valid l = true) →
      ∃ acc2, read_filters_from_file (some lines) acc0 =
        some (merged_lines lines acc0, acc2)) :=
  ⟨by decide,
    rejected_merge_is_dropped "include entities IfcWall".toList north_accumulators (by decide)⟩

/-- Counterexample to claim C14: the token list with the single token "arg" is not empty
and its first token is a subkind, but there is no second token to take the qualifier
from: `parse_filter` dereferences `values.begin() + 1`, the end of the vector, and
produces no directive. -/
theorem parse_filter_arg_alone :
    parse_filter {} ["arg".toList] = Except.error parse_failure.past_the_end := by
  decide

theorem parse_filter_values_of_ok {filter f : geom_filter} {values : List Str}
    (h : parse_filter filter values = Except.ok f) :
    f.include_ = filter.include_ ∧ f.traverse = filter.traverse ∧
    (f.type ≠ filter_type.ENTITY_ARG → f.arg = filter.arg) ∧
    f.values = set_insert_range
      (values.drop (if f.type = filter_type.ENTITY_ARG then 2 else 1)) filter.values ∧
    (f.type = filter_type.ENTITY_ARG →
      ∃ q rest, values = "arg".toList :: q :: rest ∧ f.arg = q) := by
  cases values with
  | nil => simp [parse_filter] at h
  | cons t rest =>
    by_cases h1 : t = "entities".toList
    · subst h1
      simp [parse_filter] at h
      subst h
      simp
    by_cases h2 : t = "layers".toList
    · subst h2
      have hne : "layers".toList ≠ "entities".toList := by decide
      simp [parse_filter] at h
      subst h
      simp
    by_cases h3 : t = "arg".toList
    · subst h3
      cases rest with
      | nil => simp [parse_filter] at h
      | cons q rest2 =>
        simp [parse_filter] at h
        subst h
        simp
    · have h1b := h1
      have h2b := h2
      have h3b := h3
      simp at h1b h2b h3b
      simp [parse_filter, h1b, h2b, h3b] at h

/-- Claim C14, amended: `parse_filter` throws on the empty token list and on a list whose
first token is none of "entities", "layers", "arg".  For "entities" and "layers", and
for "arg" followed by at least a second token, it produces one directive of the kind
Type, Layer, Attribute respectively; the qualifier is the second token for "arg" and is
left as it was otherwise; the remaining tokens (from the second on, or from the third
for "arg") are inserted into the pattern set, and the include and traverse flags are
untouched. -/
theorem parse_filter_spec (filter : geom_filter) :
    parse_filter filter [] = Except.error parse_failure.at_least_one_value_required ∧
    (∀ (t : Str) (rest : List Str), t ≠ "entities".toList → t ≠ "layers".toList →
      t ≠ "arg".toList →
      parse_filter filter (t :: rest) = Except.error parse_failure.invalid_option_value) ∧
    (∀ rest : List Str, parse_filter filter ("entities".toList :: rest) =
      Except.ok { filter with
        type := filter_type.ENTITY_TYPE
        values := set_insert_range rest filter.values }) ∧
    (∀ rest : List Str, parse_filter filter ("layers".toList :: rest) =
      Except.ok { filter with
        type := filter_type.LAYER_NAME
        values := set_insert_range rest filter.values }) ∧
    (∀ (q : Str) (rest : List Str), parse_filter filter ("arg".toList :: q :: rest) =
      Except.ok { filter with
        type := filter_type.ENTITY_ARG
        arg := q
        values := set_insert_range rest filter.values }) ∧
    (∀ (values : List Str) (f : geom_filter), parse_filter filter values = Except.ok f →
      f.include_ = filter.include_ ∧ f.traverse = filter.traverse ∧
      (f.type ≠ filter_type.ENTITY_ARG → f.arg = filter.arg) ∧
      ∀ p, p ∈ f.values ↔ (p ∈ filter.values ∨
        p ∈ values.drop (if f.type = filter_type.ENTITY_ARG then 2 else 1))) := by
  refine ⟨by simp [parse_filter], ?_, ?_, ?_, ?_, ?_⟩
  · intro t rest h1 h2 h3
    simp at h1 h2 h3
    simp [parse_filter, h1, h2, h3]
  · intro rest
    simp [parse_filter]
  · intro rest
    have hne : "layers".toList ≠ "entities".toList := by decide
    simp [parse_filter, hne]
  · intro q rest
    have hne1 : "arg".toList ≠ "entities".toList := by decide
    have hne2 : "arg".toList ≠ "layers".toList := by decide
    simp [parse_filter, hne1, hne2]
  · intro values f h
    obtain ⟨h1, h2, h3, h4, _⟩ := parse_filter_values_of_ok h
    refine ⟨h1, h2, h3, fun p => ?_⟩
    rw [h4, mem_set_insert_range]

/-- Counterexample to claim C15: `parse_filter` accepts the token list with the single
token "entities" and produces a Type directive with an empty pattern set; and
`append_filter` merges the tokens "arg", "Name" into an Attribute directive without a
pattern. -/
theorem parse_filter_without_patterns :
    parse_filter {} ["entities".toList] =
      Except.ok { type := filter_type.ENTITY_TYPE, values := [] } ∧
    append_filter "include".toList ["arg".toList, "Name".toList] { include_ := true } =
      Except.ok (true,
        { type := filter_type.ENTITY_ARG, include_ := true, arg := "Name".toList,
          values := [] }) := by
  decide

/-- Claim C15, amended: `parse_filter` does not fail on a token list that names a subkind
and supplies no pattern (the single token "entities" or "layers", or "arg" with a name):
it produces a directive whose pattern set is left as it was.  The pattern set of a
directive that `parse_filter` produces from a fresh filter is non-empty exactly when the
token list holds a pattern token, and every Attribute directive that `parse_filter` or
`append_filter` produces has the second token as its qualifier. -/
theorem parse_filter_pattern_set :
    (∀ filter : geom_filter,
      parse_filter filter ["entities".toList] =
        Except.ok { filter with type := filter_type.ENTITY_TYPE } ∧
      parse_filter filter ["layers".toList] =
        Except.ok { filter with type := filter_type.LAYER_NAME } ∧
      ∀ name : Str, parse_filter filter ["arg".toList, name] =
        Except.ok { filter with type := filter_type.ENTITY_ARG, arg := name }) ∧
    (∀ (values : List Str) (f : geom_filter), parse_filter {} values = Except.ok f →
      (f.values ≠ [] ↔
        values.drop (if f.type = filter_type.ENTITY_ARG then 2 else 1) ≠ []) ∧
      (f.type = filter_type.ENTITY_ARG →
        ∃ q rest, values = "arg".toList :: q :: rest ∧ f.arg = q)) ∧
    (∀ (type : Str) (values : List Str) (filter f : geom_filter),
      append_filter type values filter = Except.ok (true, f) →
      f.type = filter_type.ENTITY_ARG →
      ∃ q rest, values = "arg".toList :: q :: rest ∧ f.arg = q) := by
  refine ⟨?_, ?_, ?_⟩
  · intro filter
    have hne : "layers".toList ≠ "entities".toList := by decide
    have hne1 : "arg".toList ≠ "entities".toList := by decide
    have hne2 : "arg".toList ≠ "layers".toList := by decide
    refine ⟨by simp [parse_filter, set_insert_range],
      by simp [parse_filter, set_insert_range, hne], fun name => ?_⟩
    simp [parse_filter, set_insert_range, hne1, hne2]
  · intro values f h
    obtain ⟨_, _, _, h4, h5⟩ := parse_filter_values_of_ok h
    refine ⟨?_, h5⟩
    have hmem : ∀ p, p ∈ f.values ↔
        p ∈ values.drop (if f.type = filter_type.ENTITY_ARG then 2 else 1) := by
      intro p
      rw [h4, mem_set_insert_range]
      simp
    constructor
    · intro hne hd
      obtain ⟨p, hp⟩ := List.exists_mem_of_ne_nil _ hne
      rw [hmem p, hd] at hp
      cases hp
    · intro hne hf
      obtain ⟨p, hp⟩ := List.exists_mem_of_ne_nil _ hne
      rw [← hmem p, hf] at hp
      cases hp
  · intro type values filter f h ht
    unfold append_filter at h
    cases hp : parse_filter {} values with
    | error e => rw [hp] at h; cases h
    | ok temp =>
      rw [hp] at h
      simp only at h
      split_ifs at h with hc
      · simp at h
      simp only [Except.ok.injEq, Prod.mk.injEq, true_and] at h
      obtain ⟨_, _, _, _, h5⟩ := parse_filter_values_of_ok hp
      have h6 : f.type = temp.type := by rw [← h]
      have h7 : f.arg = temp.arg := by rw [← h]
      obtain ⟨q, rest, hv, hq⟩ := h5 (h6 ▸ ht)
      exact ⟨q, rest, hv, h7.trans hq⟩

/-- Claim C16 fails at this input: in the file with the single line `include arg` the
keyword is recognized and the value tokens are the single token `arg`.  `parse_filter`
takes the qualifier from `values.begin() + 1`, which is the end of the vector: nothing is
thrown, the handler that returns 0 is not reached and the behaviour is undefined, also
when a line with an unknown keyword follows.  The sibling checks do return 0: for the
keyword without a value token and for an unknown subkind. -/
theorem read_filters_arg_without_qualifier :
    split_line "include arg".toList = some ("include".toList, ["arg".toList]) ∧
    select_accumulator "include".toList = some accumulator_id.inclusion ∧
    parse_filter {} ["arg".toList] = Except.error parse_failure.past_the_end ∧
    read_line "include arg".toList 0 {} = line_result.undefined ∧
    read_filters_from_file (some ["include arg".toList]) {} = none ∧
    read_filters_from_file (some ["include arg".toList, "bogus x".toList]) {} = none ∧
    (read_filters_from_file (some ["include".toList]) {}).map (fun r => r.1) = some 0 ∧
    (read_filters_from_file (some ["include walls x".toList]) {}).map (fun r => r.1) =
      some 0 := by
  decide

/-- After any number of valid lines, a line that is not blank and has an unrecognized
keyword, or value tokens on which `parse_filter` throws, makes `read_filters_from_file`
return 0, whatever follows that line; and a line that is empty after trimming is
skipped: the count and the accumulators stay as they are and the loop goes on. -/
theorem read_filters_fails (pre post : List Str) (bad : Str) (acc : filter_accumulators)
    (hpre : ∀ l ∈ pre, line_valid l = true) (hbad : line_fails bad = true) :
    (∃ acc2, read_filters_from_file (some (pre ++ bad :: post)) acc = some (0, acc2)) ∧
    (∀ (line : Str) (n : Nat) (a : filter_accumulators), trim line = [] →
      read_line line n a = line_result.next n a ∧
      ∀ rest, read_lines (line :: rest) n a = read_lines rest n a) := by
  constructor
  · obtain ⟨acc2, _, h2⟩ := read_lines_valid pre hpre 0 acc
    refine ⟨acc2, ?_⟩
    simp only [read_filters_from_file, h2, read_lines, read_line_fails hbad]
  · intro line n a ht
    have hs : split_line line = none := by simp [split_line, ht]
    have h1 : read_line line n a = line_result.next n a := by simp [read_line, hs]
    exact ⟨h1, fun rest => by simp only [read_lines, h1]⟩

/-- Witness of `read_filters_fails`: three valid lines followed by a line with the unknown
keyword `bogus`. -/
theorem read_filters_fails_witness :
    ((∀ l ∈ example_file.take 3, line_valid l = true) ∧
      line_fails "bogus x".toList = true) ∧
    (∃ acc2, read_filters_from_file
      (some (example_file.take 3 ++ "bogus x".toList :: [])) {} = some (0, acc2)) ∧
    (∀ (line : Str) (n : Nat) (a : filter_accumulators), trim line = [] →
      read_line line n a = line_result.next n a ∧
      ∀ rest, read_lines (line :: rest) n a = read_lines rest n a) :=
  ⟨⟨by decide, by decide⟩,
    read_filters_fails (example_file.take 3) [] "bogus x".toList {} (by decide) (by decide)⟩

/-- Counterexample to claim C17: for the file of three valid lines and a fourth line with
an unknown keyword, `read_filters_from_file` returns 0, but the include accumulator, of
kind UNUSED and without patterns before the call, is afterwards the layer directive with
the patterns "North*" and "South*" merged from the first two lines. -/
theorem read_filters_keeps_merges :
    (read_filters_from_file (some example_file) {}).map (fun r => r.1) = some 0 ∧
    (read_filters_from_file (some example_file) {}).map (fun r => r.2.include_filter) =
      some { type := filter_type.LAYER_NAME, include_ := true, traverse := false,
             values := ["North*".toList, "South*".toList] } ∧
    ({} : filter_accumulators).include_filter =
      { type := filter_type.UNUSED, include_ := true, traverse := false, values := [] } := by
  decide

/-- Claim C17, amended: when `read_filters_from_file` fails at some line after valid
lines, it returns 0 and the accumulators keep what the earlier lines merged into them:
they are the accumulators that the call leaves for the earlier lines alone. -/
theorem read_filters_failure_state (pre post : List Str) (bad : Str)
    (acc : filter_accumulators)
    (hpre : ∀ l ∈ pre, line_valid l = true) (hbad : line_fails bad = true) :
    ∃ acc2, read_filters_from_file (some (pre ++ bad :: post)) acc = some (0, acc2) ∧
      read_filters_from_file (some pre) acc = some (merged_lines pre acc, acc2) := by
  obtain ⟨acc2, h1, h2⟩ := read_lines_valid pre hpre 0 acc
  refine ⟨acc2, ?_, ?_⟩
  · simp only [read_filters_from_file, h2, read_lines, read_line_fails hbad]
  · simpa [read_filters_from_file] using h1

/-- Witness of `read_filters_failure_state`: three valid lines followed by a line with the
unknown keyword `bogus`. -/
theorem read_filters_failure_state_witness :
    ((∀ l ∈ example_file.take 3, line_valid l = true) ∧
      line_fails "bogus x".toList = true) ∧
    ∃ acc2, read_filters_from_file
        (some (example_file.take 3 ++ "bogus x".toList :: [])) {} = some (0, acc2) ∧
      read_filters_from_file (some (example_file.take 3)) {} =
        some (merged_lines (example_file.take 3) {}, acc2) :=
  ⟨⟨by decide, by decide⟩,
    read_filters_failure_state (example_file.take 3) [] "bogus x".toList {}
      (by decide) (by decide)⟩

/-! ### The two spellings of a line -/

theorem is_tab_or_blank_space {c : Char} (h : is_tab_or_blank c = true) : is_space c = true := by
  simp only [is_tab_or_blank, Bool.or_eq_true, decide_eq_true_eq] at h
  rcases h with rfl | rfl <;> decide

theorem dropWhile_padding (p : Char → Bool) (pad : Str) (c : Char) (r : Str)
    (hpad : ∀ x ∈ pad, p x = true) (hc : p c = false) :
    (pad ++ c :: r).dropWhile p = c :: r := by
  induction pad with
  | nil => simp [List.dropWhile, hc]
  | cons x xs ih =>
    have hx := hpad x (List.mem_cons_self _ _)
    simp only [List.cons_append, List.dropWhile, hx]
    exact ih (fun y hy => hpad y (List.mem_cons_of_mem _ hy))

theorem trim_padded (lead trail body : Str) (c d : Char) (r r2 : Str)
    (hlead : ∀ x ∈ lead, is_space x = true) (htrail : ∀ x ∈ trail, is_space x = true)
    (hb : body = c :: r) (hc : is_space c = false)
    (hrev : body.reverse = d :: r2) (hd : is_space d = false) :
    trim (lead ++ body ++ trail) = body := by
  unfold trim
  have h1 : (lead ++ body ++ trail).dropWhile is_space = body ++ trail := by
    rw [List.append_assoc, hb, List.cons_append]
    exact dropWhile_padding is_space lead c (r ++ trail) hlead hc
  rw [h1, List.reverse_append, hrev]
  rw [dropWhile_padding is_space trail.reverse d r2
    (fun x hx => htrail x (List.mem_reverse.1 hx)) hd, ← hrev, List.reverse_reverse]

theorem solid_of_token {t : Str} (h : is_token t = true) : solid t := by
  simp only [is_token, Bool.and_eq_true, Bool.not_eq_true', List.all_eq_true] at h
  obtain ⟨hne, hall⟩ := h
  constructor
  · cases t with
    | nil => simp at hne
    | cons c r => exact ⟨c, r, rfl, by simpa using hall c (List.mem_cons_self _ _)⟩
  · cases hr : t.reverse with
    | nil =>
      have : t = [] := by simpa using hr
      subst this
      simp at hne
    | cons d r =>
      refine ⟨d, r, rfl, ?_⟩
      have hd : d ∈ t := by
        rw [← List.mem_reverse, hr]
        exact List.mem_cons_self _ _
      simpa using hall d hd

theorem solid_append {a m b : Str} (ha : solid a) (hb : solid b) : solid (a ++ m ++ b) := by
  obtain ⟨⟨c, r, hc, hc2⟩, _⟩ := ha
  obtain ⟨_, ⟨d, r2, hd, hd2⟩⟩ := hb
  constructor
  · exact ⟨c, r ++ m ++ b, by simp [hc], hc2⟩
  · exact ⟨d, r2 ++ (a ++ m).reverse, by simp [hd], hd2⟩

theorem join_tokens_cons (first s t : Str) (rest : List (Str × Str)) :
    join_tokens first ((s, t) :: rest) = join_tokens (first ++ s ++ t) rest := by
  simp [join_tokens]

theorem solid_join_tokens (rest : List (Str × Str)) :
    ∀ first : Str, solid first → (∀ p ∈ rest, is_token p.2 = true) →
      solid (join_tokens first rest) := by
  induction rest with
  | nil => intro first h _; simpa [join_tokens] using h
  | cons p ps ih =>
    intro first h hall
    obtain ⟨s, t⟩ := p
    rw [join_tokens_cons]
    exact ih _ (solid_append h (solid_of_token (hall (s, t) (List.mem_cons_self _ _))))
      (fun q hq => hall q (List.mem_cons_of_mem _ hq))

theorem trim_join_tokens (lead trail first : Str) (rest : List (Str × Str))
    (hlead : is_padding lead = true) (htrail : is_padding trail = true)
    (hfirst : is_token first = true) (hrest : ∀ p ∈ rest, is_token p.2 = true) :
    trim (lead ++ join_tokens first rest ++ trail) = join_tokens first rest := by
  obtain ⟨⟨c, r, hc, hc2⟩, ⟨d, r2, hd, hd2⟩⟩ :=
    solid_join_tokens rest first (solid_of_token hfirst) hrest
  simp only [is_padding, List.all_eq_true] at hlead htrail
  exact trim_padded lead trail _ c d r r2
    (fun x hx => is_tab_or_blank_space (hlead x hx))
    (fun x hx => is_tab_or_blank_space (htrail x hx)) hc hc2 hd hd2

theorem not_blank_of_token {t : Str} (h : is_token t = true) :
    ∀ c ∈ t, is_tab_or_blank c = false := by
  simp only [is_token, Bool.and_eq_true, Bool.not_eq_true', List.all_eq_true] at h
  intro c hc
  by_contra hb
  have := is_tab_or_blank_space (by simpa using hb : is_tab_or_blank c = true)
  rw [h.2 c hc] at this
  cases this

theorem split_aux_token (d : Char → Bool) (t : Str) (ht : ∀ c ∈ t, d c = false) :
    ∀ (cur : Str) (b : Bool) (more : Str),
      split_compress_aux d cur b (t ++ more) =
        split_compress_aux d (cur ++ t) (b && t.isEmpty) more := by
  induction t with
  | nil => intro cur b more; simp
  | cons c cs ih =>
    intro cur b more
    have hc := ht c (List.mem_cons_self _ _)
    have hcs : ∀ x ∈ cs, d x = false :=
      fun x hx => ht x (List.mem_cons_of_mem _ hx)
    simp only [List.cons_append, split_compress_aux, hc, Bool.false_eq_true, if_false]
    have h := ih hcs (cur ++ [c]) false more
    simp only [List.append_assoc, List.singleton_append, Bool.false_and] at h
    simpa using h

theorem split_aux_padding (d : Char → Bool) (s : Str) (hs : ∀ c ∈ s, d c = true) :
    ∀ (cur : Str) (more : Str),
      split_compress_aux d cur true (s ++ more) = split_compress_aux d cur true more := by
  induction s with
  | nil => intro cur more; rfl
  | cons c cs ih =>
    intro cur more
    have hc := hs c (List.mem_cons_self _ _)
    simp only [List.cons_append, split_compress_aux, hc, if_true]
    exact ih (fun x hx => hs x (List.mem_cons_of_mem _ hx)) cur more

theorem split_aux_run (d : Char → Bool) (s t : Str)
    (hs : ∀ c ∈ s, d c = true) (hsne : s ≠ [])
    (ht : ∀ c ∈ t, d c = false) (htne : t ≠ []) (cur more : Str) :
    split_compress_aux d cur false (s ++ t ++ more) =
      cur :: split_compress_aux d t false more := by
  cases s with
  | nil => exact absurd rfl hsne
  | cons x xs =>
    have hx := hs x (List.mem_cons_self _ _)
    have hxs : ∀ y ∈ xs, d y = true := fun y hy => hs y (List.mem_cons_of_mem _ hy)
    have hte : t.isEmpty = false := by
      cases t with
      | nil => exact absurd rfl htne
      | cons _ _ => rfl
    simp only [List.cons_append, List.append_assoc, split_compress_aux, hx, if_true,
      Bool.false_eq_true, if_false]
    have h1 := split_aux_padding d xs hxs [] (t ++ more)
    have h2 := split_aux_token d t ht [] true more
    simp only [hte, List.nil_append, Bool.and_false] at h2
    rw [h2] at h1
    simpa using h1

theorem split_aux_separator (s t : Str) (hs : is_separator s = true) (ht : is_token t = true)
    (cur more : Str) :
    split_compress_aux is_tab_or_blank cur false (s ++ t ++ more) =
      cur :: split_compress_aux is_tab_or_blank t false more := by
  have htb := not_blank_of_token ht
  simp only [is_separator, Bool.and_eq_true, Bool.not_eq_true', List.all_eq_true] at hs
  simp only [is_token, Bool.and_eq_true, Bool.not_eq_true'] at ht
  exact split_aux_run is_tab_or_blank s t hs.2 (by simpa using hs.1) htb
    (by simpa using ht.1) cur more

theorem split_aux_tail (rest : List (Str × Str))
    (hrest : ∀ p ∈ rest, is_separator p.1 = true ∧ is_token p.2 = true) :
    ∀ cur : Str, split_compress_aux is_tab_or_blank cur false
      (rest.flatMap (fun p => p.1 ++ p.2)) = cur :: rest.map Prod.snd := by
  induction rest with
  | nil => intro cur; simp [split_compress_aux]
  | cons p ps ih =>
    intro cur
    obtain ⟨s, t⟩ := p
    have hp := hrest (s, t) (List.mem_cons_self _ _)
    have hps : ∀ q ∈ ps, is_separator q.1 = true ∧ is_token q.2 = true :=
      fun q hq => hrest q (List.mem_cons_of_mem _ hq)
    simp only [List.flatMap_cons, List.map_cons]
    rw [split_aux_separator s t hp.1 hp.2, ih hps]

theorem split_join_tokens (first : Str) (rest : List (Str × Str))
    (hfirst : is_token first = true)
    (hrest : ∀ p ∈ rest, is_separator p.1 = true ∧ is_token p.2 = true) :
    split_compress is_tab_or_blank (join_tokens first rest) = first :: rest.map Prod.snd := by
  unfold split_compress join_tokens
  rw [split_aux_token is_tab_or_blank first (not_blank_of_token hfirst)]
  simp only [List.nil_append, Bool.false_and]
  exact split_aux_tail rest hrest first

/-- The tokens of a padded line, as the loop body of `read_filters_from_file` sees them. -/
theorem split_line_tokens (lead trail first : Str) (rest : List (Str × Str))
    (hlead : is_padding lead = true) (htrail : is_padding trail = true)
    (hfirst : is_token first = true)
    (hrest : ∀ p ∈ rest, is_separator p.1 = true ∧ is_token p.2 = true) :
    split_line (lead ++ join_tokens first rest ++ trail) =
      (if (first.dropWhile (fun c => c = '-')).indexOf '=' <
          (first.dropWhile (fun c => c = '-')).length then
        some ((first.dropWhile (fun c => c = '-')).take
            ((first.dropWhile (fun c => c = '-')).indexOf '='),
          (first.dropWhile (fun c => c = '-')).drop
            ((first.dropWhile (fun c => c = '-')).indexOf '=' + 1) :: rest.map Prod.snd)
      else some (first.dropWhile (fun c => c = '-'), rest.map Prod.snd)) := by
  have htrim := trim_join_tokens lead trail first rest hlead htrail hfirst
    (fun p hp => (hrest p hp).2)
  have hne : (join_tokens first rest).isEmpty = false := by
    obtain ⟨⟨c, r, hc, _⟩, _⟩ := solid_join_tokens rest first (solid_of_token hfirst)
      (fun p hp => (hrest p hp).2)
    rw [hc]; rfl
  unfold split_line
  simp only [htrim, hne, split_join_tokens first rest hfirst hrest]
  simp

theorem dropWhile_dash_append (k : Str) (b : Str) (hb : ∀ c r, b = c :: r → c ≠ '-')
    (hbne : b ≠ []) :
    (k ++ b).dropWhile (fun c => c = '-') = k.dropWhile (fun c => c = '-') ++ b := by
  induction k with
  | nil =>
    cases b with
    | nil => exact absurd rfl hbne
    | cons c r =>
      have := hb c r rfl
      simp [List.dropWhile, this]
  | cons x xs ih =>
    by_cases hx : x = '-'
    · simp [List.dropWhile, hx, ih]
    · simp [List.dropWhile, hx]

theorem indexOf_eq_length_of_not_mem (a : Char) (l : Str) (h : a ∉ l) :
    l.indexOf a = l.length := by
  by_contra hc
  have hle : l.indexOf a ≤ l.length := List.indexOf_le_length
  have hlt : l.indexOf a < l.length := lt_of_le_of_ne hle hc
  exact h (List.indexOf_lt_length.1 hlt)

theorem indexOf_append_cons (a : Char) (l r : Str) (h : a ∉ l) :
    (l ++ a :: r).indexOf a = l.length := by
  induction l with
  | nil => simp [List.indexOf_cons]
  | cons x xs ih =>
    have hx : x ≠ a := fun e => h (e ▸ List.mem_cons_self _ _)
    have hxs : a ∉ xs := fun e => h (List.mem_cons_of_mem _ e)
    simp [List.indexOf_cons, hx, ih hxs]

theorem read_line_congr {l1 l2 : Str} (h : split_line l1 = split_line l2) (n : Nat)
    (acc : filter_accumulators) : read_line l1 n acc = read_line l2 n acc := by
  unfold read_line
  rw [h]

theorem read_lines_congr {l1 l2 : Str} (h : split_line l1 = split_line l2)
    (pre post : List Str) :
    ∀ (n : Nat) (acc : filter_accumulators),
      read_lines (pre ++ l1 :: post) n acc = read_lines (pre ++ l2 :: post) n acc := by
  induction pre with
  | nil =>
    intro n acc
    simp only [List.nil_append, read_lines, read_line_congr h]
  | cons x xs ih =>
    intro n acc
    simp only [List.cons_append, read_lines]
    cases read_line x n acc with
    | next m acc2 => exact ih m acc2
    | return_zero => rfl
    | undefined => rfl

theorem split_line_flag (lead k v1 : Str) (tail : List (Str × Str)) (trail : Str)
    (hk : is_token k = true) (hkeq : '=' ∉ k) (hv1 : is_token v1 = true)
    (hlead : is_padding lead = true) (htrail : is_padding trail = true)
    (htail : ∀ p ∈ tail, is_separator p.1 = true ∧ is_token p.2 = true) :
    split_line (flag_line lead k v1 tail trail) =
      some (k.dropWhile (fun c => c = '-'), v1 :: tail.map Prod.snd) := by
  have hk2 := hk
  have hv2 := hv1
  simp only [is_token, Bool.and_eq_true, Bool.not_eq_true', List.all_eq_true] at hk2 hv2
  have hfirst : is_token ("--".toList ++ k ++ "=".toList ++ v1) = true := by
    simp only [is_token, Bool.and_eq_true, Bool.not_eq_true', List.all_eq_true]
    refine ⟨by simp, ?_⟩
    intro c hc
    simp only [String.toList, List.mem_append, List.mem_cons, List.mem_singleton,
      List.not_mem_nil, or_false] at hc
    rcases hc with (((rfl | rfl) | hc) | rfl) | hc
    · decide
    · decide
    · exact hk2.2 c hc
    · decide
    · exact hv2.2 c hc
  have hdrop : ("--".toList ++ k ++ "=".toList ++ v1).dropWhile (fun c => c = '-') =
      k.dropWhile (fun c => c = '-') ++ '=' :: v1 := by
    have h1 : "--".toList ++ k ++ "=".toList ++ v1 = '-' :: '-' :: (k ++ '=' :: v1) := by
      simp
    rw [h1]
    simp only [List.dropWhile, decide_True]
    exact dropWhile_dash_append k ('=' :: v1)
      (fun c r h => by cases h; decide) (by simp)
  have hnot : '=' ∉ k.dropWhile (fun c => c = '-') :=
    fun h => hkeq ((List.dropWhile_sublist _).subset h)
  unfold flag_line
  rw [split_line_tokens lead trail _ tail hlead htrail hfirst htail, hdrop,
    indexOf_append_cons '=' _ v1 hnot]
  simp

theorem split_line_bare (lead k sep v1 : Str) (tail : List (Str × Str)) (trail : Str)
    (hk : is_token k = true) (hkeq : '=' ∉ k) (hsep : is_separator sep = true)
    (hv1 : is_token v1 = true)
    (hlead : is_padding lead = true) (htrail : is_padding trail = true)
    (htail : ∀ p ∈ tail, is_separator p.1 = true ∧ is_token p.2 = true) :
    split_line (bare_line lead k sep v1 tail trail) =
      some (k.dropWhile (fun c => c = '-'), v1 :: tail.map Prod.snd) := by
  have hnot : '=' ∉ k.dropWhile (fun c => c = '-') :=
    fun h => hkeq ((List.dropWhile_sublist _).subset h)
  have hrest : ∀ p ∈ (sep, v1) :: tail, is_separator p.1 = true ∧ is_token p.2 = true := by
    intro p hp
    rcases List.mem_cons.1 hp with rfl | hp
    · exact ⟨hsep, hv1⟩
    · exact htail p hp
  unfold bare_line
  rw [split_line_tokens lead trail k _ hlead htrail hk hrest,
    indexOf_eq_length_of_not_mem '=' _ hnot]
  simp

/-- Claim C18: for every keyword `k` (a token without the sign `=`) and value tokens
`v1 .. vn`, the lines `--k=v1 v2 ... vn` and `k v1 v2 ... vn`, with any runs of blanks
and tabs around them and between their tokens, are split into the same keyword and the
same value tokens, so that `read_filters_from_file` treats them alike in every file and
for every state of the accumulators: same success or failure, same count, same
accumulators. -/
theorem flag_and_bare_lines_agree (k v1 sep lead1 trail1 lead2 trail2 : Str)
    (tail1 tail2 : List (Str × Str))
    (hk : is_token k = true) (hkeq : '=' ∉ k) (hv1 : is_token v1 = true)
    (hsep : is_separator sep = true)
    (hlead1 : is_padding lead1 = true) (htrail1 : is_padding trail1 = true)
    (hlead2 : is_padding lead2 = true) (htrail2 : is_padding trail2 = true)
    (htail1 : ∀ p ∈ tail1, is_separator p.1 = true ∧ is_token p.2 = true)
    (htail2 : ∀ p ∈ tail2, is_separator p.1 = true ∧ is_token p.2 = true)
    (htokens : tail1.map Prod.snd = tail2.map Prod.snd) :
    split_line (flag_line lead1 k v1 tail1 trail1) =
      split_line (bare_line lead2 k sep v1 tail2 trail2) ∧
    (∀ (n : Nat) (acc : filter_accumulators),
      read_line (flag_line lead1 k v1 tail1 trail1) n acc =
        read_line (bare_line lead2 k sep v1 tail2 trail2) n acc) ∧
    (∀ (pre post : List Str) (acc : filter_accumulators),
      read_filters_from_file (some (pre ++ flag_line lead1 k v1 tail1 trail1 :: post)) acc =
        read_filters_from_file
          (some (pre ++ bare_line lead2 k sep v1 tail2 trail2 :: post)) acc) := by
  have h : split_line (flag_line lead1 k v1 tail1 trail1) =
      split_line (bare_line lead2 k sep v1 tail2 trail2) := by
    rw [split_line_flag lead1 k v1 tail1 trail1 hk hkeq hv1 hlead1 htrail1 htail1,
      split_line_bare lead2 k sep v1 tail2 trail2 hk hkeq hsep hv1 hlead2 htrail2 htail2,
      htokens]
  refine ⟨h, fun n acc => read_line_congr h n acc, fun pre post acc => ?_⟩
  simp only [read_filters_from_file]
  exact read_lines_congr h pre post 0 acc

/-- Witness of `flag_and_bare_lines_agree`: the lines `--include=arg GlobalId 1VQ5*`,
with a trailing blank, and `include arg GlobalId 1VQ5*`, with a leading tab and wider
separators. -/
theorem flag_and_bare_lines_agree_witness :
    (is_token "include".toList = true ∧ '=' ∉ "include".toList ∧
      is_token "arg".toList = true ∧ is_separator " ".toList = true ∧
      is_padding [] = true ∧ is_padding " ".toList = true ∧
      is_padding "\t".toList = true ∧ is_padding [] = true ∧
      (∀ p ∈ [(" ".toList, "GlobalId".toList), (" ".toList, "1VQ5*".toList)],
        is_separator p.1 = true ∧ is_token p.2 = true) ∧
      (∀ p ∈ [("\t ".toList, "GlobalId".toList), ("  ".toList, "1VQ5*".toList)],
        is_separator p.1 = true ∧ is_token p.2 = true) ∧
      [(" ".toList, "GlobalId".toList), (" ".toList, "1VQ5*".toList)].map Prod.snd =
        [("\t ".toList, "GlobalId".toList), ("  ".toList, "1VQ5*".toList)].map Prod.snd) ∧
    flag_line [] "include".toList "arg".toList
        [(" ".toList, "GlobalId".toList), (" ".toList, "1VQ5*".toList)] " ".toList =
      "--include=arg GlobalId 1VQ5* ".toList ∧
    bare_line "\t".toList "include".toList " ".toList "arg".toList
        [("\t ".toList, "GlobalId".toList), ("  ".toList, "1VQ5*".toList)] [] =
      "\tinclude arg\t GlobalId  1VQ5*".toList ∧
    split_line (flag_line [] "include".toList "arg".toList
        [(" ".toList, "GlobalId".toList), (" ".toList, "1VQ5*".toList)] " ".toList) =
      split_line (bare_line "\t".toList "include".toList " ".toList "arg".toList
        [("\t ".toList, "GlobalId".toList), ("  ".toList, "1VQ5*".toList)] []) ∧
    (∀ (n : Nat) (acc : filter_accumulators),
      read_line (flag_line [] "include".toList "arg".toList
          [(" ".toList, "GlobalId".toList), (" ".toList, "1VQ5*".toList)] " ".toList) n acc =
        read_line (bare_line "\t".toList "include".toList " ".toList "arg".toList
          [("\t ".toList, "GlobalId".toList), ("  ".toList, "1VQ5*".toList)] []) n acc) ∧
    (∀ (pre post : List Str) (acc : filter_accumulators),
      read_filters_from_file (some (pre ++ flag_line [] "include".toList "arg".toList
          [(" ".toList, "GlobalId".toList), (" ".toList, "1VQ5*".toList)] " ".toList
          :: post)) acc =
        read_filters_from_file
          (some (pre ++ bare_line "\t".toList "include".toList " ".toList "arg".toList
            [("\t ".toList, "GlobalId".toList), ("  ".toList, "1VQ5*".toList)] []
            :: post)) acc) :=
  ⟨⟨by decide, by decide, by decide, by decide, by decide, by decide, by decide, by decide,
      by decide, by decide, by decide⟩, by decide, by decide,
    flag_and_bare_lines_agree "include".toList "arg".toList " ".toList [] " ".toList
      "\t".toList [] _ _ (by decide) (by decide) (by decide) (by decide) (by decide)
      (by decide) (by decide) (by decide) (by decide) (by decide) (by decide)⟩

/-! ### The qualifier of an attribute filter -/

/-- Counterexample to claim C19: the qualifier `IfcDoor..GlobalId`, with a repeated dot,
passes the format validation and is constructed as `IfcDoor.GlobalId`; the empty string
passes too; and `IfcDoor.`, with an empty name, fails in the schema lookup, not with
"Invalid input string". -/
theorem create_accepts_repeated_dots :
    string_arg_filter.create example_schema "IfcDoor..GlobalId".toList =
      Except.ok { type := some 3, arg_index := 0, arg_name := "GlobalId".toList } ∧
    string_arg_filter.create example_schema [] =
      Except.ok { type := none, arg_index := 0, arg_name := [] } ∧
    string_arg_filter.create example_schema "IfcDoor.".toList =
      Except.error arg_filter_error.schema_lookup := by
  decide

theorem create_invalid_iff (S : Schema) (str : Str) :
    string_arg_filter.create S str = Except.error arg_filter_error.invalid_input_string ↔
      ((split_compress (fun c => c = '.') str).isEmpty ||
        decide ((split_compress (fun c => c = '.') str).length > 2) ||
        !all_alpha ((split_compress (fun c => c = '.') str).getD 0 []) ||
        ((split_compress (fun c => c = '.') str).length == 2 &&
          !all_alpha ((split_compress (fun c => c = '.') str).getD 1 []))) = true := by
  unfold string_arg_filter.create
  simp only
  generalize split_compress (fun c => c = '.') str = vs
  generalize (vs.isEmpty || decide (vs.length > 2) || !all_alpha (vs.getD 0 []) ||
    (vs.length == 2 && !all_alpha (vs.getD 1 []))) = cnd
  cases cnd with
  | true => simp
  | false =>
    simp only [Bool.false_eq_true, if_false, iff_false]
    split_ifs with h2
    · cases S.FromString (to_upper_copy (vs.getD 0 [])) with
      | none => simp
      | some type =>
        simp only
        cases S.GetAttributeIndex type (vs.getD 1 []) with
        | none => simp
        | some index =>
          simp only
          cases S.GetAttributeType type (index % 256) with
          | none => simp
          | some arg_type =>
            simp only
            split_ifs <;> simp
    · simp

theorem split_compress_aux_ne_nil (d : Char → Bool) (s : Str) :
    ∀ (cur : Str) (b : Bool), split_compress_aux d cur b s ≠ [] := by
  induction s with
  | nil => intro cur b; simp [split_compress_aux]
  | cons c cs ih =>
    intro cur b
    simp only [split_compress_aux]
    split_ifs
    · exact ih _ _
    · simp
    · exact ih _ _

theorem exists_mem_cons_str (x : Char) (v0 : Str) (l : List Str) :
    (∃ v ∈ v0 :: l, x ∈ v) ↔ (x ∈ v0 ∨ ∃ v ∈ l, x ∈ v) := by
  constructor
  · rintro ⟨v, hv, hx⟩
    rcases List.mem_cons.1 hv with rfl | hv
    · exact Or.inl hx
    · exact Or.inr ⟨v, hv, hx⟩
  · rintro (h | ⟨v, hv, hx⟩)
    · exact ⟨v0, List.mem_cons_self _ _, h⟩
    · exact ⟨v, List.mem_cons_of_mem _ hv, hx⟩

theorem mem_split_compress_aux (d : Char → Bool) (x : Char) (s : Str) :
    ∀ (cur : Str) (b : Bool),
      (∃ v ∈ split_compress_aux d cur b s, x ∈ v) ↔ (x ∈ cur ∨ (x ∈ s ∧ d x = false)) := by
  induction s with
  | nil => intro cur b; simp [split_compress_aux]
  | cons c cs ih =>
    intro cur b
    simp only [split_compress_aux]
    by_cases hc : d c = true
    · have hxc : x = c → ¬ (d x = false) := by
        intro h hd
        rw [h, hc] at hd
        cases hd
      cases b with
      | true =>
        simp only [hc, if_true, ih, List.mem_cons]
        tauto
      | false =>
        simp only [hc, if_true, Bool.false_eq_true, if_false]
        rw [exists_mem_cons_str, ih]
        simp only [List.mem_cons, List.not_mem_nil, false_or]
        tauto
    · have hc2 : d c = false := by simpa using hc
      have hxc : x = c → d x = false := fun h => h ▸ hc2
      simp only [hc2, Bool.false_eq_true, if_false, ih, List.mem_append, List.mem_singleton,
        List.mem_cons]
      tauto

theorem not_all_alpha_iff (v : Str) : all_alpha v = false ↔ ∃ c ∈ v, c.isAlpha = false := by
  simp [all_alpha, List.all_eq_false]

theorem split_names (d : Char → Bool) (a dots b : Str)
    (ha : ∀ c ∈ a, d c = false) (hb : ∀ c ∈ b, d c = false) (hbne : b ≠ [])
    (hdots : ∀ c ∈ dots, d c = true) (hdne : dots ≠ []) :
    split_compress d (a ++ dots ++ b) = [a, b] ∧ split_compress d a = [a] := by
  unfold split_compress
  constructor
  · rw [List.append_assoc, split_aux_token d a ha]
    have h := split_aux_run d dots b hdots hdne hb hbne a []
    simp only [List.append_nil, List.nil_append, Bool.false_and] at h ⊢
    rw [h]
    simp [split_compress_aux]
  · have h := split_aux_token d a ha [] false []
    simp only [List.append_nil, List.nil_append, Bool.false_and] at h
    rw [h]
    simp [split_compress_aux]

/-- Claim C19, amended: for a qualifier string without an empty component, the
construction of `string_arg_filter` fails with "Invalid input string" exactly when the
string has more than two components or holds a character that is neither a letter nor a
dot.  The components are separated by runs of dots (`token_compress_on`), so that a
single alphabetic name and two alphabetic names joined by one or more dots pass the
format validation. -/
theorem create_format_validation (S : Schema) (str : Str)
    (_hne : ∀ v ∈ split_compress (fun c => c = '.') str, v ≠ []) :
    (string_arg_filter.create S str = Except.error arg_filter_error.invalid_input_string ↔
      (2 < (split_compress (fun c => c = '.') str).length ∨
        ∃ c ∈ str, c ≠ '.' ∧ c.isAlpha = false)) ∧
    (∀ a dots b : Str, a ≠ [] → b ≠ [] → all_alpha a = true → all_alpha b = true →
      dots ≠ [] → (∀ c ∈ dots, c = '.') →
      split_compress (fun c => c = '.') (a ++ dots ++ b) = [a, b] ∧
      split_compress (fun c => c = '.') a = [a] ∧
      string_arg_filter.create S (a ++ dots ++ b) ≠
        Except.error arg_filter_error.invalid_input_string ∧
      string_arg_filter.create S a = Except.ok { type := none, arg_name := a }) := by
  have hmem : ∀ (s : Str), (∃ v ∈ split_compress (fun c => c = '.') s, all_alpha v = false) ↔
      ∃ c ∈ s, c ≠ '.' ∧ c.isAlpha = false := by
    intro s
    constructor
    · rintro ⟨v, hv, hva⟩
      obtain ⟨c, hc, hca⟩ := (not_all_alpha_iff v).1 hva
      have := (mem_split_compress_aux (fun c => c = '.') c s [] false).1 ⟨v, hv, hc⟩
      simp only [List.not_mem_nil, false_or, decide_eq_false_iff_not] at this
      exact ⟨c, this.1, this.2, hca⟩
    · rintro ⟨c, hc, hcd, hca⟩
      obtain ⟨v, hv, hcv⟩ := (mem_split_compress_aux (fun c => c = '.') c s [] false).2
        (Or.inr ⟨hc, by simpa using hcd⟩)
      exact ⟨v, hv, (not_all_alpha_iff v).2 ⟨c, hcv, hca⟩⟩
  have hcond : ∀ (s : Str),
      (string_arg_filter.create S s = Except.error arg_filter_error.invalid_input_string ↔
        (2 < (split_compress (fun c => c = '.') s).length ∨
          ∃ v ∈ split_compress (fun c => c = '.') s, all_alpha v = false)) := by
    intro s
    rw [create_invalid_iff]
    have hnn : split_compress (fun c => c = '.') s ≠ [] :=
      split_compress_aux_ne_nil _ s [] false
    generalize split_compress (fun c => c = '.') s = vs at hnn
    match vs, hnn with
    | [v0], _ => cases h0 : all_alpha v0 <;> simp [h0]
    | [v0, v1], _ => cases h0 : all_alpha v0 <;> cases h1 : all_alpha v1 <;> simp [h0, h1]
    | v0 :: v1 :: v2 :: rest, _ => simp
  refine ⟨by rw [hcond, hmem], ?_⟩
  intro a dots b hane hbne haa hba hdne hdots
  have ha : ∀ c ∈ a, (fun c => decide (c = '.')) c = false := by
    intro c hc
    have : c.isAlpha = true := by
      simp only [all_alpha, List.all_eq_true] at haa
      exact haa c hc
    simp only [decide_eq_false_iff_not]
    rintro rfl
    exact absurd this (by decide)
  have hb : ∀ c ∈ b, (fun c => decide (c = '.')) c = false := by
    intro c hc
    have : c.isAlpha = true := by
      simp only [all_alpha, List.all_eq_true] at hba
      exact hba c hc
    simp only [decide_eq_false_iff_not]
    rintro rfl
    exact absurd this (by decide)
  have hd : ∀ c ∈ dots, (fun c => decide (c = '.')) c = true := by
    intro c hc
    simpa using hdots c hc
  obtain ⟨h1, h2⟩ := split_names (fun c => c = '.') a dots b ha hb hbne hd hdne
  refine ⟨h1, h2, ?_, ?_⟩
  · intro hcontra
    rw [hcond, h1] at hcontra
    simp [haa, hba] at hcontra
  · unfold string_arg_filter.create
    simp [h2, haa]

/-- Witness of `create_format_validation`: the qualifier `IfcDoor..GlobalId`. -/
theorem create_format_validation_witness :
    (∀ v ∈ split_compress (fun c => c = '.') "IfcDoor..GlobalId".toList, v ≠ []) ∧
    (string_arg_filter.create example_schema "IfcDoor..GlobalId".toList =
        Except.error arg_filter_error.invalid_input_string ↔
      (2 < (split_compress (fun c => c = '.') "IfcDoor..GlobalId".toList).length ∨
        ∃ c ∈ "IfcDoor..GlobalId".toList, c ≠ '.' ∧ c.isAlpha = false)) ∧
    (∀ a dots b : Str, a ≠ [] → b ≠ [] → all_alpha a = true → all_alpha b = true →
      dots ≠ [] → (∀ c ∈ dots, c = '.') →
      split_compress (fun c => c = '.') (a ++ dots ++ b) = [a, b] ∧
      split_compress (fun c => c = '.') a = [a] ∧
      string_arg_filter.create example_schema (a ++ dots ++ b) ≠
        Except.error arg_filter_error.invalid_input_string ∧
      string_arg_filter.create example_schema a = Except.ok { type := none, arg_name := a }) :=
  ⟨by decide, create_format_validation example_schema "IfcDoor..GlobalId".toList (by decide)⟩

/-! ### The second run of the builder -/

theorem filter_keys_final_refs (o : filter_objects) :
    (final_refs o).filter (fun r => r.key.isNone) = final_refs o := by
  unfold final_refs
  split_ifs <;> simp [filter_ref.key]

theorem filter_keys_append (keys : List Str) (refs : List filter_ref) :
    (keys.map filter_ref.arg_filter ++ refs).filter (fun r => r.key.isNone) =
      refs.filter (fun r => r.key.isNone) := by
  induction keys with
  | nil => rfl
  | cons k rest ih =>
    show (filter_ref.arg_filter k :: (rest.map filter_ref.arg_filter ++ refs)).filter _ = _
    rw [List.filter_cons_of_neg (by simp [filter_ref.key]), ih]

theorem filter_keys_of_no_keys (refs : List filter_ref) (h : attribute_keys refs = []) :
    refs.filter (fun r => r.key.isNone) = refs := by
  induction refs with
  | nil => rfl
  | cons r rest ih =>
    cases r with
    | arg_filter key => simp [attribute_keys, filter_ref.key] at h
    | layer_filter =>
      rw [List.filter_cons_of_pos (by simp [filter_ref.key]), ih (by simpa [attribute_keys,
        filter_ref.key] using h)]
    | entity_filter =>
      rw [List.filter_cons_of_pos (by simp [filter_ref.key]), ih (by simpa [attribute_keys,
        filter_ref.key] using h)]

theorem accepted_by_filter (S : Schema) (K : Kernel) (o : filter_objects) (fuel : Nat)
    (prod : IfcProduct) (refs : List filter_ref)
    (h : ∀ r ∈ refs, r.key.isSome = true → r.call S K o fuel prod = some true) :
    accepted_by S K o fuel prod (refs.filter (fun r => r.key.isNone)) =
      accepted_by S K o fuel prod refs := by
  induction refs with
  | nil => rfl
  | cons r rest ih =>
    have ih2 := ih (fun g hg => h g (List.mem_cons_of_mem _ hg))
    cases hk : r.key with
    | none =>
      rw [List.filter_cons_of_pos (by simp [hk])]
      simp only [accepted_by, ih2]
    | some key =>
      rw [List.filter_cons_of_neg (by simp [hk]), ih2]
      have hc := h r (List.mem_cons_self _ _) (by simp [hk])
      simp only [accepted_by, hc]
      cases accepted_by S K o fuel prod rest <;> simp

/-- Counterexample to claim C20: for the single directive
`--exclude=arg IfcDoor.GlobalId 1ABC*` the first run returns the attribute predicate and
the default entity predicate; the second run finds the qualifier in the map, pushes no
attribute predicate and returns the entity predicate alone.  The door with the
`GlobalId` "1ABCXYZ" is rejected by the first list and accepted by the second. -/
theorem second_run_drops_attribute_predicate :
    setup_filters example_schema [exclude_door_globalid] ".obj".toList {} =
      some (first_run.1, first_run.2) ∧
    first_run.1 =
      [filter_ref.arg_filter "IfcDoor.GlobalId".toList, filter_ref.entity_filter] ∧
    setup_filters example_schema [exclude_door_globalid] ".obj".toList first_run.2 =
      some (second_run.1, second_run.2) ∧
    second_run.1 = [filter_ref.entity_filter] ∧
    second_run.2 = first_run.2 ∧
    accepted_by example_schema example_kernel first_run.2 1 example_door first_run.1 =
      some false ∧
    accepted_by example_schema example_kernel second_run.2 1 example_door second_run.1 =
      some true := by
  decide

/-- Claim C20, amended: when a run of `setup_filters` on a well-formed attribute-filter
map succeeds, a second run on the same directives and on the filter objects as the first
run left them leaves the filter objects unchanged and returns the list of the first run
without its attribute predicates, because every qualifier is already in the map.  The two
lists are equal when the first holds no attribute predicate, and they make the same
decision for every entity that all attribute predicates of the first list accept. -/
theorem setup_filters_second_run (S : Schema) (filters : List geom_filter) (ext : Str)
    (o o1 : filter_objects) (refs : List filter_ref)
    (hs : map_sorted o.arg_filters)
    (h : setup_filters S filters ext o = some (refs, o1)) (hne : refs ≠ []) :
    setup_filters S filters ext o1 = some (refs.filter (fun r => r.key.isNone), o1) ∧
    (attribute_keys refs = [] → setup_filters S filters ext o1 = some (refs, o1)) ∧
    (∀ (K : Kernel) (fuel : Nat) (prod : IfcProduct),
      (∀ r ∈ refs, r.key.isSome = true → r.call S K o1 fuel prod = some true) →
      accepted_by S K o1 fuel prod (refs.filter (fun r => r.key.isNone)) =
        accepted_by S K o1 fuel prod refs) := by
  obtain ⟨funcs, oL, ef, hl, hD, ho, hrefs⟩ := setup_filters_success S filters ext o o1 refs h hne
  obtain ⟨hsorted, hmake, keys, hfuncs, _, _, hfind, _⟩ :=
    setup_filters_loop_args S filters [] o funcs oL hs hl
  obtain ⟨hok, hent, hlay⟩ := setup_filters_loop_folds S filters [] o funcs oL hl
  have hargs : o1.arg_filters = oL.arg_filters := by rw [ho]
  have hentity : o1.entity_filter = ef := by rw [ho]
  have hlayer : o1.layer_filter = oL.layer_filter := by rw [ho]
  have hpresent : ∀ q ∈ arg_directives filters, map_find q o1.arg_filters ≠ none := by
    intro q hq
    rw [hargs, hfind q]
    unfold entry_after
    cases map_find q o.arg_filters with
    | some v => simp
    | none =>
      obtain ⟨f, h1, h2, h3, _⟩ := first_arg_directive_spec q filters hq
      have h5 := hmake f h2 h3
      simp only [h1, Option.some_bind]
      intro hn
      rw [hn] at h5
      cases h5
  have hloop2 := setup_filters_loop_rerun S filters [] o1 hok (by rw [hargs]; exact hsorted)
    hpresent
  have hef : (default_entity_filter S ext oL.entity_filter).1 = ef := by rw [hD]
  have hef_values : ef.values ≠ [] := by
    have := default_entity_filter_values S ext oL.entity_filter (by rw [hD])
    rwa [hef] at this
  have hfold_entity :
      default_entity_filter S ext (entity_fold S filters o1.entity_filter) = (ef, none) := by
    rw [hentity]
    by_cases hty : ∃ f ∈ filters, f.type = filter_type.ENTITY_TYPE
    · have hdesc : ef.description = o.entity_filter.description := by
        rw [← hef, default_entity_filter_description, hent, entity_fold_description]
      rw [entity_fold_congr S filters ef o.entity_filter hty hdesc, ← hent, hD]
    · rw [entity_fold_id S filters ef (fun f hf hft => hty ⟨f, hf, hft⟩)]
      exact default_entity_filter_of_values S ext ef hef_values
  have hfold_layer : layer_fold filters o1.layer_filter = o1.layer_filter := by
    rw [hlayer]
    by_cases hty : ∃ f ∈ filters, f.type = filter_type.LAYER_NAME
    · have hdesc : oL.layer_filter.description = o.layer_filter.description := by
        rw [hlay, layer_fold_description]
      rw [layer_fold_congr S filters oL.layer_filter o.layer_filter hok hty hdesc, ← hlay]
    · exact layer_fold_id filters oL.layer_filter (fun f hf hft => hty ⟨f, hf, hft⟩)
  have hsecond : setup_filters S filters ext o1 =
      some (refs.filter (fun r => r.key.isNone), o1) := by
    rw [setup_filters_eq, hloop2]
    simp only
    rw [hfold_entity]
    simp only [hfold_layer, List.nil_append]
    have ho1 : filter_objects.mk ef o1.layer_filter o1.arg_filters = o1 := by
      rw [← hentity]
    rw [ho1, hrefs, hfuncs, List.nil_append, filter_keys_append, filter_keys_final_refs]
  refine ⟨hsecond, ?_, ?_⟩
  · intro hk
    rw [hsecond, filter_keys_of_no_keys refs hk]
  · intro K fuel prod hacc
    exact accepted_by_filter S K o1 fuel prod refs hacc

/-- Witness of `setup_filters_second_run`: a layer directive followed by an attribute
directive, on fresh filter objects. -/
theorem setup_filters_second_run_witness :
    (map_sorted ({} : filter_objects).arg_filters ∧
      setup_filters example_schema [include_layers, include_any_name] ".obj".toList {} =
        some (example_setup.1, example_setup.2) ∧ example_setup.1 ≠ []) ∧
    (setup_filters example_schema [include_layers, include_any_name] ".obj".toList
        example_setup.2 =
      some (example_setup.1.filter (fun r => r.key.isNone), example_setup.2) ∧
    (attribute_keys example_setup.1 = [] →
      setup_filters example_schema [include_layers, include_any_name] ".obj".toList
        example_setup.2 = some (example_setup.1, example_setup.2)) ∧
    (∀ (K : Kernel) (fuel : Nat) (prod : IfcProduct),
      (∀ r ∈ example_setup.1, r.key.isSome = true →
        r.call example_schema K example_setup.2 fuel prod = some true) →
      accepted_by example_schema K example_setup.2 fuel prod
          (example_setup.1.filter (fun r => r.key.isNone)) =
        accepted_by example_schema K example_setup.2 fuel prod example_setup.1)) :=
  ⟨⟨List.sorted_nil, by decide, by decide⟩,
    setup_filters_second_run example_schema [include_layers, include_any_name] ".obj".toList {}
      example_setup.2 example_setup.1 List.sorted_nil (by decide) (by decide)⟩

/-! ### The include flag of the default entity filter -/

/-- Claim C21 fails at this input: the tokens `entities` after the keyword `include` are
merged into an entity directive with `include` set and no name.  For it, the output
extension ".obj" and fresh filter objects, the loop of `setup_filters` sets the flag
`include` of the entity filter, the default names are injected because the filter holds
no name, and the flag is not reset: the returned entity predicate has `include = true`
over `IfcSpace` and `IfcOpeningElement`.  It accepts a space and rejects a door. -/
theorem default_filter_keeps_include_flag :
    append_filter "include".toList ["entities".toList] { include_ := true } =
      Except.ok (true, include_no_entities) ∧
    setup_filters example_schema [include_no_entities] ".obj".toList {} =
      some (no_entities_setup.1, no_entities_setup.2) ∧
    no_entities_setup.1 = [filter_ref.entity_filter] ∧
    no_entities_setup.2.entity_filter =
      { include_ := true, traverse := false, values := [1, 2] } ∧
    example_schema.FromString "IFCSPACE".toList = some 1 ∧
    example_schema.FromString "IFCOPENINGELEMENT".toList = some 2 ∧
    accepted_by example_schema example_kernel no_entities_setup.2 1 example_space
      no_entities_setup.1 = some true ∧
    accepted_by example_schema example_kernel no_entities_setup.2 1 example_door
      no_entities_setup.1 = some false := by
  decide

/-! ### Attribute directives that repeat a qualifier -/

theorem setup_filters_loop_append (S : Schema) (l1 l2 : List geom_filter) :
    ∀ (funcs : List filter_ref) (o : filter_objects),
      setup_filters_loop S (l1 ++ l2) funcs o =
        loop_continue S l2 (setup_filters_loop S l1 funcs o) := by
  induction l1 with
  | nil => intro funcs o; rfl
  | cons d rest ih =>
    intro funcs o
    rw [List.cons_append]
    cases ht : d.type with
    | UNUSED =>
      rw [loop_cons_unused S d _ funcs o ht, loop_cons_unused S d _ funcs o ht]
      exact ih funcs o
    | ENTITY_TYPE =>
      rw [loop_cons_entity S d _ funcs o ht, loop_cons_entity S d _ funcs o ht]
      by_cases hany : d.values.any (fun t => (S.FromString (to_upper_copy t)).isNone) = true
      · rw [if_pos hany, if_pos hany]; rfl
      · rw [if_neg hany, if_neg hany]
        exact ih funcs _
    | LAYER_NAME =>
      rw [loop_cons_layer S d _ funcs o ht, loop_cons_layer S d _ funcs o ht]
      cases populate_values d.values [] with
      | none => rfl
      | some vs => exact ih funcs _
    | ENTITY_ARG =>
      rw [loop_cons_arg S d _ funcs o ht, loop_cons_arg S d _ funcs o ht]
      cases string_arg_filter.create S d.arg with
      | error e => rfl
      | ok af0 =>
        cases make_arg_filter S d with
        | none => rfl
        | some af => exact ih _ _

theorem first_arg_directive_append (q : Str) (pre rest : List geom_filter)
    (hpre : ∀ d ∈ pre, d.type = filter_type.ENTITY_ARG → d.arg ≠ q) :
    first_arg_directive q (pre ++ rest) = first_arg_directive q rest := by
  induction pre with
  | nil => rfl
  | cons d more ih =>
    rw [List.cons_append, first_arg_directive_cons_other q d _ (by
      by_cases ht : d.type = filter_type.ENTITY_ARG
      · exact Or.inr (hpre d (List.mem_cons_self _ _) ht)
      · exact Or.inl ht)]
    exact ih (fun e he => hpre e (List.mem_cons_of_mem _ he))

/-- An attribute directive whose qualifier is already in the map leaves the loop of
`setup_filters` where it was, provided the loop gets through. -/
theorem loop_skips_known_qualifier (S : Schema) (g : geom_filter) (post : List geom_filter)
    (funcs funcs2 : List filter_ref) (o o2 : filter_objects)
    (hg : g.type = filter_type.ENTITY_ARG) (hs : map_sorted o.arg_filters)
    (hknown : map_find g.arg o.arg_filters ≠ none)
    (h : setup_filters_loop S (g :: post) funcs o = some (loop_result.done funcs2 o2)) :
    setup_filters_loop S post funcs o = some (loop_result.done funcs2 o2) := by
  rw [loop_cons_arg S g post funcs o hg] at h
  cases hc : string_arg_filter.create S g.arg with
  | error e => rw [hc] at h; cases h
  | ok af0 =>
    rw [hc] at h
    cases hm : make_arg_filter S g with
    | none => rw [hm] at h; cases h
    | some ag =>
      rw [hm] at h
      simp only at h
      have hfalse : (map_insert g.arg ag o.arg_filters).2 = false := by
        cases hb : (map_insert g.arg ag o.arg_filters).2 with
        | false => rfl
        | true => exact absurd ((map_insert_spec g.arg ag o.arg_filters hs).1.1 hb) hknown
      rw [hfalse, map_insert_not_inserted g.arg ag o.arg_filters hfalse] at h
      simpa using h

/-- Counterexample to claim C22: two attribute directives carry the qualifier `Name`.
When a further directive of the list raises a validation error (a qualifier with three
components), `setup_filters` returns the empty list, which holds no attribute predicate
for `Name`.  And when the map holds the qualifier before the call, as a first run leaves
it, `insert` reports no new entry and the returned list, though not empty, holds no
attribute predicate for `Name` either. -/
theorem repeated_qualifier_without_predicate :
    validation_error example_schema bad_qualifier_directive = true ∧
    (setup_filters example_schema [include_name_a, exclude_name_b, bad_qualifier_directive]
      ".obj".toList {}).map (fun r => r.1) = some [] ∧
    setup_filters example_schema [include_name_a, exclude_name_b] ".obj".toList {} =
      some (same_qualifier_setup.1, same_qualifier_setup.2) ∧
    attribute_keys same_qualifier_setup.1 = ["Name".toList] ∧
    (setup_filters example_schema [include_name_a, exclude_name_b] ".obj".toList
      same_qualifier_setup.2).map (fun r => r.1) = some [filter_ref.entity_filter] := by
  decide

/-- Claim C22, amended: when `setup_filters` is called with an empty attribute-filter map
and succeeds on a directive list in which an attribute directive `g` repeats the
qualifier of an earlier attribute directive `f`, the first with that qualifier, then the
returned list holds exactly one attribute predicate for the qualifier.  That predicate is
the filter built from `f` alone: what the constructor makes of the qualifier, with the
include and traverse flags of `f` and a pattern set that holds the compiled expression of
every pattern of `f` and nothing else.  And `g` changes nothing: the call returns the same
list and leaves the same filter objects as for the directive list without `g`. -/
theorem setup_filters_repeated_qualifier (S : Schema) (ext : Str) (o o2 : filter_objects)
    (refs : List filter_ref) (pre mid post : List geom_filter) (f g : geom_filter)
    (hempty : o.arg_filters = [])
    (h : setup_filters S (pre ++ f :: mid ++ g :: post) ext o = some (refs, o2))
    (hne : refs ≠ [])
    (hf : f.type = filter_type.ENTITY_ARG) (hg : g.type = filter_type.ENTITY_ARG)
    (hq : g.arg = f.arg)
    (hfirst : ∀ d ∈ pre, d.type = filter_type.ENTITY_ARG → d.arg ≠ f.arg) :
    (∃ before after, attribute_keys refs = before ++ f.arg :: after ∧
      f.arg ∉ before ∧ f.arg ∉ after) ∧
    (∃ af, map_find f.arg o2.arg_filters = some af ∧ make_arg_filter S f = some af ∧
      af.include_ = f.include_ ∧ af.traverse = f.traverse ∧
      populate_values f.values [] = some af.values ∧
      filter_ref.arg_filter f.arg ∈ refs ∧
      (∀ (K : Kernel) (fuel : Nat) (prod : IfcProduct),
        (filter_ref.arg_filter f.arg).call S K o2 fuel prod = af.call S K fuel prod) ∧
      (∃ base, string_arg_filter.create S f.arg = Except.ok base ∧ af.type = base.type ∧
        af.arg_index = base.arg_index ∧ af.arg_name = base.arg_name) ∧
      (∀ p ∈ f.values, (wildcard_string_to_regex p).isSome = true) ∧
      (∀ r, r ∈ af.values ↔ ∃ p ∈ f.values, wildcard_string_to_regex p = some r) ∧
      (∀ s, af.match_str s = true ↔
        ∃ p ∈ f.values, ∃ r, wildcard_string_to_regex p = some r ∧
          regex_match s r = true)) ∧
    setup_filters S (pre ++ f :: mid ++ post) ext o = some (refs, o2) := by
  obtain ⟨funcs, oL, ef, hl, hD, ho, hrefs⟩ :=
    setup_filters_success S _ ext o o2 refs h hne
  have hs : map_sorted o.arg_filters := by
    rw [hempty]; exact List.sorted_nil
  -- the whole loop
  obtain ⟨_, hmake, keys, hfuncs, hnodup, hmem, hfind, _⟩ :=
    setup_filters_loop_args S _ [] o funcs oL hs hl
  have hkeys : attribute_keys refs = keys := by
    rw [hrefs, hfuncs, List.nil_append, attribute_keys_append, attribute_keys_final_refs,
      List.append_nil]
  have hfmem : f ∈ pre ++ f :: mid ++ g :: post := by simp
  have hfirst_all : first_arg_directive f.arg (pre ++ f :: mid ++ g :: post) = some f := by
    rw [List.append_assoc, first_arg_directive_append f.arg pre _ hfirst, List.cons_append,
      first_arg_directive_cons_self f _ hf]
  have hmf := hmake f hfmem hf
  cases hm : make_arg_filter S f with
  | none => rw [hm] at hmf; cases hmf
  | some af =>
    have hentry : map_find f.arg oL.arg_filters = some af := by
      rw [hfind f.arg]
      unfold entry_after
      rw [hempty]
      simp only [map_find, hfirst_all, Option.some_bind, hm]
    have hargs : o2.arg_filters = oL.arg_filters := by rw [ho]
    have hqmem : f.arg ∈ keys := by
      rw [hmem f.arg, hempty]
      refine ⟨?_, by simp [map_find]⟩
      unfold arg_directives
      exact List.mem_map.2 ⟨f, List.mem_filter.2 ⟨hfmem, by simp [hf]⟩, rfl⟩
    obtain ⟨hvalues, hinclude, htraverse⟩ := make_arg_filter_spec S f af hm
    obtain ⟨hbase, _, _, hcomp, hvals, hmatch⟩ := make_arg_filter_content S f af hm
    have hmap : map_find f.arg o2.arg_filters = some af := by rw [hargs]; exact hentry
    have hin : filter_ref.arg_filter f.arg ∈ refs := by
      rw [hrefs, hfuncs, List.nil_append]
      exact List.mem_append_left _ (List.mem_map_of_mem _ hqmem)
    refine ⟨?_, ⟨af, hmap, rfl, hinclude, htraverse, hvalues, hin,
      fun K fuel prod => by simp only [filter_ref.call, hmap], hbase, hcomp, hvals,
      hmatch⟩, ?_⟩
    · rw [hkeys]
      obtain ⟨s, t, hst⟩ := List.append_of_mem hqmem
      rw [hst] at hnodup
      obtain ⟨_, h2, h3⟩ := List.nodup_append.1 hnodup
      exact ⟨s, t, hst, fun hin => h3 hin (List.mem_cons_self _ _), (List.nodup_cons.1 h2).1⟩
    · -- the loop up to the later directive
      rw [setup_filters_loop_append S (pre ++ f :: mid) (g :: post) [] o] at hl
      cases h1 : setup_filters_loop S (pre ++ f :: mid) [] o with
      | none => rw [h1] at hl; cases hl
      | some r =>
        cases r with
        | failed o1 => rw [h1] at hl; cases hl
        | done funcs1 o1 =>
          rw [h1] at hl
          obtain ⟨hs1, hmake1, _, _, _, _, hfind1, _⟩ :=
            setup_filters_loop_args S _ [] o funcs1 o1 hs h1
          have hknown : map_find g.arg o1.arg_filters ≠ none := by
            rw [hq, hfind1 f.arg]
            unfold entry_after
            rw [hempty, first_arg_directive_append f.arg pre _ hfirst,
              first_arg_directive_cons_self f _ hf]
            simp [map_find, hm]
          have hpost := loop_skips_known_qualifier S g post funcs1 funcs o1 oL hg hs1 hknown hl
          have hl2 : setup_filters_loop S (pre ++ f :: mid ++ post) [] o =
              some (loop_result.done funcs oL) := by
            rw [setup_filters_loop_append S (pre ++ f :: mid) post [] o, h1]
            exact hpost
          rw [setup_filters_eq, hl2]
          simp only
          rw [hD]
          simp only
          rw [← ho, hrefs]

/-- Witness of `setup_filters_repeated_qualifier`: the directives `--include=arg Name A*`
and `--exclude+=arg Name B*`. -/
theorem setup_filters_repeated_qualifier_witness :
    ((({} : filter_objects).arg_filters = [] ∧
      setup_filters example_schema ([] ++ include_name_a :: [] ++ exclude_name_b :: [])
        ".obj".toList {} = some (same_qualifier_setup.1, same_qualifier_setup.2) ∧
      same_qualifier_setup.1 ≠ [] ∧
      include_name_a.type = filter_type.ENTITY_ARG ∧
      exclude_name_b.type = filter_type.ENTITY_ARG ∧
      exclude_name_b.arg = include_name_a.arg ∧
      (∀ d ∈ ([] : List geom_filter), d.type = filter_type.ENTITY_ARG →
        d.arg ≠ include_name_a.arg)) ∧
     same_qualifier_setup.1 =
       [filter_ref.arg_filter "Name".toList, filter_ref.entity_filter] ∧
     (map_find "Name".toList same_qualifier_setup.2.arg_filters).map
         (fun af => (af.include_, af.traverse, af.values)) =
       (wildcard_string_to_regex "A*".toList).map (fun r => (true, false, [r])) ∧
     (wildcard_string_to_regex "A*".toList).map (fun r => regex_match "Atrium".toList r) =
       some true ∧
     (wildcard_string_to_regex "B*".toList).map (fun r => regex_match "Atrium".toList r) =
       some false) ∧
    ((∃ before after, attribute_keys same_qualifier_setup.1 =
        before ++ include_name_a.arg :: after ∧
      include_name_a.arg ∉ before ∧ include_name_a.arg ∉ after) ∧
    (∃ af, map_find include_name_a.arg same_qualifier_setup.2.arg_filters = some af ∧
      make_arg_filter example_schema include_name_a = some af ∧
      af.include_ = include_name_a.include_ ∧ af.traverse = include_name_a.traverse ∧
      populate_values include_name_a.values [] = some af.values ∧
      filter_ref.arg_filter include_name_a.arg ∈ same_qualifier_setup.1 ∧
      (∀ (K : Kernel) (fuel : Nat) (prod : IfcProduct),
        (filter_ref.arg_filter include_name_a.arg).call example_schema K
            same_qualifier_setup.2 fuel prod = af.call example_schema K fuel prod) ∧
      (∃ base, string_arg_filter.create example_schema include_name_a.arg = Except.ok base ∧
        af.type = base.type ∧ af.arg_index = base.arg_index ∧
        af.arg_name = base.arg_name) ∧
      (∀ p ∈ include_name_a.values, (wildcard_string_to_regex p).isSome = true) ∧
      (∀ r, r ∈ af.values ↔
        ∃ p ∈ include_name_a.values, wildcard_string_to_regex p = some r) ∧
      (∀ s, af.match_str s = true ↔
        ∃ p ∈ include_name_a.values, ∃ r, wildcard_string_to_regex p = some r ∧
          regex_match s r = true)) ∧
    setup_filters example_schema ([] ++ include_name_a :: [] ++ []) ".obj".toList {} =
      some (same_qualifier_setup.1, same_qualifier_setup.2)) :=
  ⟨⟨⟨rfl, by decide, by decide, rfl, rfl, rfl, fun d hd => absurd hd (List.not_mem_nil d)⟩,
      by decide, by decide, by decide, by decide⟩,
    setup_filters_repeated_qualifier example_schema ".obj".toList {} same_qualifier_setup.2
      same_qualifier_setup.1 [] [] [] include_name_a exclude_name_b rfl (by decide)
      (by decide) rfl rfl rfl (fun d hd => absurd hd (List.not_mem_nil d))⟩

end IfcGeom
